import Mathlib

/-!
# Voting service (`src/voting_system_api.js`)

A shallow embedding of the REST service: the three tables (voters, candidates,
votes) become lists of rows in insertion order, every route handler becomes a
function `Store → Store × Response`, and a sequence of requests handled one at
a time is a fold of `step` over a list of `Op`.

What the source leaves to its libraries is a field of `Env`:
the e-mail validator, the password hash and its comparison, the token
signer, and the referential action of the two foreign keys of the votes table
(the source declares the references at lines 40-41 and the associations at
lines 45-48; for a foreign-key attribute declared without `allowNull`, as
here, `hasOne` and `hasMany` make the ORM create the column with
ON DELETE CASCADE).
The ORM's automatic timestamp columns are not part of the model.
Ids and tallies are natural numbers (the INTEGER columns are not exhausted).
-/

namespace Voting

/-! ## Data model (source lines 22-48) -/

/-- Row of the voters table (source lines 22-28). -/
structure Voter where
  id : Nat
  name : String
  email : String
  password : String
  has_voted : Bool
  deriving DecidableEq

/-- Row of the candidates table (source lines 30-36). -/
structure Candidate where
  id : Nat
  name : String
  party : Option String
  votes : Nat
  deriving DecidableEq

/-- Row of the votes table (source lines 38-42); both foreign keys are
nullable columns. -/
structure Vote where
  id : Nat
  voter_id : Option Nat
  candidate_id : Option Nat
  deriving DecidableEq

/-- What the database does to the Vote rows that reference a row being
destroyed. `unenforced`: nothing, the rows keep the dangling reference;
`restrict`: the deletion is refused while a Vote row references the row;
`setNull`: the referencing column is set to NULL; `cascade`: the referencing
Vote rows are deleted with it. -/
inductive OnDelete where
  | unenforced
  | restrict
  | setNull
  | cascade
  deriving DecidableEq

/-- The parts of the runtime that are not in the source file. -/
structure Env where
  /-- The validator behind `validate: { isEmail: true }` (line 25). -/
  isEmail : String → Bool
  /-- The value of `bcrypt.hash(password, 10)` (line 78). -/
  hash : String → String
  /-- The value of `bcrypt.compare(password, stored)` (line 91). -/
  compare : String → String → Bool
  /-- The value of `jwt.sign` for a voter id (line 94). -/
  sign : Nat → String
  /-- Referential action of `votes.voter_id` (lines 40, 45, 47); `cascade` in
  the tables the program creates. -/
  voterFk : OnDelete
  /-- Referential action of `votes.candidate_id` (lines 41, 46, 48); `cascade`
  in the tables the program creates. -/
  candidateFk : OnDelete

/-- The database: the three tables in insertion order and the three
auto-increment counters. -/
structure Store where
  voters : List Voter
  candidates : List Candidate
  votes : List Vote
  nextVoterId : Nat
  nextCandidateId : Nat
  nextVoteId : Nat
  deriving DecidableEq

/-- The database right after `sequelize.sync()` on an empty schema. -/
def Store.empty : Store :=
  { voters := [], candidates := [], votes := [],
    nextVoterId := 1, nextCandidateId := 1, nextVoteId := 1 }

/-! ## Responses -/

/-- Errors thrown by the ORM and reported through the `catch` blocks as
`{ error: error.message }` with status 400. -/
inductive DbError where
  | invalidEmail
  | duplicateEmail
  | foreignKey
  | badOffset
  deriving DecidableEq

/-- The value of the `percentage` field (line 239): the number `0` when there
are no votes, otherwise the string produced by `toFixed(2)`, kept as its
number of hundredths. -/
inductive Percentage where
  | zero
  | fixed (hundredths : Nat)
  deriving DecidableEq

/-- One element of the `statistics` array (lines 235-240). -/
structure StatEntry where
  name : String
  party : Option String
  votes : Nat
  percentage : Percentage
  deriving DecidableEq

/-- JSON bodies sent by the handlers. -/
inductive Body where
  | error (message : String)
  | thrown (e : DbError)
  | message (text : String)
  | voter (v : Voter)
  | candidate (c : Candidate)
  | token (t : String)
  | voters (total page : Nat) (rows : List Voter)
  | candidates (total page : Nat) (rows : List Candidate)
  | votes (total page : Nat) (rows : List Vote)
  | statistics (totalVotes : Nat) (entries : List StatEntry)
  deriving DecidableEq

/-- HTTP status and JSON body. -/
structure Response where
  status : Nat
  body : Body
  deriving DecidableEq

/-! ## Storage operations used by the handlers -/

/-- `Voter.findByPk(id)`. -/
def findVoterByPk (s : Store) (id : Nat) : Option Voter :=
  s.voters.find? (fun v => v.id == id)

/-- `Candidate.findByPk(id)`. -/
def findCandidateByPk (s : Store) (id : Nat) : Option Candidate :=
  s.candidates.find? (fun c => c.id == id)

/-- `Voter.findOne({ where: { name } })`. -/
def findVoterByName (s : Store) (name : String) : Option Voter :=
  s.voters.find? (fun v => v.name == name)

/-- `Voter.findOne({ where: { email } })`. -/
def findVoterByEmail (s : Store) (email : String) : Option Voter :=
  s.voters.find? (fun v => v.email == email)

/-- `Candidate.findOne({ where: { name } })`. -/
def findCandidateByName (s : Store) (name : String) : Option Candidate :=
  s.candidates.find? (fun c => c.name == name)

/-- `Vote.create({ voter_id, candidate_id })` (line 208). -/
def createVote (s : Store) (voter_id candidate_id : Nat) : Store :=
  { s with
    votes := s.votes ++ [{ id := s.nextVoteId, voter_id := some voter_id,
                           candidate_id := some candidate_id }],
    nextVoteId := s.nextVoteId + 1 }

/-- `voter.update({ has_voted: true })` (line 209): an UPDATE of the row with
the instance's primary key. -/
def setHasVoted (s : Store) (voter : Voter) : Store :=
  { s with
    voters := s.voters.map
      (fun v => if v.id = voter.id then { v with has_voted := true } else v) }

/-- `candidate.update({ votes })` (line 210): an UPDATE of the row with the
instance's primary key, writing the value computed by the handler. -/
def writeVotes (s : Store) (candidate : Candidate) (votes : Nat) : Store :=
  { s with
    candidates := s.candidates.map
      (fun c => if c.id = candidate.id then { c with votes := votes } else c) }

/-- `voter.destroy()` (line 131) under the referential action of
`votes.voter_id`; `none` when the database refuses the deletion. -/
def destroyVoter (fk : OnDelete) (s : Store) (voter : Voter) : Option Store :=
  let remaining := s.voters.filter (fun v => v.id != voter.id)
  match fk with
  | .unenforced => some { s with voters := remaining }
  | .restrict =>
    if s.votes.any (fun r => r.voter_id == some voter.id) then none
    else some { s with voters := remaining }
  | .setNull =>
    some { s with
      voters := remaining,
      votes := s.votes.map (fun r =>
        if r.voter_id = some voter.id then { r with voter_id := none } else r) }
  | .cascade =>
    some { s with
      voters := remaining,
      votes := s.votes.filter (fun r => r.voter_id != some voter.id) }

/-- `candidate.destroy()` (line 189) under the referential action of
`votes.candidate_id`; `none` when the database refuses the deletion. -/
def destroyCandidate (fk : OnDelete) (s : Store) (candidate : Candidate) :
    Option Store :=
  let remaining := s.candidates.filter (fun c => c.id != candidate.id)
  match fk with
  | .unenforced => some { s with candidates := remaining }
  | .restrict =>
    if s.votes.any (fun r => r.candidate_id == some candidate.id) then none
    else some { s with candidates := remaining }
  | .setNull =>
    some { s with
      candidates := remaining,
      votes := s.votes.map (fun r =>
        if r.candidate_id = some candidate.id then { r with candidate_id := none }
        else r) }
  | .cascade =>
    some { s with
      candidates := remaining,
      votes := s.votes.filter (fun r => r.candidate_id != some candidate.id) }

/-! ## Number arithmetic of line 239 -/

/-- Nearest integer to a rational, ties to the even neighbour. -/
def roundHalfEven (q : ℚ) : ℤ :=
  if q - ⌊q⌋ < 1 / 2 then ⌊q⌋
  else if 1 / 2 < q - ⌊q⌋ then ⌊q⌋ + 1
  else if ⌊q⌋ % 2 = 0 then ⌊q⌋ else ⌊q⌋ + 1

/-- The binary64 number nearest to a rational (53 significant bits, ties to
even): the rounding every arithmetic operation on JavaScript numbers
performs. The exponent range is not modelled; the quotients of line 239 stay
far inside it. -/
def fl (q : ℚ) : ℚ :=
  if q = 0 then 0
  else (roundHalfEven (q / 2 ^ (Int.log 2 |q| - 52)) : ℚ) * 2 ^ (Int.log 2 |q| - 52)

/-- `x.toFixed(2)` for a number `x ≥ 0`, as the number of hundredths `n` it
prints: the integer for which `n / 100 - x` is closest to zero, the larger one
on a tie. -/
def toFixed2 (x : ℚ) : Nat :=
  ⌊x * 100 + 1 / 2⌋.toNat

/-- The expression
`totalVotes ? ((candidate.votes / totalVotes) * 100).toFixed(2) : 0`
(line 239); integers below `2 ^ 53` are JavaScript numbers exactly. -/
def percentage (votes totalVotes : Nat) : Percentage :=
  if totalVotes = 0 then .zero
  else .fixed (toFixed2 (fl (fl ((votes : ℚ) / (totalVotes : ℚ)) * 100)))

/-- Numeric value of a reported percentage. -/
def Percentage.value : Percentage → ℚ
  | .zero => 0
  | .fixed n => (n : ℚ) / 100

/-! ## Route handlers -/

/-- Outcome of the bearer-token check in front of `POST /votes`
(lines 54-65): no `Authorization` header, a token `jwt.verify` rejects, or a
verified payload carrying a voter id. -/
inductive Auth where
  | missing
  | invalid
  | verified (id : Nat)
  deriving DecidableEq

/-- The `authenticate` middleware (lines 54-65): the response it sends
itself, or the id it leaves in `req.user`. -/
def authenticate : Auth → Except Response Nat
  | .missing => .error ⟨401, .error "Access denied"⟩
  | .invalid => .error ⟨400, .error "Invalid token"⟩
  | .verified id => .ok id

/-- `POST /register` (lines 70-84). -/
def register (env : Env) (s : Store) (name email password : String) :
    Store × Response :=
  match findCandidateByName s name with
  | some _ =>
    (s, ⟨400, .error
      "This person is already registered as a candidate and cannot be registered as voter"⟩)
  | none =>
    let hashedPassword := env.hash password
    if !env.isEmail email then (s, ⟨400, .thrown .invalidEmail⟩)
    else if s.voters.any (fun v => v.email == email) then
      (s, ⟨400, .thrown .duplicateEmail⟩)
    else
      let newVoter : Voter :=
        { id := s.nextVoterId, name := name, email := email,
          password := hashedPassword, has_voted := false }
      ({ s with voters := s.voters ++ [newVoter],
                nextVoterId := s.nextVoterId + 1 },
       ⟨201, .voter newVoter⟩)

/-- `POST /login` (lines 87-99). -/
def login (env : Env) (s : Store) (email password : String) : Store × Response :=
  match findVoterByEmail s email with
  | none => (s, ⟨400, .error "Invalid credentials"⟩)
  | some voter =>
    if !env.compare password voter.password then
      (s, ⟨400, .error "Invalid credentials"⟩)
    else (s, ⟨200, .token (env.sign voter.id)⟩)

/-- The number denoted by a string of decimal digits (`ToNumber`, and
`parseInt` of such a string): the nearest binary64 number, `none` when that is
Infinity. -/
def toNumber (n : Nat) : Option ℚ :=
  if fl (n : ℚ) < 2 ^ 1024 then some (fl (n : ℚ)) else none

/-- The result of an arithmetic operation with exact value `q`: rounded to
binary64, `none` when the rounded value is infinite. -/
def rounded (q : ℚ) : Option ℚ :=
  if |fl q| < 2 ^ 1024 then some (fl q) else none

/-- The first digit `Number::toString` prints for a number `x ≥ 10 ^ 21`, which
it writes in exponent notation with the digits of the shortest decimal that
rounds to `x`: the first digit of `x`, unless the next one-digit multiple of
that power of ten already rounds to `x`. -/
def leadingDigit (x : ℚ) : Nat :=
  if fl ((((⌊x⌋.toNat / 10 ^ Nat.log 10 ⌊x⌋.toNat + 1)
      * 10 ^ Nat.log 10 ⌊x⌋.toNat : Nat) : ℚ)) = x then
    (if ⌊x⌋.toNat / 10 ^ Nat.log 10 ⌊x⌋.toNat + 1 = 10 then 1
     else ⌊x⌋.toNat / 10 ^ Nat.log 10 ⌊x⌋.toNat + 1)
  else ⌊x⌋.toNat / 10 ^ Nat.log 10 ⌊x⌋.toNat

/-- `parseInt(x)` for a number `x ≥ 0` with an integer value: `x` is printed
and the leading digits are read back. Below `10 ^ 21` the print is a decimal
integer that reads back as `x`; from `10 ^ 21` on it is exponent notation and
only its first digit is read. -/
def parseIntNumber (x : ℚ) : Nat :=
  if x < 10 ^ 21 then ⌊x⌋.toNat else leadingDigit x

/-- The query handling shared by the three list routes (lines 106-109,
164-167, 221-224) for query values that are strings of decimal digits: `page`
and `limit` default to 1 and 10, the offset is `(page - 1) * limit` computed
on binary64 numbers, `limit` and the offset go through `parseInt` into the
LIMIT clause, and the answer carries the full count, `parseInt(page)` and the
rows from the offset on, at most `limit` of them. The query fails (`none`) on
an infinite or negative operand and on an operand the database does not take
as an unsigned 64-bit literal. -/
def paginate {α : Type} (rows : List α) (page limit : Option Nat) :
    Option (Nat × Nat × List α) :=
  match toNumber (page.getD 1), toNumber (limit.getD 10) with
  | some pageN, some limitN =>
    match rounded (pageN - 1) with
    | some pred =>
      match rounded (pred * limitN) with
      | some offset =>
        if offset < 0 then none
        else if 2 ^ 64 ≤ parseIntNumber offset ∨ 2 ^ 64 ≤ ⌊limitN⌋.toNat then none
        else some (rows.length, ⌊pageN⌋.toNat,
          (rows.drop (parseIntNumber offset)).take ⌊limitN⌋.toNat)
      | none => none
    | none => none
  | _, _ => none

/-- `GET /voters` (lines 104-113). -/
def listVoters (s : Store) (page limit : Option Nat) : Store × Response :=
  match paginate s.voters page limit with
  | none => (s, ⟨400, .thrown .badOffset⟩)
  | some (total, page, rows) => (s, ⟨200, .voters total page rows⟩)

/-- `GET /voters/:id` (lines 116-124). -/
def getVoter (s : Store) (id : Nat) : Store × Response :=
  match findVoterByPk s id with
  | none => (s, ⟨404, .error "Voter not found"⟩)
  | some voter => (s, ⟨200, .voter voter⟩)

/-- `DELETE /voters/:id` (lines 127-136). -/
def deleteVoter (env : Env) (s : Store) (id : Nat) : Store × Response :=
  match findVoterByPk s id with
  | none => (s, ⟨404, .error "Voter not found"⟩)
  | some voter =>
    match destroyVoter env.voterFk s voter with
    | none => (s, ⟨400, .thrown .foreignKey⟩)
    | some s' => (s', ⟨200, .message "Voter deleted successfully"⟩)

/-- `POST /candidates` (lines 141-159). -/
def registerCandidate (s : Store) (name : String) (party : Option String) :
    Store × Response :=
  match findVoterByName s name with
  | some _ =>
    (s, ⟨400, .error
      "This person is already registered as a voter and cannot be registered as candidate"⟩)
  | none =>
    match findCandidateByName s name with
    | some _ => (s, ⟨400, .error "Candidate with this name already exists"⟩)
    | none =>
      let newCandidate : Candidate :=
        { id := s.nextCandidateId, name := name, party := party, votes := 0 }
      ({ s with candidates := s.candidates ++ [newCandidate],
                nextCandidateId := s.nextCandidateId + 1 },
       ⟨201, .candidate newCandidate⟩)

/-- `GET /candidates` (lines 162-171). -/
def listCandidates (s : Store) (page limit : Option Nat) : Store × Response :=
  match paginate s.candidates page limit with
  | none => (s, ⟨400, .thrown .badOffset⟩)
  | some (total, page, rows) => (s, ⟨200, .candidates total page rows⟩)

/-- `GET /candidates/:id` (lines 174-182). -/
def getCandidate (s : Store) (id : Nat) : Store × Response :=
  match findCandidateByPk s id with
  | none => (s, ⟨404, .error "Candidate not found"⟩)
  | some candidate => (s, ⟨200, .candidate candidate⟩)

/-- `DELETE /candidates/:id` (lines 185-194). -/
def deleteCandidate (env : Env) (s : Store) (id : Nat) : Store × Response :=
  match findCandidateByPk s id with
  | none => (s, ⟨404, .error "Candidate not found"⟩)
  | some candidate =>
    match destroyCandidate env.candidateFk s candidate with
    | none => (s, ⟨400, .thrown .foreignKey⟩)
    | some s' => (s', ⟨200, .message "Candidate deleted successfully"⟩)

/-- The response of a vote refused at line 203. -/
def notEligible : Response := ⟨400, .error "Voter not eligible"⟩

/-- The response of a vote refused at line 206. -/
def candidateNotFound : Response := ⟨400, .error "Candidate not found"⟩

/-- The response of an accepted vote (line 212). -/
def voteCast : Response := ⟨201, .message "Vote cast successfully"⟩

/-- The handler of `POST /votes` (lines 200-212) for the voter id the
middleware left in `req.user`. -/
def castVote (s : Store) (userId candidate_id : Nat) : Store × Response :=
  match findVoterByPk s userId with
  | none => (s, notEligible)
  | some voter =>
    if voter.has_voted then (s, notEligible)
    else
      match findCandidateByPk s candidate_id with
      | none => (s, candidateNotFound)
      | some candidate =>
        let s1 := createVote s voter.id candidate_id
        let s2 := setHasVoted s1 voter
        let s3 := writeVotes s2 candidate (candidate.votes + 1)
        (s3, voteCast)

/-- `POST /votes` (line 199): the middleware, then the handler. -/
def postVotes (s : Store) (auth : Auth) (candidate_id : Nat) : Store × Response :=
  match authenticate auth with
  | .error r => (s, r)
  | .ok userId => castVote s userId candidate_id

/-- `GET /votes` (lines 219-228). -/
def listVotes (s : Store) (page limit : Option Nat) : Store × Response :=
  match paginate s.votes page limit with
  | none => (s, ⟨400, .thrown .badOffset⟩)
  | some (total, page, rows) => (s, ⟨200, .votes total page rows⟩)

/-- `GET /votes/statistics` (lines 231-245). -/
def statistics (s : Store) : Store × Response :=
  let candidates := s.candidates
  let totalVotes := s.votes.length
  (s, ⟨200, .statistics totalVotes (candidates.map (fun candidate =>
    { name := candidate.name, party := candidate.party, votes := candidate.votes,
      percentage := percentage candidate.votes totalVotes }))⟩)

/-! ## Requests handled one at a time -/

/-- One request to the API. -/
inductive Op where
  | register (name email password : String)
  | login (email password : String)
  | listVoters (page limit : Option Nat)
  | getVoter (id : Nat)
  | deleteVoter (id : Nat)
  | registerCandidate (name : String) (party : Option String)
  | listCandidates (page limit : Option Nat)
  | getCandidate (id : Nat)
  | deleteCandidate (id : Nat)
  | castVote (auth : Auth) (candidate_id : Nat)
  | listVotes (page limit : Option Nat)
  | statistics
  deriving DecidableEq

/-- Dispatch of a request to its handler. -/
def step (env : Env) (s : Store) : Op → Store × Response
  | .register name email password => register env s name email password
  | .login email password => login env s email password
  | .listVoters page limit => listVoters s page limit
  | .getVoter id => getVoter s id
  | .deleteVoter id => deleteVoter env s id
  | .registerCandidate name party => registerCandidate s name party
  | .listCandidates page limit => listCandidates s page limit
  | .getCandidate id => getCandidate s id
  | .deleteCandidate id => deleteCandidate env s id
  | .castVote auth candidate_id => postVotes s auth candidate_id
  | .listVotes page limit => listVotes s page limit
  | .statistics => statistics s

/-- The store after a sequence of requests handled one at a time. -/
def run (env : Env) (s : Store) (ops : List Op) : Store :=
  ops.foldl (fun acc op => (step env acc op).1) s

/-- An environment for concrete runs: every non-empty string is taken for an
e-mail address, hashing and signing are tagged identities. -/
def testEnv (voterFk candidateFk : OnDelete) : Env :=
  { isEmail := fun e => e != "",
    hash := fun p => "h:" ++ p,
    compare := fun p h => "h:" ++ p == h,
    sign := fun id => "t:" ++ toString id,
    voterFk := voterFk,
    candidateFk := candidateFk }

/-! ## Specification-side definitions -/

/-- The records a page must hold, in the words of the specification: the
records at positions `(p - 1) * l` up to `min (p * l) n - 1` of the stored
order, hence `min l (max 0 (n - (p - 1) * l))` of them (the subtraction on
naturals stops at zero). -/
def IsPage {α : Type} (rows : List α) (p l : Nat) (items : List α) : Prop :=
  items.length = min (p * l) rows.length - (p - 1) * l ∧
  items.length = min l (max 0 (rows.length - (p - 1) * l)) ∧
  ∀ i, i < items.length → items[i]? = rows[(p - 1) * l + i]?

/-- Number of Vote rows that reference the voter id. -/
def votesOf (s : Store) (voterId : Nat) : Nat :=
  s.votes.countP (fun r => r.voter_id == some voterId)

/-- Number of Vote rows that reference the candidate id. -/
def votesFor (s : Store) (candidateId : Nat) : Nat :=
  s.votes.countP (fun r => r.candidate_id == some candidateId)

/-- Sum of the tallies of the candidates in the registry. -/
def tallySum (s : Store) : Nat :=
  (s.candidates.map Candidate.votes).sum

/-- Sum of the percentages of a statistics answer, as numbers. -/
def percentageSum (entries : List StatEntry) : ℚ :=
  (entries.map (fun e => e.percentage.value)).sum

/-- The request deletes neither a voter nor a candidate. -/
def Op.keepsRows : Op → Bool
  | .deleteVoter _ => false
  | .deleteCandidate _ => false
  | _ => true

/-! ## Two `POST /votes` requests in flight -/

/-- The body of a `POST /votes` request after the middleware. -/
structure VoteRequest where
  userId : Nat
  candidate_id : Nat
  deriving DecidableEq

/-- Where a `POST /votes` handler stands: before one of its five storage
operations (the `await`s of lines 202, 205, 208, 209, 210), holding what it has
read so far, or after its response. -/
inductive Pc where
  | readVoter
  | readCandidate (voter : Voter)
  | createVote (voter : Voter) (candidate : Candidate)
  | setHasVoted (voter : Voter) (candidate : Candidate)
  | writeTally (voter : Voter) (candidate : Candidate)
  | done (response : Response)
  deriving DecidableEq

/-- One storage operation of a `POST /votes` handler (lines 202-212). -/
def stepRequest (s : Store) (req : VoteRequest) : Pc → Store × Pc
  | .readVoter =>
    match findVoterByPk s req.userId with
    | none => (s, .done notEligible)
    | some voter =>
      if voter.has_voted then (s, .done notEligible) else (s, .readCandidate voter)
  | .readCandidate voter =>
    match findCandidateByPk s req.candidate_id with
    | none => (s, .done candidateNotFound)
    | some candidate => (s, .createVote voter candidate)
  | .createVote voter candidate =>
    (createVote s voter.id req.candidate_id, .setHasVoted voter candidate)
  | .setHasVoted voter candidate => (setHasVoted s voter, .writeTally voter candidate)
  | .writeTally _ candidate =>
    (writeVotes s candidate (candidate.votes + 1), .done voteCast)
  | .done response => (s, .done response)

/-- The store and the two handlers in flight. -/
structure Race where
  store : Store
  first : Pc
  second : Pc
  deriving DecidableEq

/-- The handler picked by the scheduler performs its next storage operation
(`true`: the first request, `false`: the second). -/
def raceStep (r₁ r₂ : VoteRequest) (st : Race) (pick : Bool) : Race :=
  if pick then
    { st with store := (stepRequest st.store r₁ st.first).1,
              first := (stepRequest st.store r₁ st.first).2 }
  else
    { st with store := (stepRequest st.store r₂ st.second).1,
              second := (stepRequest st.store r₂ st.second).2 }

/-- Two requests started on a store and interleaved by a schedule. -/
def race (r₁ r₂ : VoteRequest) (s : Store) (schedule : List Bool) : Race :=
  schedule.foldl (raceStep r₁ r₂) { store := s, first := .readVoter, second := .readVoter }

/-- The handler has created its Vote row. -/
def Pc.created : Pc → Bool
  | .setHasVoted _ _ => true
  | .writeTally _ _ => true
  | .done response => response == voteCast
  | _ => false

/-- The handler has set `has_voted`. -/
def Pc.marked : Pc → Bool
  | .writeTally _ _ => true
  | .done response => response == voteCast
  | _ => false

/-- The handler has written the tally. -/
def Pc.counted : Pc → Bool
  | .done response => response == voteCast
  | _ => false

/-- Storage operations the handler still has to perform, at most. -/
def Pc.remaining : Pc → Nat
  | .readVoter => 5
  | .readCandidate _ => 4
  | .createVote _ _ => 3
  | .setHasVoted _ _ => 2
  | .writeTally _ _ => 1
  | .done _ => 0

/-- The voters table of `s` once `has_voted` has been set for `v` (or not). -/
def markedVoters (s : Store) (v : Voter) (marked : Bool) : List Voter :=
  if marked then
    s.voters.map (fun w => if w.id = v.id then { w with has_voted := true } else w)
  else s.voters

/-- The candidates table of `s` once the tally of `c₁` has been written by the
first handler (`w₁`) and that of `c₂` by the second (`w₂`). -/
def countedCandidates (s : Store) (c₁ c₂ : Candidate) (w₁ w₂ : Bool) : List Candidate :=
  s.candidates.map (fun c =>
    if w₁ = true ∧ c.id = c₁.id then { c with votes := c₁.votes + 1 }
    else if w₂ = true ∧ c.id = c₂.id then { c with votes := c₂.votes + 1 }
    else c)

/-- What a handler in flight holds: the voter row and its candidate's row as
they were before the two requests, or one of the two responses. -/
def Pc.LocalsOk (v : Voter) (c : Candidate) : Pc → Prop
  | .readVoter => True
  | .readCandidate w => w = v
  | .createVote w d => w = v ∧ d = c
  | .setHasVoted w d => w = v ∧ d = c
  | .writeTally w d => w = v ∧ d = c
  | .done r => r = voteCast ∨ r = notEligible

/-- The state of two requests by voter `v` for the candidates `c₁` and `c₂`,
started on `s`, in terms of how far each handler has come. -/
structure RaceInv (s : Store) (v : Voter) (c₁ c₂ : Candidate) (st : Race) : Prop where
  first : st.first.LocalsOk v c₁
  second : st.second.LocalsOk v c₂
  voters : st.store.voters = markedVoters s v (st.first.marked || st.second.marked)
  candidates :
    st.store.candidates = countedCandidates s c₁ c₂ st.first.counted st.second.counted
  rows : votesOf st.store v.id
    = votesOf s v.id + st.first.created.toNat + st.second.created.toNat
  rows₁ : votesFor st.store c₁.id = votesFor s c₁.id + st.first.created.toNat
  rows₂ : votesFor st.store c₂.id = votesFor s c₂.id + st.second.created.toNat
  refused₁ : st.first = .done notEligible → st.second.marked = true
  refused₂ : st.second = .done notEligible → st.first.marked = true

/-- The same race with the two requests exchanged. -/
def Race.swap (st : Race) : Race :=
  { store := st.store, first := st.second, second := st.first }

/-- The handler has passed the eligibility check of line 203 and has not been
refused since. -/
def Pc.admitted : Pc → Bool
  | .readVoter => false
  | .done response => response == voteCast
  | _ => true

/-- Storage operations the handler has performed on its way to an accepted
vote. -/
def Pc.progress : Pc → Nat
  | .readVoter => 0
  | .readCandidate _ => 1
  | .createVote _ _ => 2
  | .setHasVoted _ _ => 3
  | .writeTally _ _ => 4
  | .done response => if response == voteCast then 5 else 0

/-- Two requests by voter `v`, who has not voted, for the different candidates
`c₁` and `c₂`, on a store whose ids are primary keys. -/
structure RaceSetup (s : Store) (v : Voter) (c₁ c₂ : Candidate) : Prop where
  pkV : (s.voters.map Voter.id).Nodup
  pkC : (s.candidates.map Candidate.id).Nodup
  voter : v ∈ s.voters
  fresh : v.has_voted = false
  first : c₁ ∈ s.candidates
  second : c₂ ∈ s.candidates
  differ : c₁.id ≠ c₂.id

/-! ## Invariants of the store -/

/-- No name is held both by a voter and by a candidate. -/
def NamesDisjoint (s : Store) : Prop :=
  ∀ v ∈ s.voters, ∀ c ∈ s.candidates, v.name ≠ c.name

/-- What the handlers maintain about voters and the Vote rows that reference
them. -/
structure BallotInv (s : Store) : Prop where
  voterIds : ∀ v ∈ s.voters, v.id < s.nextVoterId
  voteRefs : ∀ r ∈ s.votes, ∀ vid, r.voter_id = some vid → vid < s.nextVoterId
  voted : ∀ r ∈ s.votes, ∀ vid, r.voter_id = some vid →
    ∀ v ∈ s.voters, v.id = vid → v.has_voted = true
  once : ∀ vid, votesOf s vid ≤ 1

/-- The Vote rows `votes'` come from `votes` by dropping rows or clearing
references. -/
def VoterShrink (votes' votes : List Vote) : Prop :=
  (∀ r' ∈ votes', ∀ vid, r'.voter_id = some vid →
    ∃ r ∈ votes, r.voter_id = some vid) ∧
  ∀ vid, votes'.countP (fun r => r.voter_id == some vid)
    ≤ votes.countP (fun r => r.voter_id == some vid)

/-- The voter id has been issued and every row that carries it has
`has_voted = true`. -/
def Voted (s : Store) (voterId : Nat) : Prop :=
  voterId < s.nextVoterId ∧ ∀ w ∈ s.voters, w.id = voterId → w.has_voted = true

/-- What the handlers maintain about candidates and the Vote rows that
reference them. -/
structure TallyInv (env : Env) (s : Store) : Prop where
  candidateIds : ∀ c ∈ s.candidates, c.id < s.nextCandidateId
  voteRefs : ∀ r ∈ s.votes, ∀ cid, r.candidate_id = some cid → cid < s.nextCandidateId
  le : ∀ c ∈ s.candidates, votesFor s c.id ≤ c.votes
  eq : env.voterFk ≠ .cascade → ∀ c ∈ s.candidates, c.votes = votesFor s c.id

/-- Ids are primary keys and were issued by the counters. -/
structure PkInv (s : Store) : Prop where
  voters : (s.voters.map Voter.id).Nodup
  voterIds : ∀ v ∈ s.voters, v.id < s.nextVoterId
  candidates : (s.candidates.map Candidate.id).Nodup
  candidateIds : ∀ c ∈ s.candidates, c.id < s.nextCandidateId
  votes : (s.votes.map Vote.id).Nodup
  voteIds : ∀ r ∈ s.votes, r.id < s.nextVoteId

/-- The request deletes a voter that some Vote row references. -/
def Op.deletesVotedVoter (s : Store) : Op → Bool
  | .deleteVoter id => s.votes.any (fun r => r.voter_id == some id)
  | _ => false

/-- No request of the run deletes a voter that a Vote row references. -/
def KeepsVotedVoters (env : Env) : Store → List Op → Prop
  | _, [] => True
  | s, op :: rest =>
    op.deletesVotedVoter s = false ∧ KeepsVotedVoters env (step env s op).1 rest

/-- A value rounded to two decimals, as a number of hundredths: the nearest
hundredth, the larger one on a tie. -/
def roundTwoDecimals (x : ℚ) : Nat :=
  ⌊x * 100 + 1 / 2⌋.toNat

/-- The value lies exactly halfway between two neighbouring hundredths. -/
def IsTie (x : ℚ) : Prop :=
  (⌊x * 100⌋ : ℚ) + 1 / 2 = x * 100

/-! ## Concrete stores -/

/-- The environment of the tables `sequelize.sync()` creates: both foreign keys
of the votes table are ON DELETE CASCADE. -/
def sampleEnv : Env := testEnv .cascade .cascade

/-- One voter and two candidates, nobody has voted. -/
def openBallot : Store :=
  run sampleEnv Store.empty
    [.register "Alice" "alice@x.com" "pw", .registerCandidate "Bob" none,
     .registerCandidate "Dave" (some "Green")]

/-- Two voters and two candidates, one accepted vote each. -/
def closedBallot : Store :=
  run sampleEnv Store.empty
    [.register "Alice" "alice@x.com" "pw", .register "Carol" "carol@x.com" "pw",
     .registerCandidate "Bob" none, .registerCandidate "Dave" (some "Green"),
     .castVote (.verified 1) 1, .castVote (.verified 2) 2]

/-- Fifteen Vote rows. -/
def fifteenVotes : Store :=
  { Store.empty with
    votes := (List.range 15).map
      (fun i => { id := i + 1, voter_id := some (i + 1), candidate_id := some 1 }),
    nextVoteId := 16 }

/-- A closed election of 160 voters: 23 votes for the first candidate and
137 for the second. -/
def tieBallot : Store :=
  { voters := (List.range 160).map (fun i =>
      { id := i + 1, name := "voter",
        email := String.mk (List.replicate (i + 1) 'a') ++ "@x.com",
        password := "h:pw", has_voted := true }),
    candidates := [{ id := 1, name := "Bob", party := none, votes := 23 },
                   { id := 2, name := "Dave", party := some "Green", votes := 137 }],
    votes := (List.range 160).map (fun i =>
      { id := i + 1, voter_id := some (i + 1),
        candidate_id := some (if i < 23 then 1 else 2) }),
    nextVoterId := 161, nextCandidateId := 3, nextVoteId := 161 }

/-! # Properties -/

/-! ## Primary keys -/

theorem find_pk_of_mem {α : Type} (key : α → Nat) (rows : List α)
    (hnd : (rows.map key).Nodup) {r : α} (hr : r ∈ rows) :
    rows.find? (fun x => key x == key r) = some r := by
  induction rows with
  | nil => simp at hr
  | cons a t ih =>
    rw [List.map_cons, List.nodup_cons] at hnd
    rcases List.mem_cons.mp hr with h | h
    · subst h; simp
    · have hne : key a ≠ key r := by
        intro he
        exact hnd.1 (he ▸ List.mem_map_of_mem key h)
      simp [List.find?_cons, hne, ih hnd.2 h]

theorem find_pk_none {α : Type} (key : α → Nat) (rows : List α) (k : Nat)
    (h : ∀ r ∈ rows, key r ≠ k) : rows.find? (fun x => key x == k) = none := by
  simp only [List.find?_eq_none]
  intro r hr
  simpa using h r hr

theorem map_update_pk {α : Type} [DecidableEq α] (key : α → Nat) (rows : List α)
    (hnd : (rows.map key).Nodup) {r : α} (hr : r ∈ rows) (f : α → α) :
    rows.map (fun x => if key x = key r then f x else x)
      = rows.map (fun x => if x = r then f r else x) := by
  apply List.map_congr_left
  intro x hx
  by_cases hxr : x = r
  · subst hxr; simp
  · have : key x ≠ key r := by
      intro he
      exact hxr (List.inj_on_of_nodup_map hnd hx hr he)
    simp [hxr, this]

/-! ## Casting a vote: one request -/

/-- C4. In a store whose voter ids are a primary key, a vote by an existing
voter with `has_voted = false` for a candidate id that matches no candidate is
answered with status 400 and `Candidate not found`, and the store after the
request is the store before it: `has_voted` is still false, no Vote row was
created and no tally moved. -/
theorem castVote_missing_candidate_atomic (env : Env) (s : Store) (voter : Voter)
    (candidate_id : Nat)
    (hpk : (s.voters.map Voter.id).Nodup)
    (hv : voter ∈ s.voters) (hnv : voter.has_voted = false)
    (hc : ∀ c ∈ s.candidates, c.id ≠ candidate_id) :
    step env s (.castVote (.verified voter.id) candidate_id)
      = (s, ⟨400, .error "Candidate not found"⟩) := by
  have h1 : findVoterByPk s voter.id = some voter :=
    find_pk_of_mem Voter.id s.voters hpk hv
  have h2 : findCandidateByPk s candidate_id = none :=
    find_pk_none Candidate.id s.candidates candidate_id hc
  simp [step, postVotes, authenticate, castVote, h1, h2, hnv, candidateNotFound]

/-- C5. In a store whose ids are primary keys, a vote by a present voter `v`
with `has_voted = false` for a present candidate `c` is accepted (201), and the
new store is the old one with one Vote row `(v.id, c.id)` appended, `v`
replaced by `v` with `has_voted = true`, and `c` replaced by `c` with
`votes + 1`; every other row and every other field is as before. -/
theorem castVote_accepted_effect (env : Env) (s : Store) (v : Voter) (c : Candidate)
    (hpkV : (s.voters.map Voter.id).Nodup)
    (hpkC : (s.candidates.map Candidate.id).Nodup)
    (hv : v ∈ s.voters) (hnv : v.has_voted = false) (hc : c ∈ s.candidates) :
    (step env s (.castVote (.verified v.id) c.id)).2
        = ⟨201, .message "Vote cast successfully"⟩ ∧
    (step env s (.castVote (.verified v.id) c.id)).1.votes
        = s.votes ++ [{ id := s.nextVoteId, voter_id := some v.id,
                        candidate_id := some c.id }] ∧
    (step env s (.castVote (.verified v.id) c.id)).1.voters
        = s.voters.map (fun w => if w = v then { v with has_voted := true } else w) ∧
    (step env s (.castVote (.verified v.id) c.id)).1.candidates
        = s.candidates.map
            (fun d => if d = c then { c with votes := c.votes + 1 } else d) ∧
    (step env s (.castVote (.verified v.id) c.id)).1.nextVoterId = s.nextVoterId ∧
    (step env s (.castVote (.verified v.id) c.id)).1.nextCandidateId
        = s.nextCandidateId ∧
    (step env s (.castVote (.verified v.id) c.id)).1.nextVoteId = s.nextVoteId + 1 := by
  have h1 : findVoterByPk s v.id = some v :=
    find_pk_of_mem Voter.id s.voters hpkV hv
  have h2 : findCandidateByPk s c.id = some c :=
    find_pk_of_mem Candidate.id s.candidates hpkC hc
  have h3 := map_update_pk Voter.id s.voters hpkV hv
    (fun w => { w with has_voted := true })
  have h4 := map_update_pk Candidate.id s.candidates hpkC hc
    (fun d => { d with votes := c.votes + 1 })
  simp only [step, postVotes, authenticate, castVote, h1, h2, hnv, voteCast,
    createVote, setHasVoted, writeVotes]
  simp only [Bool.false_eq_true, if_false, true_and]
  exact ⟨h3, h4, trivial⟩

/-! ## Shape of the store after each handler -/

theorem register_store (env : Env) (s : Store) (name email password : String) :
    (register env s name email password).1 = s ∨
    (findCandidateByName s name = none ∧
      (register env s name email password).1 =
        { s with
          voters := s.voters ++ [{ id := s.nextVoterId, name := name, email := email,
                                   password := env.hash password, has_voted := false }],
          nextVoterId := s.nextVoterId + 1 }) := by
  unfold register
  split
  · exact Or.inl rfl
  · split
    · exact Or.inl rfl
    · split
      · exact Or.inl rfl
      · exact Or.inr ⟨by assumption, rfl⟩

theorem registerCandidate_store (s : Store) (name : String) (party : Option String) :
    (registerCandidate s name party).1 = s ∨
    (findVoterByName s name = none ∧
      (registerCandidate s name party).1 =
        { s with
          candidates := s.candidates ++
            [{ id := s.nextCandidateId, name := name, party := party, votes := 0 }],
          nextCandidateId := s.nextCandidateId + 1 }) := by
  unfold registerCandidate
  split
  · exact Or.inl rfl
  · split
    · exact Or.inl rfl
    · exact Or.inr ⟨by assumption, rfl⟩

theorem deleteVoter_store (env : Env) (s : Store) (id : Nat) :
    (deleteVoter env s id).1 = s ∨
    ∃ voter, findVoterByPk s id = some voter ∧
      destroyVoter env.voterFk s voter = some (deleteVoter env s id).1 := by
  unfold deleteVoter
  split
  · exact Or.inl rfl
  · rename_i voter hv
    split
    · exact Or.inl rfl
    · rename_i s' hs
      exact Or.inr ⟨voter, hv, hs⟩

theorem deleteCandidate_store (env : Env) (s : Store) (id : Nat) :
    (deleteCandidate env s id).1 = s ∨
    ∃ candidate, findCandidateByPk s id = some candidate ∧
      destroyCandidate env.candidateFk s candidate = some (deleteCandidate env s id).1 := by
  unfold deleteCandidate
  split
  · exact Or.inl rfl
  · rename_i candidate hc
    split
    · exact Or.inl rfl
    · rename_i s' hs
      exact Or.inr ⟨candidate, hc, hs⟩

theorem castVote_store (s : Store) (userId candidate_id : Nat) :
    ((castVote s userId candidate_id).1 = s ∧
      (castVote s userId candidate_id).2.status ≠ 201) ∨
    ∃ voter candidate, findVoterByPk s userId = some voter ∧ voter.has_voted = false ∧
      findCandidateByPk s candidate_id = some candidate ∧
      castVote s userId candidate_id =
        (writeVotes (setHasVoted (createVote s voter.id candidate_id) voter) candidate
          (candidate.votes + 1), voteCast) := by
  unfold castVote
  split
  · exact Or.inl ⟨rfl, by simp [notEligible]⟩
  · rename_i voter hv
    split
    · exact Or.inl ⟨rfl, by simp [notEligible]⟩
    · rename_i hnv
      split
      · exact Or.inl ⟨rfl, by simp [candidateNotFound]⟩
      · rename_i candidate hc
        exact Or.inr ⟨voter, candidate, hv, by simpa using hnv, hc, rfl⟩

theorem postVotes_store (s : Store) (auth : Auth) (candidate_id : Nat) :
    ((postVotes s auth candidate_id).1 = s ∧
      (postVotes s auth candidate_id).2.status ≠ 201) ∨
    ∃ userId, auth = .verified userId ∧
      postVotes s auth candidate_id = castVote s userId candidate_id := by
  cases auth with
  | missing => exact Or.inl ⟨rfl, by simp [postVotes, authenticate]⟩
  | invalid => exact Or.inl ⟨rfl, by simp [postVotes, authenticate]⟩
  | verified id => exact Or.inr ⟨id, rfl, rfl⟩

/-- The requests that only read. -/
theorem read_store (env : Env) (s : Store) (op : Op)
    (h : match op with
      | .register .. | .deleteVoter .. | .registerCandidate .. | .deleteCandidate ..
      | .castVote .. => False
      | _ => True) :
    (step env s op).1 = s := by
  cases op with
  | register | deleteVoter | registerCandidate | deleteCandidate | castVote => exact h.elim
  | login email password =>
    simp only [step, login]; split
    · rfl
    · split <;> rfl
  | listVoters page limit => simp only [step, listVoters]; split <;> rfl
  | getVoter id => simp only [step, getVoter]; split <;> rfl
  | listCandidates page limit => simp only [step, listCandidates]; split <;> rfl
  | getCandidate id => simp only [step, getCandidate]; split <;> rfl
  | listVotes page limit => simp only [step, listVotes]; split <;> rfl
  | statistics => rfl

theorem destroyVoter_frame {fk : OnDelete} {s s' : Store} {voter : Voter}
    (h : destroyVoter fk s voter = some s') :
    s'.voters = s.voters.filter (fun v => v.id != voter.id) ∧
    s'.candidates = s.candidates ∧ s'.nextVoterId = s.nextVoterId ∧
    s'.nextCandidateId = s.nextCandidateId ∧ s'.nextVoteId = s.nextVoteId := by
  unfold destroyVoter at h
  cases fk <;> simp only [Option.some.injEq] at h
  · subst h; simp
  · split at h
    · cases h
    · cases h; simp
  · subst h; simp
  · subst h; simp

theorem destroyVoter_votes {fk : OnDelete} {s s' : Store} {voter : Voter}
    (h : destroyVoter fk s voter = some s') :
    s'.votes = s.votes ∨
    (fk = .setNull ∧ s'.votes = s.votes.map (fun r =>
        if r.voter_id = some voter.id then { r with voter_id := none } else r)) ∨
    (fk = .cascade ∧
      s'.votes = s.votes.filter (fun r => r.voter_id != some voter.id)) := by
  unfold destroyVoter at h
  cases fk <;> simp only [Option.some.injEq] at h
  · subst h; exact Or.inl rfl
  · split at h
    · cases h
    · cases h; exact Or.inl rfl
  · subst h; exact Or.inr (Or.inl ⟨rfl, rfl⟩)
  · subst h; exact Or.inr (Or.inr ⟨rfl, rfl⟩)

theorem destroyCandidate_frame {fk : OnDelete} {s s' : Store} {candidate : Candidate}
    (h : destroyCandidate fk s candidate = some s') :
    s'.candidates = s.candidates.filter (fun c => c.id != candidate.id) ∧
    s'.voters = s.voters ∧ s'.nextVoterId = s.nextVoterId ∧
    s'.nextCandidateId = s.nextCandidateId ∧ s'.nextVoteId = s.nextVoteId := by
  unfold destroyCandidate at h
  cases fk <;> simp only [Option.some.injEq] at h
  · subst h; simp
  · split at h
    · cases h
    · cases h; simp
  · subst h; simp
  · subst h; simp

theorem destroyCandidate_votes {fk : OnDelete} {s s' : Store} {candidate : Candidate}
    (h : destroyCandidate fk s candidate = some s') :
    s'.votes = s.votes ∨
    (fk = .setNull ∧ s'.votes = s.votes.map (fun r =>
        if r.candidate_id = some candidate.id then { r with candidate_id := none }
        else r)) ∨
    (fk = .cascade ∧
      s'.votes = s.votes.filter (fun r => r.candidate_id != some candidate.id)) := by
  unfold destroyCandidate at h
  cases fk <;> simp only [Option.some.injEq] at h
  · subst h; exact Or.inl rfl
  · split at h
    · cases h
    · cases h; exact Or.inl rfl
  · subst h; exact Or.inr (Or.inl ⟨rfl, rfl⟩)
  · subst h; exact Or.inr (Or.inr ⟨rfl, rfl⟩)

theorem run_append (env : Env) (s : Store) (ops₁ ops₂ : List Op) :
    run env s (ops₁ ++ ops₂) = run env (run env s ops₁) ops₂ := by
  simp [run, List.foldl_append]

theorem run_snoc (env : Env) (s : Store) (ops : List Op) (op : Op) :
    run env s (ops ++ [op]) = (step env (run env s ops) op).1 := by
  simp [run, List.foldl_append]

/-- Induction over the requests of a run: a property of the starting store
that every handler preserves holds after the run. -/
theorem run_induction (env : Env) (P : Store → Prop)
    (hstep : ∀ s op, P s → P (step env s op).1) (s : Store) (h0 : P s)
    (ops : List Op) : P (run env s ops) := by
  induction ops generalizing s with
  | nil => exact h0
  | cons op t ih => exact ih _ (hstep s op h0)

/-! ## Voter and candidate names -/

theorem namesDisjoint_step (env : Env) (s : Store) (op : Op) (h : NamesDisjoint s) :
    NamesDisjoint (step env s op).1 := by
  cases op with
  | register name email password =>
    rcases register_store env s name email password with he | ⟨hnone, he⟩
    · simp only [step, he]; exact h
    · simp only [step, he]
      intro v hv c hc
      rcases List.mem_append.mp hv with hv | hv
      · exact h v hv c hc
      · simp only [List.mem_singleton] at hv
        subst hv
        intro hname
        have hcn : ¬ c.name = name := by
          simpa using List.find?_eq_none.mp hnone c hc
        exact hcn hname.symm
  | registerCandidate name party =>
    rcases registerCandidate_store s name party with he | ⟨hnone, he⟩
    · simp only [step, he]; exact h
    · simp only [step, he]
      intro v hv c hc
      rcases List.mem_append.mp hc with hc | hc
      · exact h v hv c hc
      · simp only [List.mem_singleton] at hc
        subst hc
        intro hname
        have hvn : ¬ v.name = name := by
          simpa using List.find?_eq_none.mp hnone v hv
        exact hvn hname
  | deleteVoter id =>
    rcases deleteVoter_store env s id with he | ⟨voter, _, hd⟩
    · simp only [step, he]; exact h
    · obtain ⟨hv', hc', -⟩ := destroyVoter_frame hd
      intro v hv c hc
      simp only [step] at hv hc
      rw [hv'] at hv
      rw [hc'] at hc
      exact h v (List.mem_filter.mp hv).1 c hc
  | deleteCandidate id =>
    rcases deleteCandidate_store env s id with he | ⟨candidate, _, hd⟩
    · simp only [step, he]; exact h
    · obtain ⟨hc', hv', -⟩ := destroyCandidate_frame hd
      intro v hv c hc
      simp only [step] at hv hc
      rw [hv'] at hv
      rw [hc'] at hc
      exact h v hv c (List.mem_filter.mp hc).1
  | castVote auth candidate_id =>
    rcases postVotes_store s auth candidate_id with ⟨he, -⟩ | ⟨userId, -, he⟩
    · simp only [step, he]; exact h
    · rcases castVote_store s userId candidate_id with ⟨he', -⟩ | ⟨voter, cand, -, -, -, he'⟩
      · simp only [step, he, he']; exact h
      · simp only [step, he, he']
        intro v hv c hc
        simp only [writeVotes, setHasVoted, createVote, List.mem_map] at hv hc
        obtain ⟨v0, hv0, rfl⟩ := hv
        obtain ⟨c0, hc0, rfl⟩ := hc
        have := h v0 hv0 c0 hc0
        split <;> split <;> simpa using this
  | login | listVoters | getVoter | listCandidates | getCandidate | listVotes
  | statistics => rw [read_store env s _ trivial]; exact h

/-- C3. After any sequence of requests handled one at a time from the empty
store, no name is held both by a voter and by a candidate; registering a
voter under a candidate's name, and registering a candidate under a voter's
name, is answered 400 with the conflict message and leaves the store as it
was. -/
theorem names_exclusive (env : Env) (ops : List Op) :
    (∀ v ∈ (run env Store.empty ops).voters,
      ∀ c ∈ (run env Store.empty ops).candidates, v.name ≠ c.name) ∧
    (∀ (c : Candidate) (email password : String),
      c ∈ (run env Store.empty ops).candidates →
      step env (run env Store.empty ops) (.register c.name email password) =
        (run env Store.empty ops, ⟨400, .error
          "This person is already registered as a candidate and cannot be registered as voter"⟩)) ∧
    (∀ (v : Voter) (party : Option String),
      v ∈ (run env Store.empty ops).voters →
      step env (run env Store.empty ops) (.registerCandidate v.name party) =
        (run env Store.empty ops, ⟨400, .error
          "This person is already registered as a voter and cannot be registered as candidate"⟩)) := by
  refine ⟨?_, ?_, ?_⟩
  · exact run_induction env NamesDisjoint (namesDisjoint_step env) Store.empty
      (by intro v hv; simp [Store.empty] at hv) ops
  · intro c email password hc
    obtain ⟨c', hc'⟩ : ∃ c', findCandidateByName (run env Store.empty ops) c.name = some c' := by
      rw [← Option.isSome_iff_exists, findCandidateByName, List.find?_isSome]
      exact ⟨c, hc, by simp⟩
    simp [step, register, hc']
  · intro v party hv
    obtain ⟨v', hv'⟩ : ∃ v', findVoterByName (run env Store.empty ops) v.name = some v' := by
      rw [← Option.isSome_iff_exists, findVoterByName, List.find?_isSome]
      exact ⟨v, hv, by simp⟩
    simp [step, registerCandidate, hv']

/-! ## One vote per voter -/

theorem voterShrink_refl (votes : List Vote) : VoterShrink votes votes :=
  ⟨fun r hr _ h => ⟨r, hr, h⟩, fun _ => le_rfl⟩

theorem voterShrink_filter (votes : List Vote) (p : Vote → Bool) :
    VoterShrink (votes.filter p) votes :=
  ⟨fun r hr _ h => ⟨r, (List.mem_filter.mp hr).1, h⟩,
   fun _ => (List.filter_sublist votes).countP_le _⟩

theorem voterShrink_map (votes : List Vote) (f : Vote → Vote)
    (hf : ∀ r vid, (f r).voter_id = some vid → r.voter_id = some vid) :
    VoterShrink (votes.map f) votes := by
  refine ⟨?_, ?_⟩
  · intro r' hr' vid h
    obtain ⟨r, hr, rfl⟩ := List.mem_map.mp hr'
    exact ⟨r, hr, hf r vid h⟩
  · intro vid
    rw [List.countP_map]
    apply List.countP_mono_left
    intro r _ h
    simp only [Function.comp_apply, beq_iff_eq] at h
    simpa using hf r vid h

theorem destroyVoter_shrink {fk : OnDelete} {s s' : Store} {voter : Voter}
    (h : destroyVoter fk s voter = some s') : VoterShrink s'.votes s.votes := by
  rcases destroyVoter_votes h with he | ⟨-, he⟩ | ⟨-, he⟩ <;> rw [he]
  · exact voterShrink_refl _
  · apply voterShrink_map
    intro r vid
    split <;> simp
  · exact voterShrink_filter _ _

theorem destroyCandidate_shrink {fk : OnDelete} {s s' : Store} {candidate : Candidate}
    (h : destroyCandidate fk s candidate = some s') : VoterShrink s'.votes s.votes := by
  rcases destroyCandidate_votes h with he | ⟨-, he⟩ | ⟨-, he⟩ <;> rw [he]
  · exact voterShrink_refl _
  · apply voterShrink_map
    intro r vid
    split <;> simp
  · exact voterShrink_filter _ _

theorem ballotInv_shrink {s s' : Store} (h : BallotInv s)
    (hvoters : ∀ v ∈ s'.voters, v ∈ s.voters) (hnext : s'.nextVoterId = s.nextVoterId)
    (hvotes : VoterShrink s'.votes s.votes) : BallotInv s' where
  voterIds v hv := hnext ▸ h.voterIds v (hvoters v hv)
  voteRefs r' hr' vid hvid := by
    obtain ⟨r, hr, hrv⟩ := hvotes.1 r' hr' vid hvid
    exact hnext ▸ h.voteRefs r hr vid hrv
  voted r' hr' vid hvid v hv hid := by
    obtain ⟨r, hr, hrv⟩ := hvotes.1 r' hr' vid hvid
    exact h.voted r hr vid hrv v (hvoters v hv) hid
  once vid := le_trans (hvotes.2 vid) (h.once vid)

theorem find_some_mem {α : Type} {p : α → Bool} {l : List α} {a : α}
    (h : l.find? p = some a) : a ∈ l ∧ p a = true :=
  ⟨List.mem_of_find?_eq_some h, List.find?_some h⟩

theorem ballotInv_castVote {s : Store} (h : BallotInv s) {userId candidate_id : Nat}
    {voter : Voter} {candidate : Candidate}
    (hv : findVoterByPk s userId = some voter) (hnv : voter.has_voted = false) :
    BallotInv (writeVotes (setHasVoted (createVote s voter.id candidate_id) voter)
      candidate (candidate.votes + 1)) := by
  obtain ⟨hmem, -⟩ := find_some_mem hv
  have hzero : votesOf s voter.id = 0 := by
    rw [votesOf, List.countP_eq_zero]
    intro r hr hrv
    have := h.voted r hr voter.id (by simpa using hrv) voter hmem rfl
    simp [hnv] at this
  refine ⟨?_, ?_, ?_, ?_⟩
  · intro v hv'
    simp only [writeVotes, setHasVoted, createVote, List.mem_map] at hv' ⊢
    obtain ⟨v0, hv0, rfl⟩ := hv'
    have := h.voterIds v0 hv0
    split <;> simpa using this
  · intro r hr vid hvid
    simp only [writeVotes, setHasVoted, createVote, List.mem_append,
      List.mem_singleton] at hr ⊢
    rcases hr with hr | rfl
    · exact h.voteRefs r hr vid hvid
    · simp only [Option.some.injEq] at hvid
      exact hvid ▸ h.voterIds voter hmem
  · intro r hr vid hvid v hv' hid
    simp only [writeVotes, setHasVoted, createVote, List.mem_append,
      List.mem_singleton, List.mem_map] at hr hv'
    obtain ⟨v0, hv0, rfl⟩ := hv'
    by_cases hv0id : v0.id = voter.id
    · simp [hv0id]
    · simp only [hv0id, if_false] at hid ⊢
      rcases hr with hr | rfl
      · exact h.voted r hr vid hvid v0 hv0 hid
      · simp only [Option.some.injEq] at hvid
        exact absurd (hid.trans hvid.symm) hv0id
  · intro vid
    simp only [votesOf, writeVotes, setHasVoted, createVote, List.countP_append,
      List.countP_cons, List.countP_nil]
    by_cases hvid : voter.id = vid
    · subst hvid
      have := hzero
      simp only [votesOf] at this
      simp [this]
    · have := h.once vid
      simp only [votesOf] at this
      simp [hvid, this]

theorem ballotInv_empty : BallotInv Store.empty :=
  ⟨by simp [Store.empty], by simp [Store.empty], by simp [Store.empty],
   by simp [Store.empty, votesOf]⟩

theorem ballotInv_step (env : Env) (s : Store) (op : Op) (h : BallotInv s) :
    BallotInv (step env s op).1 := by
  cases op with
  | register name email password =>
    rcases register_store env s name email password with he | ⟨-, he⟩
    · simp only [step, he]; exact h
    · simp only [step, he]
      refine ⟨?_, ?_, ?_, h.once⟩
      · intro v hv
        rcases List.mem_append.mp hv with hv | hv
        · exact Nat.lt_succ_of_lt (h.voterIds v hv)
        · simp only [List.mem_singleton] at hv
          subst hv
          exact Nat.lt_succ_self _
      · intro r hr vid hvid
        exact Nat.lt_succ_of_lt (h.voteRefs r hr vid hvid)
      · intro r hr vid hvid v hv hid
        rcases List.mem_append.mp hv with hv | hv
        · exact h.voted r hr vid hvid v hv hid
        · simp only [List.mem_singleton] at hv
          subst hv
          exact absurd (h.voteRefs r hr vid hvid) (by simp at hid; omega)
  | registerCandidate name party =>
    rcases registerCandidate_store s name party with he | ⟨-, he⟩
    · simp only [step, he]; exact h
    · simp only [step, he]
      exact ⟨h.voterIds, h.voteRefs, h.voted, h.once⟩
  | deleteVoter id =>
    rcases deleteVoter_store env s id with he | ⟨voter, _, hd⟩
    · simp only [step, he]; exact h
    · obtain ⟨hv', -, hn, -⟩ := destroyVoter_frame hd
      exact ballotInv_shrink h (fun v hv => (List.mem_filter.mp (hv' ▸ hv)).1) hn
        (destroyVoter_shrink hd)
  | deleteCandidate id =>
    rcases deleteCandidate_store env s id with he | ⟨candidate, _, hd⟩
    · simp only [step, he]; exact h
    · obtain ⟨-, hv', hn, -⟩ := destroyCandidate_frame hd
      exact ballotInv_shrink h (fun v hv => hv' ▸ hv) hn (destroyCandidate_shrink hd)
  | castVote auth candidate_id =>
    rcases postVotes_store s auth candidate_id with ⟨he, -⟩ | ⟨userId, -, he⟩
    · simp only [step, he]; exact h
    · rcases castVote_store s userId candidate_id with
        ⟨he', -⟩ | ⟨voter, cand, hv, hnv, -, he'⟩
      · simp only [step, he, he']; exact h
      · simp only [step, he, he']
        exact ballotInv_castVote h hv hnv
  | login | listVoters | getVoter | listCandidates | getCandidate | listVotes
  | statistics => rw [read_store env s _ trivial]; exact h

theorem ballotInv_run (env : Env) (ops : List Op) : BallotInv (run env Store.empty ops) :=
  run_induction env BallotInv (ballotInv_step env) Store.empty ballotInv_empty ops

theorem voted_step (env : Env) (voterId : Nat) (s : Store) (op : Op)
    (h : Voted s voterId) : Voted (step env s op).1 voterId := by
  cases op with
  | register name email password =>
    rcases register_store env s name email password with he | ⟨-, he⟩
    · simp only [step, he]; exact h
    · simp only [step, he]
      refine ⟨Nat.lt_succ_of_lt h.1, ?_⟩
      intro w hw hid
      rcases List.mem_append.mp hw with hw | hw
      · exact h.2 w hw hid
      · simp only [List.mem_singleton] at hw
        subst hw
        exact absurd h.1 (by simp at hid; omega)
  | registerCandidate name party =>
    rcases registerCandidate_store s name party with he | ⟨-, he⟩
    · simp only [step, he]; exact h
    · simp only [step, he]; exact h
  | deleteVoter id =>
    rcases deleteVoter_store env s id with he | ⟨voter, _, hd⟩
    · simp only [step, he]; exact h
    · obtain ⟨hv', -, hn, -⟩ := destroyVoter_frame hd
      refine ⟨by simp only [step]; rw [hn]; exact h.1, ?_⟩
      intro w hw hid
      simp only [step] at hw
      rw [hv'] at hw
      exact h.2 w (List.mem_filter.mp hw).1 hid
  | deleteCandidate id =>
    rcases deleteCandidate_store env s id with he | ⟨candidate, _, hd⟩
    · simp only [step, he]; exact h
    · obtain ⟨-, hv', hn, -⟩ := destroyCandidate_frame hd
      refine ⟨by simp only [step]; rw [hn]; exact h.1, ?_⟩
      intro w hw hid
      simp only [step] at hw
      rw [hv'] at hw
      exact h.2 w hw hid
  | castVote auth candidate_id =>
    rcases postVotes_store s auth candidate_id with ⟨he, -⟩ | ⟨userId, -, he⟩
    · simp only [step, he]; exact h
    · rcases castVote_store s userId candidate_id with
        ⟨he', -⟩ | ⟨voter, cand, hv, hnv, -, he'⟩
      · simp only [step, he, he']; exact h
      · simp only [step, he, he']
        refine ⟨h.1, ?_⟩
        intro w hw hid
        simp only [writeVotes, setHasVoted, createVote, List.mem_map] at hw
        obtain ⟨w0, hw0, rfl⟩ := hw
        by_cases hw0id : w0.id = voter.id
        · simp [hw0id]
        · simp only [hw0id, if_false] at hid ⊢
          exact h.2 w0 hw0 hid
  | login | listVoters | getVoter | listCandidates | getCandidate | listVotes
  | statistics => rw [read_store env s _ trivial]; exact h

theorem voted_refused (s : Store) (voterId candidate_id : Nat) (h : Voted s voterId) :
    castVote s voterId candidate_id = (s, notEligible) := by
  unfold castVote
  split
  · rfl
  · rename_i voter hv
    obtain ⟨hmem, hid⟩ := find_some_mem hv
    have := h.2 voter hmem (by simpa using hid)
    simp [this]

theorem voted_of_accepted (env : Env) (s : Store) (hinv : BallotInv s)
    (voterId candidate_id : Nat)
    (h : (step env s (.castVote (.verified voterId) candidate_id)).2.status = 201) :
    Voted (step env s (.castVote (.verified voterId) candidate_id)).1 voterId := by
  simp only [step, postVotes, authenticate] at h ⊢
  rcases castVote_store s voterId candidate_id with
    ⟨-, he'⟩ | ⟨voter, cand, hv, hnv, -, he'⟩
  · exact absurd h he'
  · obtain ⟨hmem, hid⟩ := find_some_mem hv
    have hid' : voter.id = voterId := by simpa using hid
    rw [he']
    refine ⟨hid' ▸ hinv.voterIds voter hmem, ?_⟩
    intro w hw hwid
    simp only [writeVotes, setHasVoted, createVote, List.mem_map] at hw
    obtain ⟨w0, hw0, rfl⟩ := hw
    by_cases hw0id : w0.id = voter.id
    · simp [hw0id]
    · simp only [hw0id, if_false] at hwid
      exact absurd (hwid.trans hid'.symm) hw0id

/-- C1. Requests handled one at a time from the empty store: every voter id is
referenced by at most one Vote row; and once a vote by a voter has been
accepted (201), every later vote by the same voter, for any candidate id and
after any further requests, is answered 400 `Voter not eligible` and leaves the
store as it was. -/
theorem one_vote_per_voter (env : Env) :
    (∀ (ops : List Op) (voterId : Nat), votesOf (run env Store.empty ops) voterId ≤ 1) ∧
    (∀ (before later : List Op) (voterId candidate_id candidate_id' : Nat),
      (step env (run env Store.empty before)
        (.castVote (.verified voterId) candidate_id)).2.status = 201 →
      step env
          (run env Store.empty
            (before ++ [.castVote (.verified voterId) candidate_id] ++ later))
          (.castVote (.verified voterId) candidate_id')
        = (run env Store.empty
            (before ++ [.castVote (.verified voterId) candidate_id] ++ later),
           ⟨400, .error "Voter not eligible"⟩)) := by
  refine ⟨fun ops vid => (ballotInv_run env ops).once vid, ?_⟩
  intro before later voterId candidate_id candidate_id' hok
  have h1 := voted_of_accepted env _ (ballotInv_run env before) voterId candidate_id hok
  rw [← run_snoc] at h1
  have h2 : Voted (run env Store.empty
      (before ++ [.castVote (.verified voterId) candidate_id] ++ later)) voterId := by
    rw [run_append]
    exact run_induction env (fun s => Voted s voterId) (voted_step env voterId) _ h1 later
  simp only [step, postVotes, authenticate]
  rw [voted_refused _ voterId candidate_id' h2]
  rfl

/-! ## Tallies -/

theorem tallyInv_empty (env : Env) : TallyInv env Store.empty :=
  ⟨by simp [Store.empty], by simp [Store.empty], by simp [Store.empty],
   by simp [Store.empty]⟩

theorem tallyInv_registerCandidate {env : Env} {s : Store} (h : TallyInv env s)
    (name : String) (party : Option String) :
    TallyInv env { s with
      candidates := s.candidates ++
        [{ id := s.nextCandidateId, name := name, party := party, votes := 0 }],
      nextCandidateId := s.nextCandidateId + 1 } := by
  have hzero : votesFor s s.nextCandidateId = 0 := by
    rw [votesFor, List.countP_eq_zero]
    intro r hr hrc
    have := h.voteRefs r hr s.nextCandidateId (by simpa using hrc)
    omega
  refine ⟨?_, ?_, ?_, ?_⟩
  · intro c hc
    rcases List.mem_append.mp hc with hc | hc
    · exact Nat.lt_succ_of_lt (h.candidateIds c hc)
    · simp only [List.mem_singleton] at hc
      subst hc
      exact Nat.lt_succ_self _
  · intro r hr cid hcid
    exact Nat.lt_succ_of_lt (h.voteRefs r hr cid hcid)
  · intro c hc
    rcases List.mem_append.mp hc with hc | hc
    · exact h.le c hc
    · simp only [List.mem_singleton] at hc
      subst hc
      simp only [votesFor] at hzero ⊢
      simp [hzero]
  · intro hfk c hc
    rcases List.mem_append.mp hc with hc | hc
    · exact h.eq hfk c hc
    · simp only [List.mem_singleton] at hc
      subst hc
      simp only [votesFor] at hzero ⊢
      simp [hzero]

theorem tallyInv_destroyVoter {env : Env} {s s' : Store} {voter : Voter}
    (h : TallyInv env s) (hd : destroyVoter env.voterFk s voter = some s') :
    TallyInv env s' := by
  obtain ⟨-, hc', -, hn, -⟩ := destroyVoter_frame hd
  rcases destroyVoter_votes hd with he | ⟨-, he⟩ | ⟨hfk, he⟩
  · exact ⟨fun c hc => hn ▸ h.candidateIds c (hc' ▸ hc),
      fun r hr cid hcid => hn ▸ h.voteRefs r (he ▸ hr) cid hcid,
      fun c hc => by rw [votesFor, he]; exact h.le c (hc' ▸ hc),
      fun hfk c hc => by rw [votesFor, he]; exact h.eq hfk c (hc' ▸ hc)⟩
  · have hcount : ∀ cid, votesFor s' cid = votesFor s cid := by
      intro cid
      rw [votesFor, votesFor, he, List.countP_map]
      apply List.countP_congr
      intro r _
      simp only [Function.comp_apply]
      split <;> simp
    refine ⟨fun c hc => hn ▸ h.candidateIds c (hc' ▸ hc), ?_,
      fun c hc => by rw [hcount]; exact h.le c (hc' ▸ hc),
      fun hfk c hc => by rw [hcount]; exact h.eq hfk c (hc' ▸ hc)⟩
    intro r' hr' cid hcid
    rw [he] at hr'
    obtain ⟨r, hr, rfl⟩ := List.mem_map.mp hr'
    rw [hn]
    refine h.voteRefs r hr cid ?_
    split at hcid <;> simpa using hcid
  · refine ⟨fun c hc => hn ▸ h.candidateIds c (hc' ▸ hc), ?_, ?_,
      fun hne => absurd hfk hne⟩
    · intro r hr cid hcid
      rw [he] at hr
      exact hn ▸ h.voteRefs r (List.mem_filter.mp hr).1 cid hcid
    · intro c hc
      refine le_trans ?_ (h.le c (hc' ▸ hc))
      rw [votesFor, votesFor, he]
      exact (List.filter_sublist s.votes).countP_le _

theorem tallyInv_destroyCandidate {env : Env} {s s' : Store} {candidate : Candidate}
    (h : TallyInv env s) (hd : destroyCandidate env.candidateFk s candidate = some s') :
    TallyInv env s' := by
  obtain ⟨hc', -, -, hn, -⟩ := destroyCandidate_frame hd
  have hmem : ∀ c ∈ s'.candidates, c ∈ s.candidates ∧ c.id ≠ candidate.id := by
    intro c hc
    rw [hc'] at hc
    have := List.mem_filter.mp hc
    exact ⟨this.1, by simpa using this.2⟩
  rcases destroyCandidate_votes hd with he | ⟨-, he⟩ | ⟨-, he⟩
  · exact ⟨fun c hc => hn ▸ h.candidateIds c (hmem c hc).1,
      fun r hr cid hcid => hn ▸ h.voteRefs r (he ▸ hr) cid hcid,
      fun c hc => by rw [votesFor, he]; exact h.le c (hmem c hc).1,
      fun hfk c hc => by rw [votesFor, he]; exact h.eq hfk c (hmem c hc).1⟩
  · have hcount : ∀ cid, cid ≠ candidate.id → votesFor s' cid = votesFor s cid := by
      intro cid hne
      rw [votesFor, votesFor, he, List.countP_map]
      apply List.countP_congr
      intro r _
      simp only [Function.comp_apply]
      split
      · rename_i hr
        simp [hr, hne, Ne.symm hne]
      · simp
    refine ⟨fun c hc => hn ▸ h.candidateIds c (hmem c hc).1, ?_,
      fun c hc => by rw [hcount _ (hmem c hc).2]; exact h.le c (hmem c hc).1,
      fun hfk c hc => by rw [hcount _ (hmem c hc).2]; exact h.eq hfk c (hmem c hc).1⟩
    intro r' hr' cid hcid
    rw [he] at hr'
    obtain ⟨r, hr, rfl⟩ := List.mem_map.mp hr'
    rw [hn]
    refine h.voteRefs r hr cid ?_
    split at hcid
    · simp at hcid
    · exact hcid
  · have hcount : ∀ cid, cid ≠ candidate.id → votesFor s' cid = votesFor s cid := by
      intro cid hne
      rw [votesFor, votesFor, he, List.countP_filter]
      apply List.countP_congr
      intro r _
      simp only [Bool.and_eq_true, beq_iff_eq, bne_iff_ne, ne_eq]
      constructor
      · exact fun hx => hx.1
      · intro hx
        refine ⟨hx, ?_⟩
        rw [hx]
        simpa using hne
    refine ⟨fun c hc => hn ▸ h.candidateIds c (hmem c hc).1, ?_,
      fun c hc => by rw [hcount _ (hmem c hc).2]; exact h.le c (hmem c hc).1,
      fun hfk c hc => by rw [hcount _ (hmem c hc).2]; exact h.eq hfk c (hmem c hc).1⟩
    intro r hr cid hcid
    rw [he] at hr
    exact hn ▸ h.voteRefs r (List.mem_filter.mp hr).1 cid hcid

theorem tallyInv_castVote {env : Env} {s : Store} (h : TallyInv env s)
    {candidate_id : Nat} (voter : Voter) {candidate : Candidate}
    (hc : findCandidateByPk s candidate_id = some candidate) :
    TallyInv env (writeVotes (setHasVoted (createVote s voter.id candidate_id) voter)
      candidate (candidate.votes + 1)) := by
  obtain ⟨hmem, hid⟩ := find_some_mem hc
  have hid' : candidate.id = candidate_id := by simpa using hid
  have hcount : ∀ cid, votesFor (writeVotes (setHasVoted
      (createVote s voter.id candidate_id) voter) candidate (candidate.votes + 1)) cid
      = votesFor s cid + if cid = candidate_id then 1 else 0 := by
    intro cid
    simp only [votesFor, writeVotes, setHasVoted, createVote, List.countP_append,
      List.countP_cons, List.countP_nil]
    by_cases hcid : cid = candidate_id
    · simp [hcid]
    · simp [hcid, Ne.symm hcid]
  refine ⟨?_, ?_, ?_, ?_⟩
  · intro c hc'
    simp only [writeVotes, setHasVoted, createVote, List.mem_map] at hc' ⊢
    obtain ⟨c0, hc0, rfl⟩ := hc'
    have := h.candidateIds c0 hc0
    split <;> simpa using this
  · intro r hr cid hcid
    simp only [writeVotes, setHasVoted, createVote, List.mem_append,
      List.mem_singleton] at hr ⊢
    rcases hr with hr | rfl
    · exact h.voteRefs r hr cid hcid
    · simp only [Option.some.injEq] at hcid
      rw [← hcid, ← hid']
      exact h.candidateIds candidate hmem
  · intro c hc'
    rw [hcount]
    simp only [writeVotes, setHasVoted, createVote, List.mem_map] at hc'
    obtain ⟨c0, hc0, rfl⟩ := hc'
    by_cases hc0id : c0.id = candidate.id
    · have := h.le candidate hmem
      rw [if_pos hc0id]
      show votesFor s c0.id + _ ≤ candidate.votes + 1
      rw [hc0id, if_pos hid']
      omega
    · have := h.le c0 hc0
      have hne : c0.id ≠ candidate_id := hid' ▸ hc0id
      simpa [hc0id, hne] using this
  · intro hfk c hc'
    rw [hcount]
    simp only [writeVotes, setHasVoted, createVote, List.mem_map] at hc'
    obtain ⟨c0, hc0, rfl⟩ := hc'
    by_cases hc0id : c0.id = candidate.id
    · have := h.eq hfk candidate hmem
      rw [if_pos hc0id]
      show candidate.votes + 1 = votesFor s c0.id + _
      rw [hc0id, if_pos hid']
      omega
    · have := h.eq hfk c0 hc0
      have hne : c0.id ≠ candidate_id := hid' ▸ hc0id
      simpa [hc0id, hne] using this

theorem tallyInv_step (env : Env) (s : Store) (op : Op) (h : TallyInv env s) :
    TallyInv env (step env s op).1 := by
  cases op with
  | register name email password =>
    rcases register_store env s name email password with he | ⟨-, he⟩
    · simp only [step, he]; exact h
    · simp only [step, he]
      exact ⟨h.candidateIds, h.voteRefs, h.le, h.eq⟩
  | registerCandidate name party =>
    rcases registerCandidate_store s name party with he | ⟨-, he⟩
    · simp only [step, he]; exact h
    · simp only [step, he]
      exact tallyInv_registerCandidate h name party
  | deleteVoter id =>
    rcases deleteVoter_store env s id with he | ⟨voter, _, hd⟩
    · simp only [step, he]; exact h
    · exact tallyInv_destroyVoter h hd
  | deleteCandidate id =>
    rcases deleteCandidate_store env s id with he | ⟨candidate, _, hd⟩
    · simp only [step, he]; exact h
    · exact tallyInv_destroyCandidate h hd
  | castVote auth candidate_id =>
    rcases postVotes_store s auth candidate_id with ⟨he, -⟩ | ⟨userId, -, he⟩
    · simp only [step, he]; exact h
    · rcases castVote_store s userId candidate_id with
        ⟨he', -⟩ | ⟨voter, cand, -, -, hc, he'⟩
      · simp only [step, he, he']; exact h
      · simp only [step, he, he']
        exact tallyInv_castVote h voter hc
  | login | listVoters | getVoter | listCandidates | getCandidate | listVotes
  | statistics => rw [read_store env s _ trivial]; exact h

theorem tallyInv_run (env : Env) (ops : List Op) :
    TallyInv env (run env Store.empty ops) :=
  run_induction env (TallyInv env) (tallyInv_step env) Store.empty (tallyInv_empty env) ops

theorem deleteVoter_cascade (env : Env) (s : Store) (id : Nat)
    (hfk : env.voterFk = .cascade) (hv : ∃ v ∈ s.voters, v.id = id) :
    step env s (.deleteVoter id)
      = ({ s with voters := s.voters.filter (fun v => v.id != id),
                  votes := s.votes.filter (fun r => r.voter_id != some id) },
         ⟨200, .message "Voter deleted successfully"⟩) := by
  obtain ⟨v, hv, hid⟩ := hv
  obtain ⟨voter, hfind⟩ : ∃ voter, findVoterByPk s id = some voter := by
    rw [← Option.isSome_iff_exists, findVoterByPk, List.find?_isSome]
    exact ⟨v, hv, by simp [hid]⟩
  have hvid : voter.id = id := by simpa using (find_some_mem hfind).2
  simp [step, deleteVoter, hfind, destroyVoter, hfk, hvid]

theorem deleteCandidate_cascade (env : Env) (s : Store) (id : Nat)
    (hfk : env.candidateFk = .cascade) (hc : ∃ c ∈ s.candidates, c.id = id) :
    step env s (.deleteCandidate id)
      = ({ s with candidates := s.candidates.filter (fun c => c.id != id),
                  votes := s.votes.filter (fun r => r.candidate_id != some id) },
         ⟨200, .message "Candidate deleted successfully"⟩) := by
  obtain ⟨c, hc, hid⟩ := hc
  obtain ⟨candidate, hfind⟩ : ∃ candidate, findCandidateByPk s id = some candidate := by
    rw [← Option.isSome_iff_exists, findCandidateByPk, List.find?_isSome]
    exact ⟨c, hc, by simp [hid]⟩
  have hcid : candidate.id = id := by simpa using (find_some_mem hfind).2
  simp [step, deleteCandidate, hfind, destroyCandidate, hfk, hcid]

/-- A request that deletes no voter with a Vote row has the same effect
whatever the referential action of `votes.voter_id`. -/
theorem step_unenforced (env : Env) (s : Store) (op : Op)
    (h : op.deletesVotedVoter s = false) :
    (step env s op).1 = (step { env with voterFk := .unenforced } s op).1 := by
  cases op with
  | deleteVoter id =>
    simp only [Op.deletesVotedVoter, List.any_eq_false, beq_iff_eq] at h
    simp only [step, deleteVoter]
    cases hfind : findVoterByPk s id with
    | none => rfl
    | some voter =>
      have hvid : voter.id = id := by simpa using (find_some_mem hfind).2
      have hnone : ∀ r ∈ s.votes, ¬ r.voter_id = some voter.id := hvid ▸ h
      have hany : s.votes.any (fun r => r.voter_id == some voter.id) = false := by
        simpa [List.any_eq_false] using hnone
      have hmap : s.votes.map (fun r =>
          if r.voter_id = some voter.id then { r with voter_id := none } else r)
          = s.votes := by
        conv_rhs => rw [← List.map_id s.votes]
        apply List.map_congr_left
        intro r hr
        simp [hnone r hr]
      have hfilter : s.votes.filter (fun r => r.voter_id != some voter.id) = s.votes := by
        rw [List.filter_eq_self]
        intro r hr
        simpa using hnone r hr
      cases hk : env.voterFk <;> simp [destroyVoter, hany, hmap, hfilter]
  | register | login | listVoters | getVoter | registerCandidate | listCandidates
  | getCandidate | deleteCandidate | castVote | listVotes | statistics => rfl

theorem run_unenforced (env : Env) (s : Store) (ops : List Op)
    (h : KeepsVotedVoters env s ops) :
    run env s ops = run { env with voterFk := .unenforced } s ops := by
  induction ops generalizing s with
  | nil => rfl
  | cons op rest ih =>
    obtain ⟨h1, h2⟩ := h
    have hstep := step_unenforced env s op h1
    simp only [run, List.foldl_cons] at ih ⊢
    rw [← hstep]
    exact ih _ h2

/-- C2, as amended. After any sequence of requests handled one at a time from
the empty store, for every candidate in the registry `votes` is at least the
number of Vote rows whose `candidate_id` is the candidate's id, and equals it
when no request of the run has deleted a voter that a Vote row references (or
the referential action of `votes.voter_id` is not CASCADE). Under ON DELETE
CASCADE, the action of the program's tables, deleting an existing voter
answers 200 and deletes the Vote rows of the voter together with the voter,
while every candidate row, tallies included, stays as it was. -/
theorem tally_consistent (env : Env) (ops : List Op) :
    (∀ c ∈ (run env Store.empty ops).candidates,
      votesFor (run env Store.empty ops) c.id ≤ c.votes) ∧
    ((env.voterFk ≠ .cascade ∨ KeepsVotedVoters env Store.empty ops) →
      ∀ c ∈ (run env Store.empty ops).candidates,
        c.votes = votesFor (run env Store.empty ops) c.id) ∧
    (env.voterFk = .cascade → ∀ (s : Store) (id : Nat), (∃ v ∈ s.voters, v.id = id) →
      step env s (.deleteVoter id)
        = ({ s with voters := s.voters.filter (fun v => v.id != id),
                    votes := s.votes.filter (fun r => r.voter_id != some id) },
           ⟨200, .message "Voter deleted successfully"⟩)) := by
  refine ⟨fun c hc => (tallyInv_run env ops).le c hc, ?_, ?_⟩
  · rintro (hfk | hkeep) c hc
    · exact (tallyInv_run env ops).eq hfk c hc
    · rw [run_unenforced env Store.empty ops hkeep] at hc ⊢
      exact (tallyInv_run { env with voterFk := .unenforced } ops).eq (by simp) c hc
  · intro hfk s id hv
    exact deleteVoter_cascade env s id hfk hv

/-- C2 as stated fails: after register, registerCandidate, an accepted vote
and the deletion of the voter (answered 200), the candidate's tally is 1 and
no Vote row references the candidate. -/
theorem tally_consistent_counterexample :
    (step sampleEnv
        (run sampleEnv Store.empty
          [.register "Alice" "alice@x.com" "pw", .registerCandidate "Bob" none,
           .castVote (.verified 1) 1])
        (.deleteVoter 1)).2 = ⟨200, .message "Voter deleted successfully"⟩ ∧
    (run sampleEnv Store.empty
        [.register "Alice" "alice@x.com" "pw", .registerCandidate "Bob" none,
         .castVote (.verified 1) 1, .deleteVoter 1]).candidates
      = [{ id := 1, name := "Bob", party := none, votes := 1 }] ∧
    votesFor (run sampleEnv Store.empty
        [.register "Alice" "alice@x.com" "pw", .registerCandidate "Bob" none,
         .castVote (.verified 1) 1, .deleteVoter 1]) 1 = 0 := by
  decide

/-! ## The ballot ledger -/

theorem votes_kept_of_extend {s s' : Store} (h : s'.votes = s.votes ∨
    ∃ r, s'.votes = s.votes ++ [r]) : ∀ r ∈ s.votes, r ∈ s'.votes := by
  intro r hr
  rcases h with h | ⟨r', h⟩ <;> rw [h]
  · exact hr
  · exact List.mem_append_left _ hr

theorem step_votes_extend (env : Env) (s : Store) (op : Op)
    (hv : ∀ id, op ≠ .deleteVoter id) (hc : ∀ id, op ≠ .deleteCandidate id) :
    (step env s op).1.votes = s.votes ∨ ∃ r, (step env s op).1.votes = s.votes ++ [r] := by
  cases op with
  | register name email password =>
    left
    rcases register_store env s name email password with he | ⟨-, he⟩ <;>
      simp only [step, he]
  | registerCandidate name party =>
    left
    rcases registerCandidate_store s name party with he | ⟨-, he⟩ <;>
      simp only [step, he]
  | deleteVoter id => exact absurd rfl (hv id)
  | deleteCandidate id => exact absurd rfl (hc id)
  | castVote auth candidate_id =>
    rcases postVotes_store s auth candidate_id with ⟨he, -⟩ | ⟨userId, -, he⟩
    · left; simp only [step, he]
    · rcases castVote_store s userId candidate_id with
        ⟨he', -⟩ | ⟨voter, cand, -, -, -, he'⟩
      · left; simp only [step, he, he']
      · right
        refine ⟨{ id := s.nextVoteId, voter_id := some voter.id,
                  candidate_id := some candidate_id }, ?_⟩
        simp only [step, he, he', writeVotes, setHasVoted, createVote]
  | login | listVoters | getVoter | listCandidates | getCandidate | listVotes
  | statistics => rw [read_store env s _ trivial]; exact Or.inl rfl

/-- C10, as amended. For every store: a request other than the deletion of a
voter or a candidate keeps every Vote row as it is (and keeps the rows in
place, adding at most one at the end); the deletion of a voter or a candidate
keeps every Vote row that does not reference the deleted row; and under
ON DELETE CASCADE, the action of the program's tables, the deletion of an
existing voter or candidate answers 200 and deletes exactly the Vote rows that
reference the deleted row. -/
theorem ledger_append_only_up_to_deletes (env : Env) (s : Store) :
    (∀ op, (∀ id, op ≠ .deleteVoter id) → (∀ id, op ≠ .deleteCandidate id) →
      (∀ r ∈ s.votes, r ∈ (step env s op).1.votes) ∧
      ((step env s op).1.votes = s.votes ∨
        ∃ r, (step env s op).1.votes = s.votes ++ [r])) ∧
    (∀ id, ∀ r ∈ s.votes, r.voter_id ≠ some id →
      r ∈ (step env s (.deleteVoter id)).1.votes) ∧
    (∀ id, ∀ r ∈ s.votes, r.candidate_id ≠ some id →
      r ∈ (step env s (.deleteCandidate id)).1.votes) ∧
    (env.voterFk = .cascade → ∀ id, (∃ v ∈ s.voters, v.id = id) →
      (step env s (.deleteVoter id)).2 = ⟨200, .message "Voter deleted successfully"⟩ ∧
      (step env s (.deleteVoter id)).1.votes
        = s.votes.filter (fun r => r.voter_id != some id) ∧
      ∀ r ∈ s.votes, r.voter_id = some id → r ∉ (step env s (.deleteVoter id)).1.votes) ∧
    (env.candidateFk = .cascade → ∀ id, (∃ c ∈ s.candidates, c.id = id) →
      (step env s (.deleteCandidate id)).2
        = ⟨200, .message "Candidate deleted successfully"⟩ ∧
      (step env s (.deleteCandidate id)).1.votes
        = s.votes.filter (fun r => r.candidate_id != some id) ∧
      ∀ r ∈ s.votes, r.candidate_id = some id →
        r ∉ (step env s (.deleteCandidate id)).1.votes) := by
  refine ⟨?_, ?_, ?_, ?_, ?_⟩
  · intro op hv hc
    exact ⟨votes_kept_of_extend (step_votes_extend env s op hv hc),
      step_votes_extend env s op hv hc⟩
  · intro id r hr hne
    rcases deleteVoter_store env s id with he | ⟨voter, hfind, hd⟩
    · simp only [step, he]; exact hr
    · have hid : voter.id = id := by simpa using (find_some_mem hfind).2
      simp only [step]
      rcases destroyVoter_votes hd with he | ⟨-, he⟩ | ⟨-, he⟩ <;> rw [he]
      · exact hr
      · refine List.mem_map.mpr ⟨r, hr, ?_⟩
        rw [if_neg (hid ▸ hne)]
      · refine List.mem_filter.mpr ⟨hr, ?_⟩
        simpa [hid] using hne
  · intro id r hr hne
    rcases deleteCandidate_store env s id with he | ⟨candidate, hfind, hd⟩
    · simp only [step, he]; exact hr
    · have hid : candidate.id = id := by simpa using (find_some_mem hfind).2
      simp only [step]
      rcases destroyCandidate_votes hd with he | ⟨-, he⟩ | ⟨-, he⟩ <;> rw [he]
      · exact hr
      · refine List.mem_map.mpr ⟨r, hr, ?_⟩
        rw [if_neg (hid ▸ hne)]
      · refine List.mem_filter.mpr ⟨hr, ?_⟩
        simpa [hid] using hne
  · intro hfk id hv
    rw [deleteVoter_cascade env s id hfk hv]
    refine ⟨rfl, rfl, ?_⟩
    intro r _ href hmem
    have := (List.mem_filter.mp hmem).2
    simp [href] at this
  · intro hfk id hc
    rw [deleteCandidate_cascade env s id hfk hc]
    refine ⟨rfl, rfl, ?_⟩
    intro r _ href hmem
    have := (List.mem_filter.mp hmem).2
    simp [href] at this

/-- C10 as stated fails on the deletion of a voter or a candidate that has a
Vote row: the deletion is answered 200 and the Vote row is deleted with it. -/
theorem ledger_append_only_counterexample :
    ({ id := 1, voter_id := some 1, candidate_id := some 1 } : Vote) ∈
      (run sampleEnv Store.empty
        [.register "Alice" "alice@x.com" "pw", .registerCandidate "Bob" none,
         .castVote (.verified 1) 1]).votes ∧
    (step sampleEnv
      (run sampleEnv Store.empty
        [.register "Alice" "alice@x.com" "pw", .registerCandidate "Bob" none,
         .castVote (.verified 1) 1])
      (.deleteVoter 1)) =
      ({ voters := [],
         candidates := [{ id := 1, name := "Bob", party := none, votes := 1 }],
         votes := [],
         nextVoterId := 2, nextCandidateId := 2, nextVoteId := 2 },
       ⟨200, .message "Voter deleted successfully"⟩) ∧
    (step sampleEnv
      (run sampleEnv Store.empty
        [.register "Alice" "alice@x.com" "pw", .registerCandidate "Bob" none,
         .castVote (.verified 1) 1])
      (.deleteCandidate 1)) =
      ({ voters := [{ id := 1, name := "Alice", email := "alice@x.com",
                      password := "h:pw", has_voted := true }],
         candidates := [], votes := [],
         nextVoterId := 2, nextCandidateId := 2, nextVoteId := 2 },
       ⟨200, .message "Candidate deleted successfully"⟩) := by
  decide

/-! ## Rounding of line 239 -/

theorem roundHalfEven_near (q : ℚ) : |(roundHalfEven q : ℚ) - q| ≤ 1 / 2 := by
  have h1 := Int.floor_le q
  have h2 := Int.lt_floor_add_one q
  unfold roundHalfEven
  split_ifs with ha hb hc
  · rw [abs_le]; constructor <;> linarith
  · rw [abs_le]; push_cast; constructor <;> linarith
  · rw [abs_le]; constructor <;> linarith
  · rw [abs_le]; push_cast; constructor <;> linarith

theorem roundHalfEven_nonneg {q : ℚ} (hq : 0 ≤ q) : 0 ≤ roundHalfEven q := by
  have h0 : 0 ≤ ⌊q⌋ := Int.floor_nonneg.mpr hq
  unfold roundHalfEven
  split_ifs <;> omega

theorem roundHalfEven_intCast (m : ℤ) : roundHalfEven (m : ℚ) = m := by
  simp [roundHalfEven]

theorem fl_zero : fl 0 = 0 := by simp [fl]

theorem fl_nonneg {q : ℚ} (hq : 0 ≤ q) : 0 ≤ fl q := by
  unfold fl
  split_ifs
  · exact le_rfl
  · apply mul_nonneg
    · exact_mod_cast roundHalfEven_nonneg (div_nonneg hq (by positivity))
    · positivity

/-- Each rounding to binary64 has relative error at most `2 ^ (-53)`. -/
theorem fl_near {q : ℚ} (hq : 0 ≤ q) : |fl q - q| ≤ q / 2 ^ 53 := by
  rcases eq_or_lt_of_le hq with h0 | hpos
  · subst h0; simp [fl_zero]
  · have hne : q ≠ 0 := ne_of_gt hpos
    have habs : |q| = q := abs_of_pos hpos
    have hlog : (2 : ℚ) ^ Int.log 2 q ≤ q := by
      have := Int.zpow_log_le_self (R := ℚ) (b := 2) (by norm_num) hpos
      simpa using this
    set e := Int.log 2 q with he
    have hu : (0 : ℚ) < 2 ^ (e - 52) := by positivity
    have hr := roundHalfEven_near (q / 2 ^ (e - 52))
    have hfl : fl q = (roundHalfEven (q / 2 ^ (e - 52)) : ℚ) * 2 ^ (e - 52) := by
      simp only [fl, hne, if_false, habs, he]
    have hsplit : fl q - q
        = ((roundHalfEven (q / 2 ^ (e - 52)) : ℚ) - q / 2 ^ (e - 52)) * 2 ^ (e - 52) := by
      rw [hfl]; field_simp
    have hpow : (2 : ℚ) ^ (e - 52) = 2 ^ e / 2 ^ 52 := by
      rw [zpow_sub₀ (by norm_num : (2 : ℚ) ≠ 0)]; norm_cast
    rw [hsplit, abs_mul, abs_of_pos hu]
    calc |(roundHalfEven (q / 2 ^ (e - 52)) : ℚ) - q / 2 ^ (e - 52)| * 2 ^ (e - 52)
        ≤ 1 / 2 * 2 ^ (e - 52) := mul_le_mul_of_nonneg_right hr hu.le
      _ = 2 ^ e / 2 ^ 53 := by rw [hpow]; ring
      _ ≤ q / 2 ^ 53 := div_le_div_of_nonneg_right hlog (by positivity)

theorem log2_eq_of_bounds {q : ℚ} {e : ℤ} (h1 : (2 : ℚ) ^ e ≤ q) (h2 : q < 2 ^ (e + 1)) :
    Int.log 2 q = e := by
  have hpos : 0 < q := lt_of_lt_of_le (by positivity) h1
  have ha : e ≤ Int.log 2 q :=
    (Int.zpow_le_iff_le_log (R := ℚ) (b := 2) (by norm_num) hpos).mp (by simpa using h1)
  have hb : Int.log 2 q < e + 1 :=
    (Int.lt_zpow_iff_log_lt (R := ℚ) (b := 2) (by norm_num) hpos).mp (by simpa using h2)
  omega

/-- A number with at most 53 significant bits is its own rounding. -/
theorem fl_exact (m : ℤ) (k : ℤ) (h1 : 2 ^ 52 ≤ m) (h2 : m < 2 ^ 53) :
    fl ((m : ℚ) * 2 ^ k) = (m : ℚ) * 2 ^ k := by
  have hm : (0 : ℚ) < m := by exact_mod_cast lt_of_lt_of_le (by norm_num) h1
  have hq : (0 : ℚ) < (m : ℚ) * 2 ^ k := by positivity
  have hlog : Int.log 2 ((m : ℚ) * 2 ^ k) = 52 + k := by
    apply log2_eq_of_bounds
    · rw [zpow_add₀ (by norm_num : (2 : ℚ) ≠ 0)]
      apply mul_le_mul_of_nonneg_right _ (by positivity)
      exact_mod_cast h1
    · rw [show (52 : ℤ) + k + 1 = 53 + k by ring, zpow_add₀ (by norm_num : (2 : ℚ) ≠ 0)]
      apply mul_lt_mul_of_pos_right _ (by positivity)
      exact_mod_cast h2
  unfold fl
  rw [if_neg (ne_of_gt hq), abs_of_pos hq, hlog, show (52 : ℤ) + k - 52 = k by ring]
  rw [mul_div_assoc, div_self (by positivity), mul_one, roundHalfEven_intCast]

theorem toFixed2_near {x : ℚ} (hx : 0 ≤ x) : |(toFixed2 x : ℚ) - x * 100| ≤ 1 / 2 := by
  have hnn : 0 ≤ ⌊x * 100 + 1 / 2⌋ := Int.floor_nonneg.mpr (by positivity)
  have hcast : ((toFixed2 x : ℕ) : ℚ) = (⌊x * 100 + 1 / 2⌋ : ℚ) := by
    unfold toFixed2
    exact_mod_cast congrArg (Int.cast : ℤ → ℚ) (Int.toNat_of_nonneg hnn)
  have h1 := Int.floor_le (x * 100 + 1 / 2)
  have h2 := Int.lt_floor_add_one (x * 100 + 1 / 2)
  rw [hcast, abs_le]
  constructor <;> linarith

/-- The two roundings of line 239 and `toFixed(2)` together still give a
nearest hundredth of the exact quotient, for tallies in the range of an
INTEGER column. -/
theorem percentage_near (v t : Nat) (ht : 0 < t) (hv : v < 2 ^ 31) :
    ∃ n, percentage v t = .fixed n ∧
      |(n : ℚ) / 100 - (v : ℚ) / (t : ℚ) * 100| ≤ 1 / 200 := by
  have htq : (0 : ℚ) < t := by exact_mod_cast ht
  have hvq : (v : ℚ) < 2 ^ 31 := by exact_mod_cast hv
  have hv0 : (0 : ℚ) ≤ v := Nat.cast_nonneg v
  set x : ℚ := (v : ℚ) / (t : ℚ) with hx
  have hx0 : 0 ≤ x := div_nonneg hv0 htq.le
  have h1 := fl_near hx0
  have hy1 : 0 ≤ fl x := fl_nonneg hx0
  have hz0 : 0 ≤ fl x * 100 := by positivity
  have h2 := fl_near hz0
  have hy2 : 0 ≤ fl (fl x * 100) := fl_nonneg hz0
  have h3 := toFixed2_near hy2
  set n := toFixed2 (fl (fl x * 100)) with hn
  refine ⟨n, by simp [percentage, Nat.pos_iff_ne_zero.mp ht, hn, hx], ?_⟩
  rw [abs_le] at h1 h2 h3
  -- distance of `n` from the exact value, in hundredths
  have hup : (n : ℚ) - x * 10000 < 1 / 2 + 1 / (2 * t) ∧
      -(1 / 2 + 1 / (2 * t)) < (n : ℚ) - x * 10000 := by
    have hsmall : x * 10000 * ((2 + 1 / 2 ^ 53) / 2 ^ 53) < 1 / (2 * t) := by
      rw [hx, div_mul_eq_mul_div, div_mul_eq_mul_div, div_lt_div_iff₀ htq (by positivity)]
      have : (v : ℚ) * 10000 * ((2 + 1 / 2 ^ 53) / 2 ^ 53) * 2 < 1 := by
        have h' : (v : ℚ) * 10000 * ((2 + 1 / 2 ^ 53) / 2 ^ 53) * 2
            ≤ 2 ^ 31 * 10000 * ((2 + 1 / 2 ^ 53) / 2 ^ 53) * 2 := by
          apply mul_le_mul_of_nonneg_right _ (by norm_num)
          apply mul_le_mul_of_nonneg_right _ (by positivity)
          apply mul_le_mul_of_nonneg_right hvq.le (by norm_num)
        exact lt_of_le_of_lt h' (by norm_num)
      nlinarith
    have hz : fl x * 100 ≤ x * 100 * (1 + 1 / 2 ^ 53) := by
      have := h1.2
      linarith
    have he2 : fl x * 100 / 2 ^ 53 ≤ x * 100 * (1 + 1 / 2 ^ 53) / 2 ^ 53 :=
      div_le_div_of_nonneg_right hz (by positivity)
    constructor
    · have : (n : ℚ) - x * 10000 ≤
          1 / 2 + x * 10000 * ((2 + 1 / 2 ^ 53) / 2 ^ 53) := by
        have a := h3.2
        have b := h2.2
        have c := h1.2
        linarith
      linarith
    · have : -(1 / 2 + x * 10000 * ((2 + 1 / 2 ^ 53) / 2 ^ 53)) ≤
          (n : ℚ) - x * 10000 := by
        have a := h3.1
        have b := h2.1
        have c := h1.1
        linarith
      linarith
  -- `n * t - 10000 * v` is an integer, so the bound tightens to one half
  have hN : (n : ℚ) - x * 10000 = (((n : ℤ) * t - 10000 * v : ℤ) : ℚ) / t := by
    rw [hx]; push_cast; field_simp; ring
  have hNlt : ((2 * |(n : ℤ) * t - 10000 * v| : ℤ) : ℚ) < ((t + 1 : ℤ) : ℚ) := by
    push_cast
    have hmul : |(((n : ℤ) * t - 10000 * v : ℤ) : ℚ)| < (t : ℚ) / 2 + 1 / 2 := by
      rw [abs_lt]
      have e1 : (((n : ℤ) * t - 10000 * v : ℤ) : ℚ) = ((n : ℚ) - x * 10000) * t := by
        rw [hN]; field_simp
      have e2 : (1 / 2 + 1 / (2 * (t : ℚ))) * t = (t : ℚ) / 2 + 1 / 2 := by
        field_simp; ring
      rw [e1, ← e2]
      constructor
      · have := mul_lt_mul_of_pos_right hup.2 htq
        linarith
      · exact mul_lt_mul_of_pos_right hup.1 htq
    push_cast at hmul
    linarith
  have hNle : 2 * |(n : ℤ) * t - 10000 * v| ≤ (t : ℤ) := by
    have := Int.cast_lt.mp hNlt
    omega
  have hNq : |(((n : ℤ) * t - 10000 * v : ℤ) : ℚ)| ≤ (t : ℚ) / 2 := by
    have : ((2 * |(n : ℤ) * t - 10000 * v| : ℤ) : ℚ) ≤ ((t : ℤ) : ℚ) := Int.cast_le.mpr hNle
    push_cast at this ⊢
    linarith
  have hfin : |(n : ℚ) - x * 10000| ≤ 1 / 2 := by
    rw [hN, abs_div, abs_of_pos htq, div_le_iff₀ htq]
    linarith
  have : (n : ℚ) / 100 - x * 100 = ((n : ℚ) - x * 10000) / 100 := by ring
  rw [this, abs_div, abs_of_pos (by norm_num : (0 : ℚ) < 100), div_le_iff₀ (by norm_num)]
  linarith

/-! ## Statistics -/

theorem roundHalfEven_eq_of_near {x : ℚ} {m : ℤ} (h1 : (m : ℚ) - 1 / 2 < x)
    (h2 : x < (m : ℚ) + 1 / 2) : roundHalfEven x = m := by
  rcases le_or_lt (m : ℚ) x with hm | hm
  · have hfloor : ⌊x⌋ = m := by
      rw [Int.floor_eq_iff]; constructor <;> linarith
    have hfrac : x - (m : ℚ) < 1 / 2 := by linarith
    simp only [roundHalfEven, hfloor]
    rw [if_pos hfrac]
  · have hfloor : ⌊x⌋ = m - 1 := by
      rw [Int.floor_eq_iff]; push_cast; constructor <;> linarith
    have hfrac : ¬ x - ((m : ℚ) - 1) < 1 / 2 := by linarith
    have hfrac' : 1 / 2 < x - ((m : ℚ) - 1) := by linarith
    simp only [roundHalfEven, hfloor]
    push_cast
    rw [if_neg hfrac, if_pos hfrac']
    ring

/-- The rounding of a number known to lie in the binade `[2 ^ e, 2 ^ (e + 1))`
and within half a unit of `m` units in the last place. -/
theorem fl_eval {q : ℚ} (e m : ℤ) (h1 : (2 : ℚ) ^ e ≤ q) (h2 : q < 2 ^ (e + 1))
    (h3 : (m : ℚ) - 1 / 2 < q / 2 ^ (e - 52)) (h4 : q / 2 ^ (e - 52) < (m : ℚ) + 1 / 2) :
    fl q = (m : ℚ) * 2 ^ (e - 52) := by
  have hq : 0 < q := lt_of_lt_of_le (by positivity) h1
  unfold fl
  rw [if_neg (ne_of_gt hq), abs_of_pos hq, log2_eq_of_bounds h1 h2,
    roundHalfEven_eq_of_near h3 h4]

theorem percentage_23_of_160 : percentage 23 160 = .fixed 1437 := by
  have h1 : fl ((23 : ℚ) / 160) = 5179139571476070 / 2 ^ 55 := by
    have := fl_eval (q := (23 : ℚ) / 160) (-3) 5179139571476070
      (by norm_num) (by norm_num) (by norm_num) (by norm_num)
    rw [this]; norm_num
  have h2 : fl ((5179139571476070 : ℚ) / 2 ^ 55 * 100) = 8092405580431359 / 2 ^ 49 := by
    have := fl_eval (q := (5179139571476070 : ℚ) / 2 ^ 55 * 100) 3 8092405580431359
      (by norm_num) (by norm_num) (by norm_num) (by norm_num)
    rw [this]; norm_num
  have h3 : toFixed2 ((8092405580431359 : ℚ) / 2 ^ 49) = 1437 := by
    unfold toFixed2
    have : ⌊(8092405580431359 : ℚ) / 2 ^ 49 * 100 + 1 / 2⌋ = 1437 := by
      rw [Int.floor_eq_iff]; norm_num
    rw [this]; rfl
  unfold percentage
  rw [if_neg (by norm_num)]
  simp only [Nat.cast_ofNat]
  rw [h1, h2, h3]

theorem percentage_137_of_160 : percentage 137 160 = .fixed 8563 := by
  have h1 : fl ((137 : ℚ) / 160) = 7712414361871974 / 2 ^ 53 := by
    have := fl_eval (q := (137 : ℚ) / 160) (-1) 7712414361871974
      (by norm_num) (by norm_num) (by norm_num) (by norm_num)
    rw [this]; norm_num
  have h2 : fl ((7712414361871974 : ℚ) / 2 ^ 53 * 100) = 6025323720212480 / 2 ^ 46 := by
    have := fl_eval (q := (7712414361871974 : ℚ) / 2 ^ 53 * 100) 6 6025323720212480
      (by norm_num) (by norm_num) (by norm_num) (by norm_num)
    rw [this]; norm_num
  have h3 : toFixed2 ((6025323720212480 : ℚ) / 2 ^ 46) = 8563 := by
    unfold toFixed2
    have : ⌊(6025323720212480 : ℚ) / 2 ^ 46 * 100 + 1 / 2⌋ = 8563 := by
      rw [Int.floor_eq_iff]; norm_num
    rw [this]; rfl
  unfold percentage
  rw [if_neg (by norm_num)]
  simp only [Nat.cast_ofNat]
  rw [h1, h2, h3]

/-- A number of hundredths within one half of the exact value is the rounded
value, or its lower neighbour when the exact value is a tie. -/
theorem nearest_or_tie {x : ℚ} (hx : 0 ≤ x) (n : ℕ) (h : |(n : ℚ) / 100 - x| ≤ 1 / 200) :
    n = roundTwoDecimals x ∨ (IsTie x ∧ n + 1 = roundTwoDecimals x) := by
  have hnn : 0 ≤ ⌊x * 100 + 1 / 2⌋ := Int.floor_nonneg.mpr (by positivity)
  have h1 := Int.floor_le (x * 100 + 1 / 2)
  have h2 := Int.lt_floor_add_one (x * 100 + 1 / 2)
  rw [abs_le] at h
  have hle : (n : ℤ) ≤ ⌊x * 100 + 1 / 2⌋ := by
    rw [Int.le_floor]
    push_cast
    linarith [h.2]
  have hto : ((roundTwoDecimals x : ℕ) : ℤ) = ⌊x * 100 + 1 / 2⌋ :=
    Int.toNat_of_nonneg hnn
  rcases eq_or_lt_of_le hle with heq | hlt
  · left
    have : ((n : ℕ) : ℤ) = ((roundTwoDecimals x : ℕ) : ℤ) := by rw [hto, heq]
    exact_mod_cast this
  · right
    have hle' : (n : ℤ) + 1 ≤ ⌊x * 100 + 1 / 2⌋ := hlt
    have hq : ((n : ℤ) : ℚ) + 1 ≤ (⌊x * 100 + 1 / 2⌋ : ℚ) := by exact_mod_cast hle'
    have hn : (n : ℚ) = x * 100 - 1 / 2 := by
      push_cast at hq
      linarith [h.1]
    have hm : (⌊x * 100 + 1 / 2⌋ : ℚ) = (n : ℚ) + 1 := by
      push_cast at hq
      linarith [h.1]
    refine ⟨?_, ?_⟩
    · have hfloor : ⌊x * 100⌋ = (n : ℤ) := by
        rw [Int.floor_eq_iff]
        push_cast
        constructor <;> linarith
      rw [IsTie, hfloor]
      push_cast
      linarith
    · have : (((n + 1 : ℕ) : ℤ) : ℚ) = (((roundTwoDecimals x : ℕ) : ℤ) : ℚ) := by
        rw [hto, hm]; push_cast; ring
      exact_mod_cast this

/-- C7, as amended. For every store with tallies in the range of an INTEGER
column, `statistics` answers 200 with `totalVotes` = the number of Vote rows
and one entry per candidate, in candidate order, with the candidate's name,
party and votes; the percentage is the number 0 for every candidate when there
is no Vote row (no quotient is formed), and otherwise `toFixed(2)` of the
binary64 value of `(votes / totalVotes) * 100`: a number of hundredths within
0.005 of the exact `votes / totalVotes × 100`, equal to the exact value
rounded to two decimals unless the exact value is a tie between two
hundredths, where it is the rounded value or the hundredth below it. -/
theorem statistics_formula (s : Store) (hint : ∀ c ∈ s.candidates, c.votes < 2 ^ 31) :
    ∃ entries, statistics s = (s, ⟨200, .statistics s.votes.length entries⟩) ∧
      List.Forall₂ (fun (c : Candidate) (e : StatEntry) =>
        e.name = c.name ∧ e.party = c.party ∧ e.votes = c.votes ∧
        (s.votes.length = 0 → e.percentage = .zero) ∧
        (0 < s.votes.length → ∃ n, e.percentage = .fixed n ∧
          n = toFixed2 (fl (fl ((c.votes : ℚ) / (s.votes.length : ℚ)) * 100)) ∧
          |(n : ℚ) / 100 - (c.votes : ℚ) / (s.votes.length : ℚ) * 100| ≤ 1 / 200 ∧
          (n = roundTwoDecimals ((c.votes : ℚ) / (s.votes.length : ℚ) * 100) ∨
            (IsTie ((c.votes : ℚ) / (s.votes.length : ℚ) * 100) ∧
              n + 1 = roundTwoDecimals ((c.votes : ℚ) / (s.votes.length : ℚ) * 100)))))
        s.candidates entries := by
  refine ⟨_, rfl, ?_⟩
  rw [List.forall₂_map_right_iff, List.forall₂_same]
  intro c hc
  refine ⟨rfl, rfl, rfl, ?_, ?_⟩
  · intro h0
    simp [percentage, h0]
  · intro hpos
    obtain ⟨n, hn, hnear⟩ := percentage_near c.votes s.votes.length hpos (hint c hc)
    have hval : n = toFixed2 (fl (fl ((c.votes : ℚ) / (s.votes.length : ℚ)) * 100)) := by
      have hne : s.votes.length ≠ 0 := Nat.pos_iff_ne_zero.mp hpos
      simp only [percentage, hne, if_false, Percentage.fixed.injEq] at hn
      exact hn.symm
    have hx : (0 : ℚ) ≤ (c.votes : ℚ) / (s.votes.length : ℚ) * 100 := by positivity
    exact ⟨n, hn, hval, hnear, nearest_or_tie hx n hnear⟩

/-- C7 as stated fails at ties: with 23 and 137 votes of 160 the exact
percentages are 14.375 and 85.625; rounded to two decimals they are 14.38 and
85.63, and the reported ones are 14.37 and 85.63. -/
theorem statistics_formula_counterexample :
    (∀ c ∈ tieBallot.candidates, c.votes < 2 ^ 31) ∧
    statistics tieBallot
      = (tieBallot, ⟨200, .statistics 160
          [{ name := "Bob", party := none, votes := 23, percentage := .fixed 1437 },
           { name := "Dave", party := some "Green", votes := 137,
             percentage := .fixed 8563 }]⟩) ∧
    (23 : ℚ) / 160 * 100 = 14375 / 1000 ∧
    roundTwoDecimals ((23 : ℚ) / 160 * 100) = 1438 ∧
    (137 : ℚ) / 160 * 100 = 85625 / 1000 ∧
    roundTwoDecimals ((137 : ℚ) / 160 * 100) = 8563 := by
  have hlen : tieBallot.votes.length = 160 := by simp [tieBallot]
  refine ⟨by simp [tieBallot], ?_, by norm_num, ?_, by norm_num, ?_⟩
  · simp only [statistics, hlen]
    simp [tieBallot, percentage_23_of_160, percentage_137_of_160]
  · unfold roundTwoDecimals
    have : ⌊(23 : ℚ) / 160 * 100 * 100 + 1 / 2⌋ = 1438 := by
      rw [Int.floor_eq_iff]; norm_num
    rw [this]; rfl
  · unfold roundTwoDecimals
    have : ⌊(137 : ℚ) / 160 * 100 * 100 + 1 / 2⌋ = 8563 := by
      rw [Int.floor_eq_iff]; norm_num
    rw [this]; rfl

theorem percentage_sum_near (t : Nat) (ht : 0 < t) (l : List Candidate)
    (hint : ∀ c ∈ l, c.votes < 2 ^ 31) :
    |(l.map (fun c => (percentage c.votes t).value)).sum
        - ((l.map Candidate.votes).sum : ℚ) / (t : ℚ) * 100|
      ≤ 5 / 1000 * (l.length : ℚ) := by
  induction l with
  | nil => simp
  | cons c l ih =>
    have hrest := ih (fun d hd => hint d (List.mem_cons_of_mem c hd))
    obtain ⟨n, hn, hnear⟩ := percentage_near c.votes t ht (hint c (List.mem_cons_self c l))
    simp only [List.map_cons, List.sum_cons, List.length_cons]
    rw [hn, show (Percentage.fixed n).value = (n : ℚ) / 100 from rfl]
    have hsplit : (n : ℚ) / 100 + (l.map (fun c => (percentage c.votes t).value)).sum
        - ((c.votes + (l.map Candidate.votes).sum : ℕ) : ℚ) / (t : ℚ) * 100
        = ((n : ℚ) / 100 - (c.votes : ℚ) / (t : ℚ) * 100)
          + ((l.map (fun c => (percentage c.votes t).value)).sum
            - ((l.map Candidate.votes).sum : ℚ) / (t : ℚ) * 100) := by
      push_cast; ring
    rw [hsplit]
    refine le_trans (abs_add _ _) ?_
    have hlen : (5 : ℚ) / 1000 * ((l.length + 1 : ℕ) : ℚ)
        = 5 / 1000 * (l.length : ℚ) + 5 / 1000 := by
      push_cast; ring
    rw [hlen]
    linarith

/-! ## Primary keys in reachable stores -/

theorem nodup_append_fresh {α : Type} (key : α → Nat) (l : List α) (a : α)
    (hnd : (l.map key).Nodup) (hlt : ∀ x ∈ l, key x < key a) :
    ((l ++ [a]).map key).Nodup := by
  rw [List.map_append, List.nodup_append]
  refine ⟨hnd, by simp, ?_⟩
  intro k hk hk'
  simp only [List.map_cons, List.map_nil, List.mem_singleton] at hk'
  obtain ⟨x, hx, rfl⟩ := List.mem_map.mp hk
  have := hlt x hx
  omega

theorem nodup_filter_map {α : Type} (key : α → Nat) (l : List α) (p : α → Bool)
    (hnd : (l.map key).Nodup) : ((l.filter p).map key).Nodup :=
  hnd.sublist ((List.filter_sublist l).map key)

theorem map_map_keep {α : Type} (key : α → Nat) (l : List α) (g : α → α)
    (hg : ∀ x, key (g x) = key x) : (l.map g).map key = l.map key := by
  rw [List.map_map]
  exact List.map_congr_left (fun x _ => hg x)

theorem mem_append_fresh_lt {α : Type} (key : α → Nat) (l : List α) (a : α)
    (hlt : ∀ x ∈ l, key x < key a) : ∀ x ∈ l ++ [a], key x < key a + 1 := by
  intro x hx
  rcases List.mem_append.mp hx with hx | hx
  · exact Nat.lt_succ_of_lt (hlt x hx)
  · simp only [List.mem_singleton] at hx
    subst hx
    exact Nat.lt_succ_self _

theorem pkInv_empty : PkInv Store.empty :=
  ⟨by simp [Store.empty], by simp [Store.empty], by simp [Store.empty],
   by simp [Store.empty], by simp [Store.empty], by simp [Store.empty]⟩

theorem pkInv_destroyVoter {fk : OnDelete} {s s' : Store} {voter : Voter}
    (h : PkInv s) (hd : destroyVoter fk s voter = some s') : PkInv s' := by
  obtain ⟨hv', hc', hn1, hn2, hn3⟩ := destroyVoter_frame hd
  refine ⟨hv' ▸ nodup_filter_map _ _ _ h.voters,
    fun v hv => hn1 ▸ h.voterIds v (List.mem_filter.mp (hv' ▸ hv)).1,
    hc' ▸ h.candidates, fun c hc => hn2 ▸ h.candidateIds c (hc' ▸ hc), ?_, ?_⟩
  · rcases destroyVoter_votes hd with he | ⟨-, he⟩ | ⟨-, he⟩ <;> rw [he]
    · exact h.votes
    · rw [map_map_keep]
      · exact h.votes
      · intro r; split <;> rfl
    · exact nodup_filter_map _ _ _ h.votes
  · intro r hr
    rw [hn3]
    rcases destroyVoter_votes hd with he | ⟨-, he⟩ | ⟨-, he⟩ <;> rw [he] at hr
    · exact h.voteIds r hr
    · obtain ⟨r0, hr0, rfl⟩ := List.mem_map.mp hr
      have := h.voteIds r0 hr0
      split <;> simpa using this
    · exact h.voteIds r (List.mem_filter.mp hr).1

theorem pkInv_destroyCandidate {fk : OnDelete} {s s' : Store} {candidate : Candidate}
    (h : PkInv s) (hd : destroyCandidate fk s candidate = some s') : PkInv s' := by
  obtain ⟨hc', hv', hn1, hn2, hn3⟩ := destroyCandidate_frame hd
  refine ⟨hv' ▸ h.voters, fun v hv => hn1 ▸ h.voterIds v (hv' ▸ hv),
    hc' ▸ nodup_filter_map _ _ _ h.candidates,
    fun c hc => hn2 ▸ h.candidateIds c (List.mem_filter.mp (hc' ▸ hc)).1, ?_, ?_⟩
  · rcases destroyCandidate_votes hd with he | ⟨-, he⟩ | ⟨-, he⟩ <;> rw [he]
    · exact h.votes
    · rw [map_map_keep]
      · exact h.votes
      · intro r; split <;> rfl
    · exact nodup_filter_map _ _ _ h.votes
  · intro r hr
    rw [hn3]
    rcases destroyCandidate_votes hd with he | ⟨-, he⟩ | ⟨-, he⟩ <;> rw [he] at hr
    · exact h.voteIds r hr
    · obtain ⟨r0, hr0, rfl⟩ := List.mem_map.mp hr
      have := h.voteIds r0 hr0
      split <;> simpa using this
    · exact h.voteIds r (List.mem_filter.mp hr).1

theorem pkInv_castVote {s : Store} (h : PkInv s) (candidate_id : Nat) (voter : Voter)
    (candidate : Candidate) :
    PkInv (writeVotes (setHasVoted (createVote s voter.id candidate_id) voter)
      candidate (candidate.votes + 1)) := by
  refine ⟨?_, ?_, ?_, ?_, ?_, ?_⟩
  · simp only [writeVotes, setHasVoted, createVote]
    rw [map_map_keep]
    · exact h.voters
    · intro v; split <;> rfl
  · intro v hv
    simp only [writeVotes, setHasVoted, createVote, List.mem_map] at hv ⊢
    obtain ⟨v0, hv0, rfl⟩ := hv
    have := h.voterIds v0 hv0
    split <;> simpa using this
  · simp only [writeVotes, setHasVoted, createVote]
    rw [map_map_keep]
    · exact h.candidates
    · intro c; split <;> rfl
  · intro c hc
    simp only [writeVotes, setHasVoted, createVote, List.mem_map] at hc ⊢
    obtain ⟨c0, hc0, rfl⟩ := hc
    have := h.candidateIds c0 hc0
    split <;> simpa using this
  · exact nodup_append_fresh Vote.id s.votes _ h.votes h.voteIds
  · exact mem_append_fresh_lt Vote.id s.votes
      { id := s.nextVoteId, voter_id := some voter.id, candidate_id := some candidate_id }
      h.voteIds

theorem pkInv_step (env : Env) (s : Store) (op : Op) (h : PkInv s) :
    PkInv (step env s op).1 := by
  cases op with
  | register name email password =>
    rcases register_store env s name email password with he | ⟨-, he⟩
    · simp only [step, he]; exact h
    · simp only [step, he]
      exact ⟨nodup_append_fresh Voter.id s.voters _ h.voters h.voterIds,
        mem_append_fresh_lt Voter.id s.voters
          { id := s.nextVoterId, name := name, email := email,
            password := env.hash password, has_voted := false } h.voterIds,
        h.candidates, h.candidateIds, h.votes, h.voteIds⟩
  | registerCandidate name party =>
    rcases registerCandidate_store s name party with he | ⟨-, he⟩
    · simp only [step, he]; exact h
    · simp only [step, he]
      exact ⟨h.voters, h.voterIds,
        nodup_append_fresh Candidate.id s.candidates _ h.candidates h.candidateIds,
        mem_append_fresh_lt Candidate.id s.candidates
          { id := s.nextCandidateId, name := name, party := party, votes := 0 }
          h.candidateIds,
        h.votes, h.voteIds⟩
  | deleteVoter id =>
    rcases deleteVoter_store env s id with he | ⟨voter, _, hd⟩
    · simp only [step, he]; exact h
    · exact pkInv_destroyVoter h hd
  | deleteCandidate id =>
    rcases deleteCandidate_store env s id with he | ⟨candidate, _, hd⟩
    · simp only [step, he]; exact h
    · exact pkInv_destroyCandidate h hd
  | castVote auth candidate_id =>
    rcases postVotes_store s auth candidate_id with ⟨he, -⟩ | ⟨userId, -, he⟩
    · simp only [step, he]; exact h
    · rcases castVote_store s userId candidate_id with
        ⟨he', -⟩ | ⟨voter, cand, -, -, -, he'⟩
      · simp only [step, he, he']; exact h
      · simp only [step, he, he']
        exact pkInv_castVote h candidate_id voter cand
  | login | listVoters | getVoter | listCandidates | getCandidate | listVotes
  | statistics => rw [read_store env s _ trivial]; exact h

theorem pkInv_run (env : Env) (ops : List Op) : PkInv (run env Store.empty ops) :=
  run_induction env PkInv (pkInv_step env) Store.empty pkInv_empty ops

theorem sum_votes_update (l : List Candidate) (cand : Candidate) (k : Nat)
    (hnd : (l.map Candidate.id).Nodup) (hc : cand ∈ l) :
    ((l.map (fun c => if c.id = cand.id then { c with votes := k } else c)).map
        Candidate.votes).sum + cand.votes
      = (l.map Candidate.votes).sum + k := by
  induction l with
  | nil => simp at hc
  | cons a t ih =>
    rw [List.map_cons, List.nodup_cons] at hnd
    by_cases ha : a.id = cand.id
    · have hnot : ∀ x ∈ t, x.id ≠ cand.id := by
        intro x hx hxe
        exact hnd.1 (ha ▸ hxe ▸ List.mem_map_of_mem Candidate.id hx)
      have hac : a = cand := by
        rcases List.mem_cons.mp hc with h | h
        · exact h.symm
        · exact absurd rfl (hnot cand h)
      have hid : t.map (fun c => if c.id = cand.id then { c with votes := k } else c) = t := by
        conv_rhs => rw [← List.map_id t]
        apply List.map_congr_left
        intro x hx
        simp [hnot x hx]
      simp only [List.map_cons, List.sum_cons, ha, if_true, hid]
      rw [hac]
      omega
    · have hct : cand ∈ t := by
        rcases List.mem_cons.mp hc with h | h
        · exact absurd (h ▸ rfl) ha
        · exact h
      have := ih hnd.2 hct
      simp only [List.map_cons, List.sum_cons, ha, if_false]
      omega

theorem tallySum_step (env : Env) (s : Store) (op : Op) (hop : op.keepsRows = true)
    (hpk : PkInv s) (h : tallySum s = s.votes.length) :
    tallySum (step env s op).1 = (step env s op).1.votes.length := by
  cases op with
  | register name email password =>
    rcases register_store env s name email password with he | ⟨-, he⟩ <;>
      simp only [step, he, tallySum] <;> exact h
  | registerCandidate name party =>
    rcases registerCandidate_store s name party with he | ⟨-, he⟩
    · simp only [step, he]; exact h
    · simp only [step, he, tallySum, List.map_append, List.sum_append]
      simpa [tallySum] using h
  | deleteVoter id => simp [Op.keepsRows] at hop
  | deleteCandidate id => simp [Op.keepsRows] at hop
  | castVote auth candidate_id =>
    rcases postVotes_store s auth candidate_id with ⟨he, -⟩ | ⟨userId, -, he⟩
    · simp only [step, he]; exact h
    · rcases castVote_store s userId candidate_id with
        ⟨he', -⟩ | ⟨voter, cand, -, -, hc, he'⟩
      · simp only [step, he, he']; exact h
      · simp only [step, he, he', tallySum, writeVotes, setHasVoted, createVote,
          List.length_append, List.length_singleton]
        have := sum_votes_update s.candidates cand (cand.votes + 1) hpk.candidates
          (find_some_mem hc).1
        simp only [tallySum] at h
        omega
  | login | listVoters | getVoter | listCandidates | getCandidate | listVotes
  | statistics => rw [read_store env s _ trivial]; exact h

theorem tallySum_run (env : Env) (ops : List Op) (hops : ∀ op ∈ ops, op.keepsRows = true) :
    tallySum (run env Store.empty ops) = (run env Store.empty ops).votes.length := by
  induction ops using List.reverseRecOn with
  | nil => rfl
  | append_singleton ops op ih =>
    rw [run_snoc]
    exact tallySum_step env _ op (hops op (by simp)) (pkInv_run env ops)
      (ih (fun o ho => hops o (by simp [ho])))

theorem percentage_one_of_two : percentage 1 2 = .fixed 5000 := by
  have h1 : fl ((1 : ℚ) / 2) = 1 / 2 := by
    have := fl_exact (2 ^ 52) (-53) (by norm_num) (by norm_num)
    norm_num at this
    simpa using this
  have h2 : fl (50 : ℚ) = 50 := by
    have := fl_exact (50 * 2 ^ 47) (-47) (by norm_num) (by norm_num)
    norm_num at this
    simpa using this
  have h3 : toFixed2 (50 : ℚ) = 5000 := by
    unfold toFixed2
    have : ⌊(50 : ℚ) * 100 + 1 / 2⌋ = 5000 := by
      rw [Int.floor_eq_iff]; norm_num
    rw [this]; rfl
  simp only [percentage]
  norm_num [h1, h2, h3]

theorem percentage_two_of_one : percentage 2 1 = .fixed 20000 := by
  have h1 : fl (2 : ℚ) = 2 := by
    have := fl_exact (2 ^ 52) (-51) (by norm_num) (by norm_num)
    norm_num at this
    simpa using this
  have h2 : fl (200 : ℚ) = 200 := by
    have := fl_exact (200 * 2 ^ 45) (-45) (by norm_num) (by norm_num)
    norm_num at this
    simpa using this
  have h3 : toFixed2 (200 : ℚ) = 20000 := by
    unfold toFixed2
    have : ⌊(200 : ℚ) * 100 + 1 / 2⌋ = 20000 := by
      rw [Int.floor_eq_iff]; norm_num
    rw [this]; rfl
  simp only [percentage]
  norm_num [h1, h2, h3]

/-- C6, as amended. For every store in which the tallies of the listed
candidates add up to `totalVotes` (as they do in every state reached without
deleting a voter or a candidate, `tallySum_run`) and lie in the range of an
INTEGER column: if `totalVotes > 0`, the reported percentages add up to 100
within 0.005 times the number of candidates listed. -/
theorem percentages_add_up (s : Store) (hint : ∀ c ∈ s.candidates, c.votes < 2 ^ 31)
    (hsum : tallySum s = s.votes.length) (hpos : 0 < s.votes.length) :
    ∃ entries, statistics s = (s, ⟨200, .statistics s.votes.length entries⟩) ∧
      |percentageSum entries - 100| ≤ 5 / 1000 * (entries.length : ℚ) := by
  refine ⟨_, rfl, ?_⟩
  have h := percentage_sum_near s.votes.length hpos s.candidates hint
  have hq : (0 : ℚ) < (s.votes.length : ℚ) := by exact_mod_cast hpos
  have h100 : ((s.candidates.map Candidate.votes).sum : ℚ) / (s.votes.length : ℚ) * 100
      = 100 := by
    have : ((s.candidates.map Candidate.votes).sum : ℚ) = (s.votes.length : ℚ) := by
      exact_mod_cast hsum
    rw [this, div_self (ne_of_gt hq), one_mul]
  rw [h100] at h
  simpa [percentageSum, List.map_map, Function.comp_def] using h

/-- C6 as stated fails in reachable states: after the deletion of a candidate
that has a Vote row (reference kept or cleared) the only listed percentage is
50.00 of a `totalVotes` of 2, and after the deletion of a voter whose Vote row
goes with the voter the only listed percentage is 200.00 of a `totalVotes`
of 1. -/
theorem percentages_add_up_counterexample :
    (statistics (run (testEnv .unenforced .unenforced) Store.empty
        [.register "Alice" "alice@x.com" "pw", .register "Carol" "carol@x.com" "pw",
         .registerCandidate "Bob" none, .registerCandidate "Dave" none,
         .castVote (.verified 1) 1, .castVote (.verified 2) 2,
         .deleteCandidate 2])).2
      = ⟨200, .statistics 2
          [{ name := "Bob", party := none, votes := 1, percentage := .fixed 5000 }]⟩ ∧
    (statistics (run (testEnv .setNull .setNull) Store.empty
        [.register "Alice" "alice@x.com" "pw", .register "Carol" "carol@x.com" "pw",
         .registerCandidate "Bob" none, .registerCandidate "Dave" none,
         .castVote (.verified 1) 1, .castVote (.verified 2) 2,
         .deleteCandidate 2])).2
      = ⟨200, .statistics 2
          [{ name := "Bob", party := none, votes := 1, percentage := .fixed 5000 }]⟩ ∧
    (statistics (run (testEnv .cascade .cascade) Store.empty
        [.register "Alice" "alice@x.com" "pw", .register "Carol" "carol@x.com" "pw",
         .registerCandidate "Bob" none,
         .castVote (.verified 1) 1, .castVote (.verified 2) 1,
         .deleteVoter 1])).2
      = ⟨200, .statistics 1
          [{ name := "Bob", party := none, votes := 2, percentage := .fixed 20000 }]⟩ ∧
    ¬ |percentageSum
          [{ name := "Bob", party := none, votes := 1, percentage := .fixed 5000 }] - 100|
        ≤ 5 / 1000 * (1 : ℚ) ∧
    ¬ |percentageSum
          [{ name := "Bob", party := none, votes := 2, percentage := .fixed 20000 }] - 100|
        ≤ 5 / 1000 * (1 : ℚ) := by
  have e1 : run (testEnv .unenforced .unenforced) Store.empty
      [.register "Alice" "alice@x.com" "pw", .register "Carol" "carol@x.com" "pw",
       .registerCandidate "Bob" none, .registerCandidate "Dave" none,
       .castVote (.verified 1) 1, .castVote (.verified 2) 2, .deleteCandidate 2]
      = { voters := [{ id := 1, name := "Alice", email := "alice@x.com",
                       password := "h:pw", has_voted := true },
                     { id := 2, name := "Carol", email := "carol@x.com",
                       password := "h:pw", has_voted := true }],
          candidates := [{ id := 1, name := "Bob", party := none, votes := 1 }],
          votes := [{ id := 1, voter_id := some 1, candidate_id := some 1 },
                    { id := 2, voter_id := some 2, candidate_id := some 2 }],
          nextVoterId := 3, nextCandidateId := 3, nextVoteId := 3 } := by decide
  have e2 : run (testEnv .setNull .setNull) Store.empty
      [.register "Alice" "alice@x.com" "pw", .register "Carol" "carol@x.com" "pw",
       .registerCandidate "Bob" none, .registerCandidate "Dave" none,
       .castVote (.verified 1) 1, .castVote (.verified 2) 2, .deleteCandidate 2]
      = { voters := [{ id := 1, name := "Alice", email := "alice@x.com",
                       password := "h:pw", has_voted := true },
                     { id := 2, name := "Carol", email := "carol@x.com",
                       password := "h:pw", has_voted := true }],
          candidates := [{ id := 1, name := "Bob", party := none, votes := 1 }],
          votes := [{ id := 1, voter_id := some 1, candidate_id := some 1 },
                    { id := 2, voter_id := some 2, candidate_id := none }],
          nextVoterId := 3, nextCandidateId := 3, nextVoteId := 3 } := by decide
  have e3 : run (testEnv .cascade .cascade) Store.empty
      [.register "Alice" "alice@x.com" "pw", .register "Carol" "carol@x.com" "pw",
       .registerCandidate "Bob" none,
       .castVote (.verified 1) 1, .castVote (.verified 2) 1, .deleteVoter 1]
      = { voters := [{ id := 2, name := "Carol", email := "carol@x.com",
                       password := "h:pw", has_voted := true }],
          candidates := [{ id := 1, name := "Bob", party := none, votes := 2 }],
          votes := [{ id := 2, voter_id := some 2, candidate_id := some 1 }],
          nextVoterId := 3, nextCandidateId := 2, nextVoteId := 3 } := by decide
  rw [e1, e2, e3]
  refine ⟨?_, ?_, ?_, ?_, ?_⟩
  · simp [statistics, percentage_one_of_two]
  · simp [statistics, percentage_one_of_two]
  · simp [statistics, percentage_two_of_one]
  · norm_num [percentageSum, Percentage.value]
  · norm_num [percentageSum, Percentage.value]

/-! ## Two requests in flight -/

/-- Run without interruption, the five storage operations are the handler. -/
theorem castVote_steps (s : Store) (req : VoteRequest) :
    (fun st : Store × Pc => stepRequest st.1 req st.2)^[5] (s, .readVoter)
      = ((castVote s req.userId req.candidate_id).1,
         .done (castVote s req.userId req.candidate_id).2) := by
  simp only [Function.iterate_succ, Function.iterate_zero, Function.comp_apply, id_eq]
  cases h1 : findVoterByPk s req.userId with
  | none => simp [stepRequest, castVote, h1]
  | some voter =>
    by_cases h2 : voter.has_voted = true
    · simp [stepRequest, castVote, h1, h2]
    · cases h3 : findCandidateByPk s req.candidate_id with
      | none => simp [stepRequest, castVote, h1, h2, h3]
      | some candidate => simp [stepRequest, castVote, h1, h2, h3]

theorem find_markedVoters {s : Store} {v : Voter}
    (hpk : (s.voters.map Voter.id).Nodup) (hv : v ∈ s.voters) (m : Bool) :
    (markedVoters s v m).find? (fun w => w.id == v.id)
      = some (if m then { v with has_voted := true } else v) := by
  cases m with
  | false => simpa [markedVoters] using find_pk_of_mem Voter.id s.voters hpk hv
  | true =>
    simp only [markedVoters, if_true, List.find?_map]
    have hcomp : ((fun w : Voter => w.id == v.id) ∘
        fun w : Voter => if w.id = v.id then { w with has_voted := true } else w)
        = fun w => w.id == v.id := by
      funext w
      simp only [Function.comp_apply]
      split <;> rfl
    rw [hcomp, find_pk_of_mem Voter.id s.voters hpk hv]
    simp

theorem find_countedCandidates {s : Store} {c₁ c₂ : Candidate}
    (hpk : (s.candidates.map Candidate.id).Nodup) (hc : c₁ ∈ s.candidates)
    (hne : c₁.id ≠ c₂.id) (w₂ : Bool) :
    (countedCandidates s c₁ c₂ false w₂).find? (fun c => c.id == c₁.id) = some c₁ := by
  simp only [countedCandidates, List.find?_map]
  have hcomp : ((fun c : Candidate => c.id == c₁.id) ∘ fun c : Candidate =>
      if false = true ∧ c.id = c₁.id then { c with votes := c₁.votes + 1 }
      else if w₂ = true ∧ c.id = c₂.id then { c with votes := c₂.votes + 1 }
      else c) = fun c => c.id == c₁.id := by
    funext c
    simp only [Function.comp_apply]
    split
    · rfl
    · split <;> rfl
  rw [hcomp, find_pk_of_mem Candidate.id s.candidates hpk hc]
  simp [hne]

theorem markedVoters_set (s : Store) (v : Voter) (m : Bool) :
    (markedVoters s v m).map
        (fun w => if w.id = v.id then { w with has_voted := true } else w)
      = markedVoters s v true := by
  cases m with
  | false => rfl
  | true =>
    simp only [markedVoters, if_true, List.map_map]
    apply List.map_congr_left
    intro w _
    simp only [Function.comp_apply]
    split <;> simp_all

theorem countedCandidates_write (s : Store) (c₁ c₂ : Candidate) (hne : c₁.id ≠ c₂.id)
    (w₂ : Bool) :
    (countedCandidates s c₁ c₂ false w₂).map
        (fun c => if c.id = c₁.id then { c with votes := c₁.votes + 1 } else c)
      = countedCandidates s c₁ c₂ true w₂ := by
  simp only [countedCandidates, List.map_map]
  apply List.map_congr_left
  intro c _
  simp only [Function.comp_apply]
  by_cases h1 : c.id = c₁.id
  · have h2 : c.id ≠ c₂.id := h1 ▸ hne
    simp [h1, hne]
  · by_cases h2 : c.id = c₂.id <;> cases w₂ <;> simp [h1, h2, Ne.symm hne]

theorem countedCandidates_comm (s : Store) (c₁ c₂ : Candidate) (hne : c₁.id ≠ c₂.id)
    (w₁ w₂ : Bool) :
    countedCandidates s c₁ c₂ w₁ w₂ = countedCandidates s c₂ c₁ w₂ w₁ := by
  simp only [countedCandidates]
  apply List.map_congr_left
  intro c _
  by_cases h1 : c.id = c₁.id
  · have h2 : c.id ≠ c₂.id := h1 ▸ hne
    simp [h1, hne]
  · simp [h1]
theorem notEligible_beq_voteCast : (notEligible == voteCast) = false := by decide

theorem voteCast_beq_voteCast : (voteCast == voteCast) = true := by decide

theorem votesOf_createVote (s : Store) (voterId candidate_id vid : Nat) :
    votesOf (createVote s voterId candidate_id) vid
      = votesOf s vid + if voterId = vid then 1 else 0 := by
  simp only [votesOf, createVote, List.countP_append, List.countP_cons, List.countP_nil]
  by_cases h : voterId = vid <;> simp [h]

theorem votesFor_createVote (s : Store) (voterId candidate_id cid : Nat) :
    votesFor (createVote s voterId candidate_id) cid
      = votesFor s cid + if candidate_id = cid then 1 else 0 := by
  simp only [votesFor, createVote, List.countP_append, List.countP_cons, List.countP_nil]
  by_cases h : candidate_id = cid <;> simp [h]

/-- The first request performs one storage operation. -/
theorem raceInv_first {s : Store} {v : Voter} {c₁ c₂ : Candidate}
    (hpkV : (s.voters.map Voter.id).Nodup) (hpkC : (s.candidates.map Candidate.id).Nodup)
    (hv : v ∈ s.voters) (hnv : v.has_voted = false) (hc₁ : c₁ ∈ s.candidates)
    (hne : c₁.id ≠ c₂.id) (r₂ : VoteRequest) (st : Race)
    (h : RaceInv s v c₁ c₂ st) :
    RaceInv s v c₁ c₂ (raceStep ⟨v.id, c₁.id⟩ r₂ st true) := by
  obtain ⟨store, p₁, p₂⟩ := st
  obtain ⟨hl₁, hl₂, hvs, hcs, hrows, hrows₁, hrows₂, href₁, href₂⟩ := h
  simp only at hl₁ hl₂ hvs hcs hrows hrows₁ hrows₂ href₁ href₂
  cases p₁ with
  | readVoter =>
    have hfind : findVoterByPk store v.id
        = some (if p₂.marked then { v with has_voted := true } else v) := by
      rw [findVoterByPk, hvs]
      simpa [Pc.marked] using find_markedVoters hpkV hv p₂.marked
    cases hm : p₂.marked with
    | false =>
      rw [hm] at hfind
      simp only [Bool.false_eq_true, if_false] at hfind
      simp only [raceStep, if_true, stepRequest, hfind, hnv, Bool.false_eq_true, if_false]
      exact ⟨rfl, hl₂, hvs, hcs, hrows, hrows₁, hrows₂, by simp,
        fun hd => by simpa [Pc.marked] using href₂ hd⟩
    | true =>
      rw [hm] at hfind
      simp only [if_true] at hfind
      simp only [raceStep, if_true, stepRequest, hfind]
      exact ⟨Or.inr rfl, hl₂, by simpa [Pc.marked, notEligible_beq_voteCast] using hvs,
        by simpa [Pc.counted, notEligible_beq_voteCast] using hcs,
        by simpa [Pc.created, notEligible_beq_voteCast] using hrows,
        by simpa [Pc.created, notEligible_beq_voteCast] using hrows₁, hrows₂,
        fun _ => hm, fun hd => by simpa [Pc.marked] using href₂ hd⟩
  | readCandidate w =>
    simp only [Pc.LocalsOk] at hl₁
    subst hl₁
    have hfind : findCandidateByPk store c₁.id = some c₁ := by
      rw [findCandidateByPk, hcs]
      simpa [Pc.counted] using find_countedCandidates hpkC hc₁ hne p₂.counted
    simp only [raceStep, if_true, stepRequest, hfind]
    exact ⟨⟨rfl, rfl⟩, hl₂, hvs, hcs, hrows, hrows₁, hrows₂, by simp,
      fun hd => by simpa [Pc.marked] using href₂ hd⟩
  | createVote w d =>
    simp only [Pc.LocalsOk] at hl₁
    obtain ⟨rfl, rfl⟩ := hl₁
    simp only [raceStep, if_true, stepRequest]
    refine ⟨⟨rfl, rfl⟩, hl₂, hvs, hcs, ?_, ?_, ?_, by simp,
      fun hd => by simpa [Pc.marked] using href₂ hd⟩
    · rw [votesOf_createVote, if_pos rfl, hrows]
      simp only [Pc.created, Bool.toNat_false, Bool.toNat_true]
      omega
    · rw [votesFor_createVote, if_pos rfl, hrows₁]
      simp [Pc.created]
    · rw [votesFor_createVote, if_neg hne, hrows₂]
      simp
  | setHasVoted w d =>
    simp only [Pc.LocalsOk] at hl₁
    obtain ⟨rfl, rfl⟩ := hl₁
    simp only [raceStep, if_true, stepRequest]
    refine ⟨⟨rfl, rfl⟩, hl₂, ?_, hcs, hrows, hrows₁, hrows₂, by simp, fun _ => rfl⟩
    simp only [setHasVoted, hvs, markedVoters_set]
    simp [Pc.marked]
  | writeTally w d =>
    simp only [Pc.LocalsOk] at hl₁
    obtain ⟨rfl, rfl⟩ := hl₁
    simp only [raceStep, if_true, stepRequest]
    refine ⟨Or.inl rfl, hl₂, ?_, ?_, ?_, ?_, hrows₂, by simp [notEligible, voteCast],
      fun _ => by simp [Pc.marked, voteCast_beq_voteCast]⟩
    · simpa [writeVotes, Pc.marked, voteCast_beq_voteCast] using hvs
    · simp only [writeVotes, hcs]
      have := countedCandidates_write s d c₂ hne p₂.counted
      simpa [Pc.counted, voteCast_beq_voteCast] using this
    · simpa [writeVotes, votesOf, Pc.created, voteCast_beq_voteCast] using hrows
    · simpa [writeVotes, votesFor, Pc.created, voteCast_beq_voteCast] using hrows₁
  | done r =>
    simp only [raceStep, if_true, stepRequest]
    exact ⟨hl₁, hl₂, hvs, hcs, hrows, hrows₁, hrows₂, href₁, href₂⟩
theorem raceInv_swap {s : Store} {v : Voter} {c₁ c₂ : Candidate} (hne : c₁.id ≠ c₂.id)
    {st : Race} (h : RaceInv s v c₁ c₂ st) : RaceInv s v c₂ c₁ st.swap where
  first := h.second
  second := h.first
  voters := by
    simp only [Race.swap]
    rw [h.voters, Bool.or_comm]
  candidates := by
    simp only [Race.swap]
    rw [h.candidates, countedCandidates_comm s c₁ c₂ hne]
  rows := by
    simp only [Race.swap]
    rw [h.rows]
    omega
  rows₁ := h.rows₂
  rows₂ := h.rows₁
  refused₁ := h.refused₂
  refused₂ := h.refused₁

theorem raceStep_second (r₁ r₂ : VoteRequest) (st : Race) :
    raceStep r₁ r₂ st false = (raceStep r₂ r₁ st.swap true).swap := by
  simp [raceStep, Race.swap]

/-- The second request performs one storage operation. -/
theorem raceInv_second {s : Store} {v : Voter} {c₁ c₂ : Candidate}
    (hpkV : (s.voters.map Voter.id).Nodup) (hpkC : (s.candidates.map Candidate.id).Nodup)
    (hv : v ∈ s.voters) (hnv : v.has_voted = false) (hc₂ : c₂ ∈ s.candidates)
    (hne : c₁.id ≠ c₂.id) (r₁ : VoteRequest) (st : Race)
    (h : RaceInv s v c₁ c₂ st) :
    RaceInv s v c₁ c₂ (raceStep r₁ ⟨v.id, c₂.id⟩ st false) := by
  rw [raceStep_second]
  exact raceInv_swap (Ne.symm hne)
    (raceInv_first hpkV hpkC hv hnv hc₂ (Ne.symm hne) r₁ st.swap (raceInv_swap hne h))

theorem raceInv_start (s : Store) (v : Voter) (c₁ c₂ : Candidate) :
    RaceInv s v c₁ c₂ { store := s, first := .readVoter, second := .readVoter } where
  first := trivial
  second := trivial
  voters := rfl
  candidates := by
    simp only [countedCandidates, Pc.counted]
    conv_lhs => rw [← List.map_id s.candidates]
    apply List.map_congr_left
    intro c _
    simp
  rows := by simp [Pc.created]
  rows₁ := by simp [Pc.created]
  rows₂ := by simp [Pc.created]
  refused₁ := by simp
  refused₂ := by simp

theorem raceInv_race {s : Store} {v : Voter} {c₁ c₂ : Candidate}
    (hpkV : (s.voters.map Voter.id).Nodup) (hpkC : (s.candidates.map Candidate.id).Nodup)
    (hv : v ∈ s.voters) (hnv : v.has_voted = false) (hc₁ : c₁ ∈ s.candidates)
    (hc₂ : c₂ ∈ s.candidates) (hne : c₁.id ≠ c₂.id) (schedule : List Bool) :
    RaceInv s v c₁ c₂ (race ⟨v.id, c₁.id⟩ ⟨v.id, c₂.id⟩ s schedule) := by
  unfold race
  generalize hst : ({ store := s, first := .readVoter, second := .readVoter } : Race) = st
  have h0 : RaceInv s v c₁ c₂ st := hst ▸ raceInv_start s v c₁ c₂
  clear hst
  induction schedule generalizing st with
  | nil => exact h0
  | cons pick t ih =>
    apply ih
    cases pick with
    | true => exact raceInv_first hpkV hpkC hv hnv hc₁ hne _ st h0
    | false => exact raceInv_second hpkV hpkC hv hnv hc₂ hne _ st h0

theorem remaining_stepRequest (s : Store) (req : VoteRequest) (p : Pc) :
    (stepRequest s req p).2.remaining ≤ p.remaining - 1 := by
  cases p with
  | readVoter =>
    simp only [stepRequest]
    split
    · simp [Pc.remaining]
    · split <;> simp [Pc.remaining]
  | readCandidate w =>
    simp only [stepRequest]
    split <;> simp [Pc.remaining]
  | createVote w d => simp [stepRequest, Pc.remaining]
  | setHasVoted w d => simp [stepRequest, Pc.remaining]
  | writeTally w d => simp [stepRequest, Pc.remaining]
  | done r => simp [stepRequest, Pc.remaining]

theorem remaining_fold (r₁ r₂ : VoteRequest) (schedule : List Bool) (st : Race) :
    (schedule.foldl (raceStep r₁ r₂) st).first.remaining
        ≤ st.first.remaining - schedule.count true ∧
    (schedule.foldl (raceStep r₁ r₂) st).second.remaining
        ≤ st.second.remaining - schedule.count false := by
  induction schedule generalizing st with
  | nil => simp
  | cons pick t ih =>
    obtain ⟨h1, h2⟩ := ih (raceStep r₁ r₂ st pick)
    cases pick with
    | true =>
      have := remaining_stepRequest st.store r₁ st.first
      simp only [List.foldl_cons, List.count_cons, raceStep, if_true, beq_self_eq_true,
        Bool.true_eq_false, Bool.false_eq_true, if_false, beq_iff_eq] at h1 h2 ⊢
      constructor <;> omega
    | false =>
      have := remaining_stepRequest st.store r₂ st.second
      simp only [List.foldl_cons, List.count_cons, raceStep, if_true, beq_self_eq_true,
        Bool.true_eq_false, Bool.false_eq_true, if_false, beq_iff_eq] at h1 h2 ⊢
      constructor <;> omega

theorem done_of_remaining {p : Pc} (h : p.remaining = 0) : ∃ r, p = .done r := by
  cases p <;> simp [Pc.remaining] at h
  exact ⟨_, rfl⟩

theorem pk_eq_iff {α : Type} (key : α → Nat) {rows : List α}
    (hnd : (rows.map key).Nodup) {a b : α} (ha : a ∈ rows) (hb : b ∈ rows) :
    key a = key b ↔ a = b :=
  ⟨fun h => List.inj_on_of_nodup_map hnd ha hb h, fun h => h ▸ rfl⟩

theorem raceStep_first_of_second (r₁ r₂ : VoteRequest) (st : Race) :
    (raceStep r₁ r₂ st false).first = st.first := by
  simp [raceStep]

theorem raceStep_second_of_first (r₁ r₂ : VoteRequest) (st : Race) :
    (raceStep r₁ r₂ st true).second = st.second := by
  simp [raceStep]

theorem marked_stepRequest (s : Store) (req : VoteRequest) (p : Pc) (h : p.marked = true) :
    (stepRequest s req p).2.marked = true := by
  cases p with
  | writeTally w d => simp [stepRequest, Pc.marked, voteCast_beq_voteCast]
  | done r => simpa [stepRequest] using h
  | readVoter => simp [Pc.marked] at h
  | readCandidate w => simp [Pc.marked] at h
  | createVote w d => simp [Pc.marked] at h
  | setHasVoted w d => simp [Pc.marked] at h

theorem progress_stepRequest (s : Store) (req : VoteRequest) (p : Pc) :
    (stepRequest s req p).2.progress ≤ p.progress + 1 := by
  cases p with
  | readVoter =>
    simp only [stepRequest]
    split
    · simp [Pc.progress, notEligible_beq_voteCast]
    · split <;> simp [Pc.progress, notEligible_beq_voteCast]
  | readCandidate w =>
    simp only [stepRequest]
    split
    · have : (candidateNotFound == voteCast) = false := by decide
      simp [Pc.progress, this]
    · simp [Pc.progress]
  | createVote w d => simp [stepRequest, Pc.progress]
  | setHasVoted w d => simp [stepRequest, Pc.progress]
  | writeTally w d => simp [stepRequest, Pc.progress, voteCast_beq_voteCast]
  | done r => simp [stepRequest]

theorem progress_of_marked {p : Pc} (h : p.marked = true) : 4 ≤ p.progress := by
  cases p with
  | writeTally w d => simp [Pc.progress]
  | done r =>
    simp only [Pc.marked] at h
    simp [Pc.progress, h]
  | readVoter => simp [Pc.marked] at h
  | readCandidate w => simp [Pc.marked] at h
  | createVote w d => simp [Pc.marked] at h
  | setHasVoted w d => simp [Pc.marked] at h

theorem marked_of_admitted {p : Pc} (h : p.admitted = true) (hr : p.remaining ≤ 1) :
    p.marked = true := by
  cases p with
  | writeTally w d => rfl
  | done r => simpa [Pc.admitted, Pc.marked] using h
  | readVoter => simp [Pc.admitted] at h
  | readCandidate w => simp [Pc.remaining] at hr
  | createVote w d => simp [Pc.remaining] at hr
  | setHasVoted w d => simp [Pc.remaining] at hr

/-- A handler past the eligibility check stays past it: its later storage
operations do not fail. -/
theorem admitted_first {s : Store} {v : Voter} {c₁ c₂ : Candidate}
    (hpkC : (s.candidates.map Candidate.id).Nodup) (hc₁ : c₁ ∈ s.candidates)
    (hne : c₁.id ≠ c₂.id) (r₂ : VoteRequest) (st : Race)
    (h : RaceInv s v c₁ c₂ st) (ha : st.first.admitted = true) :
    (raceStep ⟨v.id, c₁.id⟩ r₂ st true).first.admitted = true := by
  obtain ⟨store, p₁, p₂⟩ := st
  obtain ⟨hl₁, -, -, hcs, -⟩ := h
  simp only at hl₁ hcs ha
  cases p₁ with
  | readVoter => simp [Pc.admitted] at ha
  | readCandidate w =>
    have hfind : findCandidateByPk store c₁.id = some c₁ := by
      rw [findCandidateByPk, hcs]
      simpa [Pc.counted] using find_countedCandidates hpkC hc₁ hne p₂.counted
    simp [raceStep, stepRequest, hfind, Pc.admitted]
  | createVote w d => simp [raceStep, stepRequest, Pc.admitted]
  | setHasVoted w d => simp [raceStep, stepRequest, Pc.admitted]
  | writeTally w d => simp [raceStep, stepRequest, Pc.admitted, voteCast_beq_voteCast]
  | done r => simpa [raceStep, stepRequest] using ha

/-- A handler that reads the voter before `has_voted` is set passes the
check. -/
theorem admitted_of_read {s : Store} {v : Voter} {c₁ c₂ : Candidate}
    (hpkV : (s.voters.map Voter.id).Nodup) (hv : v ∈ s.voters) (hnv : v.has_voted = false)
    (candidate_id : Nat) (r₂ : VoteRequest) (st : Race)
    (h : RaceInv s v c₁ c₂ st) (hf : st.first = .readVoter)
    (hm : st.second.marked = false) :
    (raceStep ⟨v.id, candidate_id⟩ r₂ st true).first.admitted = true := by
  obtain ⟨store, p₁, p₂⟩ := st
  simp only at hf hm
  subst hf
  have hvs : store.voters = markedVoters s v false := by
    have := h.voters
    simp only at this
    rw [hm] at this
    exact this
  have hfind : findVoterByPk store v.id = some v := by
    rw [findVoterByPk, hvs]
    simpa using find_markedVoters hpkV hv false
  simp [raceStep, stepRequest, hfind, hnv, Pc.admitted]

/-- A handler that reads the voter after `has_voted` is set is refused. -/
theorem refused_first {s : Store} {v : Voter} {c₁ c₂ : Candidate}
    (hpkV : (s.voters.map Voter.id).Nodup) (hv : v ∈ s.voters)
    (candidate_id : Nat) (r₂ : VoteRequest) (st : Race)
    (h : RaceInv s v c₁ c₂ st)
    (hf : st.first = .readVoter ∨ st.first = .done notEligible)
    (hm : st.second.marked = true) :
    (raceStep ⟨v.id, candidate_id⟩ r₂ st true).first = .done notEligible := by
  obtain ⟨store, p₁, p₂⟩ := st
  simp only at hf hm
  rcases hf with hf | hf
  · subst hf
    have hvs : store.voters = markedVoters s v true := by
      have := h.voters
      simp only at this
      rw [hm] at this
      exact this
    have hfind : findVoterByPk store v.id = some { v with has_voted := true } := by
      rw [findVoterByPk, hvs]
      simpa using find_markedVoters hpkV hv true
    simp [raceStep, stepRequest, hfind]
  · subst hf
    simp [raceStep, stepRequest]

theorem raceSetup_swap {s : Store} {v : Voter} {c₁ c₂ : Candidate}
    (h : RaceSetup s v c₁ c₂) : RaceSetup s v c₂ c₁ :=
  ⟨h.pkV, h.pkC, h.voter, h.fresh, h.second, h.first, Ne.symm h.differ⟩

theorem raceInv_step {s : Store} {v : Voter} {c₁ c₂ : Candidate}
    (hs : RaceSetup s v c₁ c₂) (st : Race) (pick : Bool) (h : RaceInv s v c₁ c₂ st) :
    RaceInv s v c₁ c₂ (raceStep ⟨v.id, c₁.id⟩ ⟨v.id, c₂.id⟩ st pick) := by
  cases pick with
  | true => exact raceInv_first hs.pkV hs.pkC hs.voter hs.fresh hs.first hs.differ _ st h
  | false => exact raceInv_second hs.pkV hs.pkC hs.voter hs.fresh hs.second hs.differ _ st h

theorem raceInv_fold {s : Store} {v : Voter} {c₁ c₂ : Candidate}
    (hs : RaceSetup s v c₁ c₂) (schedule : List Bool) (st : Race)
    (h : RaceInv s v c₁ c₂ st) :
    RaceInv s v c₁ c₂ (schedule.foldl (raceStep ⟨v.id, c₁.id⟩ ⟨v.id, c₂.id⟩) st) := by
  induction schedule generalizing st with
  | nil => exact h
  | cons pick t ih => exact ih _ (raceInv_step hs st pick h)

theorem admitted_fold {s : Store} {v : Voter} {c₁ c₂ : Candidate}
    (hs : RaceSetup s v c₁ c₂) (schedule : List Bool) (st : Race)
    (h : RaceInv s v c₁ c₂ st) (ha : st.first.admitted = true) :
    (schedule.foldl (raceStep ⟨v.id, c₁.id⟩ ⟨v.id, c₂.id⟩) st).first.admitted = true := by
  induction schedule generalizing st with
  | nil => exact ha
  | cons pick t ih =>
    refine ih _ (raceInv_step hs st pick h) ?_
    cases pick with
    | true => exact admitted_first hs.pkC hs.first hs.differ _ st h ha
    | false => rw [raceStep_first_of_second]; exact ha

theorem refused_fold {s : Store} {v : Voter} {c₁ c₂ : Candidate}
    (hs : RaceSetup s v c₁ c₂) (schedule : List Bool) (st : Race)
    (h : RaceInv s v c₁ c₂ st)
    (hf : st.first = .readVoter ∨ st.first = .done notEligible)
    (hm : st.second.marked = true) :
    (schedule.foldl (raceStep ⟨v.id, c₁.id⟩ ⟨v.id, c₂.id⟩) st).first = .readVoter ∨
    (schedule.foldl (raceStep ⟨v.id, c₁.id⟩ ⟨v.id, c₂.id⟩) st).first
      = .done notEligible := by
  induction schedule generalizing st with
  | nil => exact hf
  | cons pick t ih =>
    refine ih _ (raceInv_step hs st pick h) ?_ ?_
    · cases pick with
      | true => exact Or.inr (refused_first hs.pkV hs.voter _ _ st h hf hm)
      | false => rw [raceStep_first_of_second]; exact hf
    · cases pick with
      | true => rw [raceStep_second_of_first]; exact hm
      | false =>
        simp only [raceStep, Bool.false_eq_true, if_false]
        exact marked_stepRequest _ _ _ hm

theorem idle_fold (r₁ r₂ : VoteRequest) (i : Nat) (st : Race) :
    ((List.replicate i false).foldl (raceStep r₁ r₂) st).first = st.first ∧
    ((List.replicate i false).foldl (raceStep r₁ r₂) st).second.progress
      ≤ st.second.progress + i := by
  induction i generalizing st with
  | zero => simp
  | succ n ih =>
    obtain ⟨h1, h2⟩ := ih (raceStep r₁ r₂ st false)
    have hp := progress_stepRequest st.store r₂ st.second
    simp only [List.replicate_succ, List.foldl_cons]
    refine ⟨by rw [h1, raceStep_first_of_second], ?_⟩
    have : (raceStep r₁ r₂ st false).second.progress ≤ st.second.progress + 1 := by
      simpa [raceStep] using hp
    omega

theorem raceStep_swap (r₁ r₂ : VoteRequest) (st : Race) (pick : Bool) :
    (raceStep r₁ r₂ st pick).swap = raceStep r₂ r₁ st.swap (!pick) := by
  cases pick <;> simp [raceStep, Race.swap]

theorem fold_swap (r₁ r₂ : VoteRequest) (schedule : List Bool) (st : Race) :
    (schedule.foldl (raceStep r₁ r₂) st).swap
      = (schedule.map (fun b => !b)).foldl (raceStep r₂ r₁) st.swap := by
  induction schedule generalizing st with
  | nil => rfl
  | cons pick t ih =>
    simp only [List.foldl_cons, List.map_cons]
    rw [ih, raceStep_swap]

theorem schedule_split (schedule : List Bool) (h : 5 ≤ schedule.count true) :
    (∃ rest, schedule = [false, false, false, false] ++ rest) ∨
    (schedule.take 4 ≠ [false, false, false, false] ∧
      ∃ i rest, i ≤ 3 ∧ schedule = List.replicate i false ++ true :: rest) := by
  match schedule, h with
  | [], h => simp at h
  | true :: rest, _ => exact Or.inr ⟨by simp, 0, rest, by omega, rfl⟩
  | [false], h => simp at h
  | false :: true :: rest, _ => exact Or.inr ⟨by simp, 1, rest, by omega, rfl⟩
  | [false, false], h => simp at h
  | false :: false :: true :: rest, _ => exact Or.inr ⟨by simp, 2, rest, by omega, rfl⟩
  | [false, false, false], h => simp at h
  | false :: false :: false :: true :: rest, _ =>
    exact Or.inr ⟨by simp, 3, rest, by omega, rfl⟩
  | false :: false :: false :: false :: rest, _ => exact Or.inl ⟨rest, rfl⟩

/-- The first request is refused exactly when the schedule begins with four
turns of the second request, which then has set `has_voted` before the first
request reads the voter. -/
theorem first_outcome {s : Store} {v : Voter} {c₁ c₂ : Candidate}
    (hs : RaceSetup s v c₁ c₂) (schedule : List Bool) (h₁ : 5 ≤ schedule.count true) :
    ((race ⟨v.id, c₁.id⟩ ⟨v.id, c₂.id⟩ s schedule).first = .done notEligible ↔
      schedule.take 4 = [false, false, false, false]) ∧
    ((race ⟨v.id, c₁.id⟩ ⟨v.id, c₂.id⟩ s schedule).first = .done voteCast ↔
      schedule.take 4 ≠ [false, false, false, false]) := by
  have hrem := (remaining_fold ⟨v.id, c₁.id⟩ ⟨v.id, c₂.id⟩ schedule
    { store := s, first := .readVoter, second := .readVoter }).1
  have hdone : ∃ r, (race ⟨v.id, c₁.id⟩ ⟨v.id, c₂.id⟩ s schedule).first = .done r := by
    apply done_of_remaining
    have : (race ⟨v.id, c₁.id⟩ ⟨v.id, c₂.id⟩ s schedule).first.remaining
        ≤ 5 - schedule.count true := hrem
    omega
  obtain ⟨r, hr⟩ := hdone
  have hne : (notEligible : Response) ≠ voteCast := by decide
  rcases schedule_split schedule h₁ with ⟨rest, hsplit⟩ | ⟨hnot, i, rest, hi, hsplit⟩
  · -- the second request has set `has_voted` before the first reads
    have htake : schedule.take 4 = [false, false, false, false] := by simp [hsplit]
    have hfin : (race ⟨v.id, c₁.id⟩ ⟨v.id, c₂.id⟩ s schedule).first = .done notEligible := by
      have hstart := raceInv_start s v c₁ c₂
      have h4 := raceInv_fold hs (List.replicate 4 false) _ hstart
      obtain ⟨hf4, -⟩ := idle_fold ⟨v.id, c₁.id⟩ ⟨v.id, c₂.id⟩ 4
        { store := s, first := .readVoter, second := .readVoter }
      -- the second request, alone, is admitted at its first step and marked after four
      have hsw := fold_swap ⟨v.id, c₁.id⟩ ⟨v.id, c₂.id⟩ (List.replicate 4 false)
        { store := s, first := .readVoter, second := .readVoter }
      have hadm : ((List.replicate 4 false).foldl
          (raceStep ⟨v.id, c₁.id⟩ ⟨v.id, c₂.id⟩)
          { store := s, first := .readVoter, second := .readVoter }).second.admitted
          = true := by
        have e : ((List.replicate 4 false).foldl
            (raceStep ⟨v.id, c₁.id⟩ ⟨v.id, c₂.id⟩)
            { store := s, first := .readVoter, second := .readVoter }).second
            = ((List.replicate 4 false).foldl
            (raceStep ⟨v.id, c₁.id⟩ ⟨v.id, c₂.id⟩)
            { store := s, first := .readVoter, second := .readVoter }).swap.first := rfl
        rw [e, hsw]
        simp only [List.map_replicate, Bool.not_false, List.replicate_succ,
          List.replicate_zero, List.foldl_cons]
        have hsw0 : RaceInv s v c₂ c₁
            ({ store := s, first := .readVoter, second := .readVoter } : Race).swap :=
          raceInv_swap hs.differ hstart
        have hadm1 := admitted_of_read hs.pkV hs.voter hs.fresh c₂.id ⟨v.id, c₁.id⟩ _
          hsw0 rfl rfl
        exact admitted_fold (raceSetup_swap hs) [true, true, true] _
          (raceInv_step (raceSetup_swap hs) _ true hsw0) hadm1
      have hrem4 := (remaining_fold ⟨v.id, c₁.id⟩ ⟨v.id, c₂.id⟩ (List.replicate 4 false)
        { store := s, first := .readVoter, second := .readVoter }).2
      have hmark := marked_of_admitted hadm (by
        have hc : (List.replicate 4 false).count false = 4 := by decide
        rw [hc] at hrem4
        simpa [Pc.remaining] using hrem4)
      have := refused_fold hs rest _ h4 (Or.inl hf4) hmark
      have hrace : race ⟨v.id, c₁.id⟩ ⟨v.id, c₂.id⟩ s schedule
          = rest.foldl (raceStep ⟨v.id, c₁.id⟩ ⟨v.id, c₂.id⟩)
              ((List.replicate 4 false).foldl (raceStep ⟨v.id, c₁.id⟩ ⟨v.id, c₂.id⟩)
                { store := s, first := .readVoter, second := .readVoter }) := by
        rw [race, hsplit, List.foldl_append]; rfl
      rw [hrace]
      rcases this with h' | h'
      · rw [hrace] at hr; rw [h'] at hr; cases hr
      · exact h'
    constructor
    · exact ⟨fun _ => htake, fun _ => hfin⟩
    · constructor
      · intro h'
        rw [hfin] at h'
        exact absurd (Pc.done.inj h') hne
      · intro h'
        exact absurd htake h'
  · -- the first request reads the voter before the second has set `has_voted`
    have hfin : (race ⟨v.id, c₁.id⟩ ⟨v.id, c₂.id⟩ s schedule).first = .done voteCast := by
      have hstart := raceInv_start s v c₁ c₂
      have hi' := raceInv_fold hs (List.replicate i false) _ hstart
      obtain ⟨hfi, hpi⟩ := idle_fold ⟨v.id, c₁.id⟩ ⟨v.id, c₂.id⟩ i
        { store := s, first := .readVoter, second := .readVoter }
      have hunmarked : ((List.replicate i false).foldl
          (raceStep ⟨v.id, c₁.id⟩ ⟨v.id, c₂.id⟩)
          { store := s, first := .readVoter, second := .readVoter }).second.marked
          = false := by
        by_contra hc
        have hge := progress_of_marked (Bool.eq_true_of_not_eq_false hc)
        have hle : ((List.replicate i false).foldl
            (raceStep ⟨v.id, c₁.id⟩ ⟨v.id, c₂.id⟩)
            { store := s, first := .readVoter, second := .readVoter }).second.progress
            ≤ 0 + i := hpi
        omega
      have hadm1 := admitted_of_read hs.pkV hs.voter hs.fresh c₁.id ⟨v.id, c₂.id⟩ _
        hi' hfi hunmarked
      have hadm := admitted_fold hs rest _ (raceInv_step hs _ true hi') hadm1
      have hrace : race ⟨v.id, c₁.id⟩ ⟨v.id, c₂.id⟩ s schedule
          = rest.foldl (raceStep ⟨v.id, c₁.id⟩ ⟨v.id, c₂.id⟩)
              (raceStep ⟨v.id, c₁.id⟩ ⟨v.id, c₂.id⟩
                ((List.replicate i false).foldl (raceStep ⟨v.id, c₁.id⟩ ⟨v.id, c₂.id⟩)
                  { store := s, first := .readVoter, second := .readVoter }) true) := by
        rw [race, hsplit, List.foldl_append, List.foldl_cons]
      rw [← hrace, hr] at hadm
      simp only [Pc.admitted, beq_iff_eq] at hadm
      rw [hr, hadm]
    constructor
    · constructor
      · intro h'
        rw [hfin] at h'
        exact absurd (Pc.done.inj h').symm hne
      · intro h'
        exact absurd h' hnot
    · exact ⟨fun _ => hnot, fun _ => hfin⟩

theorem count_true_map_not (schedule : List Bool) :
    (schedule.map (fun b => !b)).count true = schedule.count false := by
  induction schedule with
  | nil => rfl
  | cons b t ih => cases b <;> simp [List.count_cons, ih]

theorem take_map_not (schedule : List Bool) :
    (schedule.map (fun b => !b)).take 4 = [false, false, false, false] ↔
      schedule.take 4 = [true, true, true, true] := by
  rw [← List.map_take]
  generalize schedule.take 4 = l
  constructor
  · intro h
    have h' := congrArg (List.map (fun b => !b)) h
    have hid : ((fun b : Bool => !b) ∘ fun b => !b) = id := by
      funext b; simp
    rw [List.map_map, hid, List.map_id] at h'
    exact h'
  · intro h
    rw [h]
    rfl

/-- The second request is refused exactly when the schedule begins with four
turns of the first request. -/
theorem second_outcome {s : Store} {v : Voter} {c₁ c₂ : Candidate}
    (hs : RaceSetup s v c₁ c₂) (schedule : List Bool) (h₂ : 5 ≤ schedule.count false) :
    (race ⟨v.id, c₁.id⟩ ⟨v.id, c₂.id⟩ s schedule).second = .done notEligible ↔
      schedule.take 4 = [true, true, true, true] := by
  have e : (race ⟨v.id, c₁.id⟩ ⟨v.id, c₂.id⟩ s schedule).second
      = (race ⟨v.id, c₂.id⟩ ⟨v.id, c₁.id⟩ s (schedule.map (fun b => !b))).first := by
    have := fold_swap ⟨v.id, c₁.id⟩ ⟨v.id, c₂.id⟩ schedule
      { store := s, first := .readVoter, second := .readVoter }
    show (race ⟨v.id, c₁.id⟩ ⟨v.id, c₂.id⟩ s schedule).swap.first = _
    unfold race
    rw [this]
    rfl
  rw [e, (first_outcome (raceSetup_swap hs) (schedule.map (fun b => !b))
    (by rw [count_true_map_not]; exact h₂)).1, take_map_not]

/-- C9, as amended. Two `POST /votes` requests by one voter who has not
voted, for two different existing candidates, with their storage operations
interleaved in any order and each request given the turns to finish: both
requests finish, each with 201 `Vote cast successfully` or with 400
`Voter not eligible`, and at least one is accepted. A request is refused
exactly when the other request has performed its first four operations (read
voter, read candidate, create Vote, set `has_voted`) before the request's own
first operation, its read of the voter; under every other interleaving both
requests are accepted. Afterwards the voter has one more Vote row per accepted
request, the tally of each accepted request's candidate is its old tally plus
one and every other candidate row is as before, and the voter's `has_voted`
is true. -/
theorem concurrent_votes (s : Store) (v : Voter) (c₁ c₂ : Candidate)
    (hpkV : (s.voters.map Voter.id).Nodup) (hpkC : (s.candidates.map Candidate.id).Nodup)
    (hv : v ∈ s.voters) (hnv : v.has_voted = false) (hc₁ : c₁ ∈ s.candidates)
    (hc₂ : c₂ ∈ s.candidates) (hne : c₁.id ≠ c₂.id) (schedule : List Bool)
    (h₁ : 5 ≤ schedule.count true) (h₂ : 5 ≤ schedule.count false) :
    ∃ a₁ a₂ : Bool,
      (race ⟨v.id, c₁.id⟩ ⟨v.id, c₂.id⟩ s schedule).first
        = .done (if a₁ then ⟨201, .message "Vote cast successfully"⟩
                 else ⟨400, .error "Voter not eligible"⟩) ∧
      (race ⟨v.id, c₁.id⟩ ⟨v.id, c₂.id⟩ s schedule).second
        = .done (if a₂ then ⟨201, .message "Vote cast successfully"⟩
                 else ⟨400, .error "Voter not eligible"⟩) ∧
      (a₁ = true ∨ a₂ = true) ∧
      (a₁ = false ↔ schedule.take 4 = [false, false, false, false]) ∧
      (a₂ = false ↔ schedule.take 4 = [true, true, true, true]) ∧
      votesOf (race ⟨v.id, c₁.id⟩ ⟨v.id, c₂.id⟩ s schedule).store v.id
        = votesOf s v.id + a₁.toNat + a₂.toNat ∧
      votesFor (race ⟨v.id, c₁.id⟩ ⟨v.id, c₂.id⟩ s schedule).store c₁.id
        = votesFor s c₁.id + a₁.toNat ∧
      votesFor (race ⟨v.id, c₁.id⟩ ⟨v.id, c₂.id⟩ s schedule).store c₂.id
        = votesFor s c₂.id + a₂.toNat ∧
      (race ⟨v.id, c₁.id⟩ ⟨v.id, c₂.id⟩ s schedule).store.candidates
        = s.candidates.map (fun c =>
            if a₁ = true ∧ c = c₁ then { c₁ with votes := c₁.votes + 1 }
            else if a₂ = true ∧ c = c₂ then { c₂ with votes := c₂.votes + 1 }
            else c) ∧
      (race ⟨v.id, c₁.id⟩ ⟨v.id, c₂.id⟩ s schedule).store.voters
        = s.voters.map (fun w => if w = v then { v with has_voted := true } else w) := by
  have hs : RaceSetup s v c₁ c₂ := ⟨hpkV, hpkC, hv, hnv, hc₁, hc₂, hne⟩
  have hout₁ := (first_outcome hs schedule h₁).1
  have hout₂ := second_outcome hs schedule h₂
  have hinv := raceInv_race hpkV hpkC hv hnv hc₁ hc₂ hne schedule
  have hrem := remaining_fold ⟨v.id, c₁.id⟩ ⟨v.id, c₂.id⟩ schedule
    { store := s, first := .readVoter, second := .readVoter }
  have ha : (race ⟨v.id, c₁.id⟩ ⟨v.id, c₂.id⟩ s schedule).first.remaining
      ≤ 5 - schedule.count true := hrem.1
  have hb : (race ⟨v.id, c₁.id⟩ ⟨v.id, c₂.id⟩ s schedule).second.remaining
      ≤ 5 - schedule.count false := hrem.2
  obtain ⟨r₁, hr₁⟩ : ∃ r, (race ⟨v.id, c₁.id⟩ ⟨v.id, c₂.id⟩ s schedule).first = .done r :=
    done_of_remaining (by omega)
  obtain ⟨r₂, hr₂⟩ : ∃ r, (race ⟨v.id, c₁.id⟩ ⟨v.id, c₂.id⟩ s schedule).second = .done r :=
    done_of_remaining (by omega)
  clear hrem ha hb
  obtain ⟨hl₁, hl₂, hvs, hcs, hrows, hrows₁, hrows₂, href₁, href₂⟩ := hinv
  rw [hr₁] at hl₁ hvs hcs hrows hrows₁ href₁ href₂ hout₁
  rw [hr₂] at hl₂ hvs hcs hrows hrows₂ href₁ href₂ hout₂
  simp only [Pc.LocalsOk, Pc.marked, Pc.counted, Pc.created] at hl₁ hl₂ hvs hcs
  simp only [Pc.marked, Pc.created] at hrows hrows₁ hrows₂ href₁ href₂
  have hone : (r₁ == voteCast) = true ∨ (r₂ == voteCast) = true := by
    rcases hl₁ with h | h
    · left; rw [h]; decide
    · right; exact href₁ (by rw [h])
  have hno : ∀ r : Response, r = voteCast ∨ r = notEligible →
      ((r == voteCast) = false ↔ Pc.done r = Pc.done notEligible) := by
    intro r hr
    rcases hr with h | h <;> rw [h] <;> decide
  refine ⟨r₁ == voteCast, r₂ == voteCast, ?_, ?_, hone, (hno r₁ hl₁).trans hout₁,
    (hno r₂ hl₂).trans hout₂, hrows, hrows₁, hrows₂, ?_, ?_⟩
  · rw [hr₁]
    rcases hl₁ with h | h <;> rw [h] <;> decide
  · rw [hr₂]
    rcases hl₂ with h | h <;> rw [h] <;> decide
  · rw [hcs]
    simp only [countedCandidates]
    apply List.map_congr_left
    intro c hc
    have hcne : c₁ ≠ c₂ := fun h => hne (h ▸ rfl)
    by_cases e1 : c = c₁
    · rw [e1]
      simp [hne, hcne]
    · have e1' : c.id ≠ c₁.id := fun h => e1 ((pk_eq_iff Candidate.id hpkC hc hc₁).mp h)
      by_cases e2 : c = c₂
      · rw [e2]
        simp [Ne.symm hne, Ne.symm hcne]
      · have e2' : c.id ≠ c₂.id :=
          fun h => e2 ((pk_eq_iff Candidate.id hpkC hc hc₂).mp h)
        simp [e1, e2, e1', e2']
  · rw [hvs]
    have hm : ((r₁ == voteCast) || (r₂ == voteCast)) = true := by
      rcases hone with h | h <;> simp [h]
    simp only [markedVoters, hm, if_true]
    exact map_update_pk Voter.id s.voters hpkV hv (fun w => { w with has_voted := true })

theorem concurrent_votes_counterexample :
    race ⟨1, 1⟩ ⟨1, 2⟩ openBallot
        [true, false, true, true, true, true, false, false, false, false]
      = { store :=
            { voters := [{ id := 1, name := "Alice", email := "alice@x.com",
                           password := "h:pw", has_voted := true }],
              candidates := [{ id := 1, name := "Bob", party := none, votes := 1 },
                             { id := 2, name := "Dave", party := some "Green",
                               votes := 1 }],
              votes := [{ id := 1, voter_id := some 1, candidate_id := some 1 },
                        { id := 2, voter_id := some 1, candidate_id := some 2 }],
              nextVoterId := 2, nextCandidateId := 3, nextVoteId := 3 },
          first := .done ⟨201, .message "Vote cast successfully"⟩,
          second := .done ⟨201, .message "Vote cast successfully"⟩ } := by
  decide

/-! ## Pagination -/

/-- Naturals below `2 ^ 53` are binary64 numbers. -/
theorem fl_natCast {n : ℕ} (h : n < 2 ^ 53) : fl (n : ℚ) = n := by
  rcases Nat.eq_zero_or_pos n with h0 | hpos
  · subst h0; simp [fl_zero]
  · have hk1 : 2 ^ Nat.log 2 n ≤ n := Nat.pow_log_le_self 2 (Nat.pos_iff_ne_zero.mp hpos)
    have hk2 : n < 2 ^ (Nat.log 2 n + 1) := Nat.lt_pow_succ_log_self (by norm_num) n
    have hk : Nat.log 2 n ≤ 52 := by
      by_contra hc
      have : 2 ^ 53 ≤ 2 ^ Nat.log 2 n := Nat.pow_le_pow_right (by norm_num) (by omega)
      omega
    obtain ⟨j, hj⟩ : ∃ j, Nat.log 2 n + j = 52 := ⟨52 - Nat.log 2 n, by omega⟩
    have hm1 : 2 ^ 52 ≤ n * 2 ^ j := by
      calc 2 ^ 52 = 2 ^ Nat.log 2 n * 2 ^ j := by rw [← pow_add, hj]
        _ ≤ n * 2 ^ j := Nat.mul_le_mul_right _ hk1
    have hm2 : n * 2 ^ j < 2 ^ 53 := by
      calc n * 2 ^ j < 2 ^ (Nat.log 2 n + 1) * 2 ^ j :=
            Nat.mul_lt_mul_of_pos_right hk2 (by positivity)
        _ = 2 ^ 53 := by rw [← pow_add]; congr 1; omega
    have := fl_exact ((n * 2 ^ j : ℕ) : ℤ) (-(j : ℤ)) (by exact_mod_cast hm1)
      (by exact_mod_cast hm2)
    have hval : (((n * 2 ^ j : ℕ) : ℤ) : ℚ) * 2 ^ (-(j : ℤ)) = (n : ℚ) := by
      push_cast
      rw [zpow_neg, zpow_natCast, mul_assoc, mul_inv_cancel₀ (by positivity), mul_one]
    rw [hval] at this
    exact this

theorem toNumber_exact {n : ℕ} (h : n < 2 ^ 53) : toNumber n = some (n : ℚ) := by
  have hlt : (n : ℚ) < 2 ^ 1024 := by
    have h1 : (n : ℚ) < 2 ^ 53 := by exact_mod_cast h
    exact lt_trans h1 (by norm_num)
  simp [toNumber, fl_natCast h, hlt]

theorem rounded_natCast {n : ℕ} (h : n < 2 ^ 53) : rounded (n : ℚ) = some (n : ℚ) := by
  have hlt : (n : ℚ) < 2 ^ 1024 := by
    have h1 : (n : ℚ) < 2 ^ 53 := by exact_mod_cast h
    exact lt_trans h1 (by norm_num)
  have habs : |(n : ℚ)| = n := abs_of_nonneg (Nat.cast_nonneg n)
  simp [rounded, fl_natCast h, habs, hlt]

theorem parseIntNumber_natCast {n : ℕ} (h : n < 2 ^ 53) : parseIntNumber (n : ℚ) = n := by
  have hlt : (n : ℚ) < 10 ^ 21 := by
    have h1 : (n : ℚ) < 2 ^ 53 := by exact_mod_cast h
    exact lt_trans h1 (by norm_num)
  simp [parseIntNumber, hlt]

theorem paginate_isPage {α : Type} (rows : List α) (p l : Nat) (hp : 1 ≤ p) (hl : 1 ≤ l)
    (hx : p * l < 2 ^ 53) :
    ∃ items, paginate rows (some p) (some l) = some (rows.length, p, items) ∧
      IsPage rows p l items := by
  have hp53 : p < 2 ^ 53 := lt_of_le_of_lt (Nat.le_mul_of_pos_right p hl) hx
  have hl53 : l < 2 ^ 53 := lt_of_le_of_lt (Nat.le_mul_of_pos_left l hp) hx
  have hpred53 : p - 1 < 2 ^ 53 := by omega
  have hoff53 : (p - 1) * l < 2 ^ 53 :=
    lt_of_le_of_lt (Nat.mul_le_mul_right l (Nat.sub_le p 1)) hx
  have e1 : (p : ℚ) - 1 = ((p - 1 : ℕ) : ℚ) := by
    rw [Nat.cast_sub hp]; simp
  have e2 : ((p - 1 : ℕ) : ℚ) * (l : ℚ) = (((p - 1) * l : ℕ) : ℚ) := by push_cast; ring
  have hnn : ¬ ((((p - 1) * l : ℕ) : ℚ) < 0) := not_lt.mpr (Nat.cast_nonneg _)
  have h64 : ¬ (2 ^ 64 ≤ (p - 1) * l ∨ 2 ^ 64 ≤ l) := by
    have : (2 : ℕ) ^ 53 < 2 ^ 64 := by norm_num
    omega
  refine ⟨(rows.drop ((p - 1) * l)).take l, ?_, ?_, ?_, ?_⟩
  · simp only [paginate, Option.getD_some, toNumber_exact hp53, toNumber_exact hl53, e1,
      rounded_natCast hpred53, e2, rounded_natCast hoff53, hnn, if_false,
      parseIntNumber_natCast hoff53, Int.floor_natCast, Int.toNat_natCast, h64]
  · simp only [List.length_take, List.length_drop]
    have : p * l = (p - 1) * l + l := by
      obtain ⟨k, rfl⟩ : ∃ k, p = k + 1 := ⟨p - 1, by omega⟩
      simp [Nat.succ_mul]
    omega
  · simp only [List.length_take, List.length_drop]
    omega
  · intro i hi
    simp only [List.length_take, List.length_drop] at hi
    rw [List.getElem?_take_of_lt (by omega), List.getElem?_drop]


theorem fl_page_huge : fl ((100000000000000000001 : ℕ) : ℚ) = 100000000000000000000 := by
    have := fl_eval (q := ((100000000000000000001 : ℕ) : ℚ)) 66 6103515625000000
      (by norm_num) (by norm_num) (by norm_num) (by norm_num)
    rw [this]; norm_num
theorem fl_pred_huge : fl ((100000000000000000000 : ℚ) - 1) = 100000000000000000000 := by
    have := fl_eval (q := (100000000000000000000 : ℚ) - 1) 66 6103515625000000
      (by norm_num) (by norm_num) (by norm_num) (by norm_num)
    rw [this]; norm_num
theorem fl_offset_huge : fl ((100000000000000000000 : ℚ) * 10) = 1000000000000000000000 := by
    have := fl_eval (q := (100000000000000000000 : ℚ) * 10) 69 7629394531250000
      (by norm_num) (by norm_num) (by norm_num) (by norm_num)
    rw [this]; norm_num
theorem huge_lt_max : (100000000000000000000 : ℚ) < 2 ^ 1024 := by norm_num
theorem floor_offset_huge : ⌊(1000000000000000000000 : ℚ)⌋.toNat = 10 ^ 21 := by
    have : ⌊(1000000000000000000000 : ℚ)⌋ = ((10 ^ 21 : ℕ) : ℤ) := by
      rw [Int.floor_eq_iff]; norm_num
    rw [this, Int.toNat_natCast]
theorem log_offset_huge : Nat.log 10 (10 ^ 21) = 21 := Nat.log_pow (by norm_num) 21
theorem toNumber_page_huge : toNumber 100000000000000000001 = some 100000000000000000000 := by
    simp only [toNumber, fl_page_huge]
    rw [if_pos (by norm_num)]

theorem fl_next_digit : fl ((2000000000000000000000 : ℕ) : ℚ) = 2000000000000000000000 := by
    have := fl_eval (q := ((2000000000000000000000 : ℕ) : ℚ)) 70 7629394531250000
      (by norm_num) (by norm_num) (by norm_num) (by norm_num)
    rw [this]; norm_num
theorem leadingDigit_offset_huge : leadingDigit (1000000000000000000000 : ℚ) = 1 := by
    simp only [leadingDigit, floor_offset_huge, log_offset_huge]
    have hd : (10 : ℕ) ^ 21 / 10 ^ 21 = 1 := Nat.div_self (by positivity)
    rw [hd]
    have : (((1 + 1) * 10 ^ 21 : ℕ) : ℚ) = ((2000000000000000000000 : ℕ) : ℚ) := by
      norm_num
    rw [this, fl_next_digit]
    norm_num
theorem parseIntNumber_offset_huge : parseIntNumber (1000000000000000000000 : ℚ) = 1 := by
    simp only [parseIntNumber]
    rw [if_neg (by norm_num), leadingDigit_offset_huge]
theorem floor_page_huge : ⌊(100000000000000000000 : ℚ)⌋.toNat = 100000000000000000000 := by
    have : ⌊(100000000000000000000 : ℚ)⌋ = ((100000000000000000000 : ℕ) : ℤ) := by
      rw [Int.floor_eq_iff]; norm_num
    rw [this, Int.toNat_natCast]
theorem rounded_pred_huge : rounded ((100000000000000000000 : ℚ) - 1) = some 100000000000000000000 := by
    simp only [rounded, fl_pred_huge]
    rw [if_pos (by norm_num)]
theorem rounded_offset_huge : rounded ((100000000000000000000 : ℚ) * 10) = some 1000000000000000000000 := by
    simp only [rounded, fl_offset_huge]
    rw [if_pos (by norm_num)]

theorem toNumber_ten : toNumber 10 = some 10 := by
  have := toNumber_exact (n := 10) (by norm_num)
  simpa using this
theorem floor_ten : ⌊(10 : ℚ)⌋.toNat = 10 := by
  have : ⌊(10 : ℚ)⌋ = ((10 : ℕ) : ℤ) := by rw [Int.floor_eq_iff]; norm_num
  rw [this, Int.toNat_natCast]

theorem paginate_eval {α : Type} (rows : List α) (p l : Nat) (pageN limitN pred offset : ℚ)
    (h1 : toNumber p = some pageN) (h2 : toNumber l = some limitN)
    (h3 : rounded (pageN - 1) = some pred) (h4 : rounded (pred * limitN) = some offset)
    (h5 : ¬ offset < 0) (h6 : parseIntNumber offset < 2 ^ 64) (h7 : ⌊limitN⌋.toNat < 2 ^ 64) :
    paginate rows (some p) (some l)
      = some (rows.length, ⌊pageN⌋.toNat,
          (rows.drop (parseIntNumber offset)).take ⌊limitN⌋.toNat) := by
  have h8 : ¬ (2 ^ 64 ≤ parseIntNumber offset ∨ 2 ^ 64 ≤ ⌊limitN⌋.toNat) := by omega
  simp only [paginate, Option.getD_some, h1, h2, h3, h4, h5, h8, if_false]

theorem paginate_huge_page {α : Type} (rows : List α) :
    paginate rows (some 100000000000000000001) (some 10)
      = some (rows.length, 100000000000000000000, (rows.drop 1).take 10) := by
  have h := paginate_eval rows 100000000000000000001 10 100000000000000000000 10
    100000000000000000000 1000000000000000000000 toNumber_page_huge toNumber_ten rounded_pred_huge rounded_offset_huge (by norm_num)
    (by rw [parseIntNumber_offset_huge]; norm_num) (by rw [floor_ten]; norm_num)
  rw [parseIntNumber_offset_huge, floor_page_huge, floor_ten] at h
  exact h

/-- C8, as amended. For every store, page `p ≥ 1` and limit `l ≥ 1` with
`p * l < 2 ^ 53`, the range in which the handler's arithmetic on `page` and
`limit` is exact, each of the three list routes answers 200 with `total` = the
number of stored rows, `page = p` and exactly the rows at positions
`(p - 1) * l` up to `min (p * l) n - 1` in stored order,
`min l (max 0 (n - (p - 1) * l))` of them; a missing `page` counts as 1 and a
missing `limit` as 10. -/
theorem list_routes_paginate (s : Store) (p l : Nat) (hp : 1 ≤ p) (hl : 1 ≤ l)
    (hx : p * l < 2 ^ 53) :
    (∃ items, listVoters s (some p) (some l)
        = (s, ⟨200, .voters s.voters.length p items⟩) ∧ IsPage s.voters p l items) ∧
    (∃ items, listCandidates s (some p) (some l)
        = (s, ⟨200, .candidates s.candidates.length p items⟩) ∧
        IsPage s.candidates p l items) ∧
    (∃ items, listVotes s (some p) (some l)
        = (s, ⟨200, .votes s.votes.length p items⟩) ∧ IsPage s.votes p l items) ∧
    listVoters s none (some l) = listVoters s (some 1) (some l) ∧
    listVoters s (some p) none = listVoters s (some p) (some 10) ∧
    listVoters s none none = listVoters s (some 1) (some 10) ∧
    listCandidates s none (some l) = listCandidates s (some 1) (some l) ∧
    listCandidates s (some p) none = listCandidates s (some p) (some 10) ∧
    listCandidates s none none = listCandidates s (some 1) (some 10) ∧
    listVotes s none (some l) = listVotes s (some 1) (some l) ∧
    listVotes s (some p) none = listVotes s (some p) (some 10) ∧
    listVotes s none none = listVotes s (some 1) (some 10) := by
  refine ⟨?_, ?_, ?_, rfl, rfl, rfl, rfl, rfl, rfl, rfl, rfl, rfl⟩
  · obtain ⟨items, h, hpg⟩ := paginate_isPage s.voters p l hp hl hx
    exact ⟨items, by simp [listVoters, h], hpg⟩
  · obtain ⟨items, h, hpg⟩ := paginate_isPage s.candidates p l hp hl hx
    exact ⟨items, by simp [listCandidates, h], hpg⟩
  · obtain ⟨items, h, hpg⟩ := paginate_isPage s.votes p l hp hl hx
    exact ⟨items, by simp [listVotes, h], hpg⟩

theorem listVotes_of_paginate (s : Store) (page limit : Option Nat) (total pg : Nat)
    (rows : List Vote) (h : paginate s.votes page limit = some (total, pg, rows)) :
    listVotes s page limit = (s, ⟨200, .votes total pg rows⟩) := by
  simp [listVotes, h]

theorem paginate_huge_page_fifteen :
    paginate fifteenVotes.votes (some 100000000000000000001) (some 10)
      = some (15, 100000000000000000000,
          [{ id := 2, voter_id := some 2, candidate_id := some 1 },
           { id := 3, voter_id := some 3, candidate_id := some 1 },
           { id := 4, voter_id := some 4, candidate_id := some 1 },
           { id := 5, voter_id := some 5, candidate_id := some 1 },
           { id := 6, voter_id := some 6, candidate_id := some 1 },
           { id := 7, voter_id := some 7, candidate_id := some 1 },
           { id := 8, voter_id := some 8, candidate_id := some 1 },
           { id := 9, voter_id := some 9, candidate_id := some 1 },
           { id := 10, voter_id := some 10, candidate_id := some 1 },
           { id := 11, voter_id := some 11, candidate_id := some 1 }]) := by
  have h := paginate_huge_page fifteenVotes.votes
  have hlen : fifteenVotes.votes.length = 15 := by decide
  have hrows : (fifteenVotes.votes.drop 1).take 10
      = [{ id := 2, voter_id := some 2, candidate_id := some 1 },
         { id := 3, voter_id := some 3, candidate_id := some 1 },
         { id := 4, voter_id := some 4, candidate_id := some 1 },
         { id := 5, voter_id := some 5, candidate_id := some 1 },
         { id := 6, voter_id := some 6, candidate_id := some 1 },
         { id := 7, voter_id := some 7, candidate_id := some 1 },
         { id := 8, voter_id := some 8, candidate_id := some 1 },
         { id := 9, voter_id := some 9, candidate_id := some 1 },
         { id := 10, voter_id := some 10, candidate_id := some 1 },
         { id := 11, voter_id := some 11, candidate_id := some 1 }] := by decide
  rw [hlen, hrows] at h
  exact h

/-- C8 as stated fails for a page beyond the exact range of the handler's
numbers: over fifteen rows, page `10 ^ 20 + 1` with limit 10 is answered 200
with page `10 ^ 20` and the ten rows from position 1 on, where the page asked
for is empty. -/
theorem list_routes_paginate_counterexample :
    fifteenVotes.votes.length = 15 ∧
    listVotes fifteenVotes (some 100000000000000000001) (some 10)
      = (fifteenVotes, ⟨200, .votes 15 100000000000000000000
          [{ id := 2, voter_id := some 2, candidate_id := some 1 },
           { id := 3, voter_id := some 3, candidate_id := some 1 },
           { id := 4, voter_id := some 4, candidate_id := some 1 },
           { id := 5, voter_id := some 5, candidate_id := some 1 },
           { id := 6, voter_id := some 6, candidate_id := some 1 },
           { id := 7, voter_id := some 7, candidate_id := some 1 },
           { id := 8, voter_id := some 8, candidate_id := some 1 },
           { id := 9, voter_id := some 9, candidate_id := some 1 },
           { id := 10, voter_id := some 10, candidate_id := some 1 },
           { id := 11, voter_id := some 11, candidate_id := some 1 }]⟩) ∧
    (100000000000000000000 : Nat) ≠ 100000000000000000001 ∧
    min 10 (max 0 (15 - (100000000000000000001 - 1) * 10)) = 0 :=
  ⟨by decide, listVotes_of_paginate _ _ _ _ _ _ paginate_huge_page_fifteen,
   by norm_num, by norm_num⟩

/-! ## The theorems at concrete inputs -/

theorem one_vote_per_voter_witness :
    votesOf closedBallot 1 ≤ 1 ∧
    (step sampleEnv
        (run sampleEnv Store.empty
          [.register "Alice" "alice@x.com" "pw", .registerCandidate "Bob" none,
           .registerCandidate "Dave" (some "Green")])
        (.castVote (.verified 1) 1)).2.status = 201 ∧
    step sampleEnv
        (run sampleEnv Store.empty
          ([.register "Alice" "alice@x.com" "pw", .registerCandidate "Bob" none,
            .registerCandidate "Dave" (some "Green")]
            ++ [.castVote (.verified 1) 1] ++ [.statistics, .deleteCandidate 1]))
        (.castVote (.verified 1) 2)
      = (run sampleEnv Store.empty
          ([.register "Alice" "alice@x.com" "pw", .registerCandidate "Bob" none,
            .registerCandidate "Dave" (some "Green")]
            ++ [.castVote (.verified 1) 1] ++ [.statistics, .deleteCandidate 1]),
         ⟨400, .error "Voter not eligible"⟩) :=
  ⟨(one_vote_per_voter sampleEnv).1 _ 1, by decide,
   (one_vote_per_voter sampleEnv).2 _ [.statistics, .deleteCandidate 1] 1 1 2 (by decide)⟩

theorem names_exclusive_witness :
    ({ id := 1, name := "Alice", email := "alice@x.com", password := "h:pw",
       has_voted := false } : Voter)
      ∈ (run sampleEnv Store.empty [.register "Alice" "alice@x.com" "pw"]).voters ∧
    step sampleEnv (run sampleEnv Store.empty [.register "Alice" "alice@x.com" "pw"])
        (.registerCandidate "Alice" (some "Green"))
      = (run sampleEnv Store.empty [.register "Alice" "alice@x.com" "pw"],
         ⟨400, .error
          "This person is already registered as a voter and cannot be registered as candidate"⟩) :=
  ⟨by decide,
   (names_exclusive sampleEnv [.register "Alice" "alice@x.com" "pw"]).2.2
     { id := 1, name := "Alice", email := "alice@x.com", password := "h:pw",
       has_voted := false } (some "Green") (by decide)⟩

theorem castVote_missing_candidate_atomic_witness :
    (openBallot.voters.map Voter.id).Nodup ∧
    ({ id := 1, name := "Alice", email := "alice@x.com", password := "h:pw",
       has_voted := false } : Voter) ∈ openBallot.voters ∧
    (∀ c ∈ openBallot.candidates, c.id ≠ 7) ∧
    step sampleEnv openBallot (.castVote (.verified 1) 7)
      = (openBallot, ⟨400, .error "Candidate not found"⟩) :=
  ⟨by decide, by decide, by decide,
   castVote_missing_candidate_atomic sampleEnv openBallot
     { id := 1, name := "Alice", email := "alice@x.com", password := "h:pw",
       has_voted := false } 7 (by decide) (by decide) rfl (by decide)⟩

theorem castVote_accepted_effect_witness :
    (openBallot.voters.map Voter.id).Nodup ∧
    (openBallot.candidates.map Candidate.id).Nodup ∧
    ({ id := 1, name := "Alice", email := "alice@x.com", password := "h:pw",
       has_voted := false } : Voter) ∈ openBallot.voters ∧
    ({ id := 2, name := "Dave", party := some "Green", votes := 0 } : Candidate)
      ∈ openBallot.candidates ∧
    (step sampleEnv openBallot (.castVote (.verified 1) 2)).2
        = ⟨201, .message "Vote cast successfully"⟩ ∧
    (step sampleEnv openBallot (.castVote (.verified 1) 2)).1.votes
        = openBallot.votes ++ [{ id := 1, voter_id := some 1, candidate_id := some 2 }] :=
  ⟨by decide, by decide, by decide, by decide,
   (castVote_accepted_effect sampleEnv openBallot
     { id := 1, name := "Alice", email := "alice@x.com", password := "h:pw",
       has_voted := false }
     { id := 2, name := "Dave", party := some "Green", votes := 0 }
     (by decide) (by decide) (by decide) rfl (by decide)).1,
   (castVote_accepted_effect sampleEnv openBallot
     { id := 1, name := "Alice", email := "alice@x.com", password := "h:pw",
       has_voted := false }
     { id := 2, name := "Dave", party := some "Green", votes := 0 }
     (by decide) (by decide) (by decide) rfl (by decide)).2.1⟩

theorem percentages_add_up_witness :
    (∀ c ∈ closedBallot.candidates, c.votes < 2 ^ 31) ∧
    tallySum closedBallot = closedBallot.votes.length ∧
    0 < closedBallot.votes.length ∧
    ∃ entries,
      statistics closedBallot
        = (closedBallot, ⟨200, .statistics closedBallot.votes.length entries⟩) ∧
      |percentageSum entries - 100| ≤ 5 / 1000 * (entries.length : ℚ) :=
  ⟨by decide, by decide, by decide,
   percentages_add_up closedBallot (by decide) (by decide) (by decide)⟩

theorem statistics_formula_witness :
    (∀ c ∈ closedBallot.candidates, c.votes < 2 ^ 31) ∧
    ∃ entries,
      statistics closedBallot
        = (closedBallot, ⟨200, .statistics closedBallot.votes.length entries⟩) ∧
      entries.length = closedBallot.candidates.length := by
  obtain ⟨entries, h, hall⟩ := statistics_formula closedBallot (by decide)
  exact ⟨by decide, entries, h, hall.length_eq.symm⟩

theorem list_routes_paginate_witness :
    1 ≤ 2 ∧ 1 ≤ 10 ∧ 2 * 10 < 2 ^ 53 ∧ fifteenVotes.votes.length = 15 ∧
    ∃ items, listVotes fifteenVotes (some 2) (some 10)
        = (fifteenVotes, ⟨200, .votes 15 2 items⟩) ∧ items.length = 5 := by
  obtain ⟨-, -, ⟨items, h, -, hlen, -⟩, -⟩ :=
    list_routes_paginate fifteenVotes 2 10 (by decide) (by decide) (by norm_num)
  exact ⟨by decide, by decide, by norm_num, by decide, items, h,
    by simpa [fifteenVotes] using hlen⟩

theorem concurrent_votes_witness :
    (openBallot.voters.map Voter.id).Nodup ∧
    (openBallot.candidates.map Candidate.id).Nodup ∧
    5 ≤ [true, true, true, true, true, false, false, false, false, false].count true ∧
    5 ≤ [true, true, true, true, true, false, false, false, false, false].count false ∧
    ∃ a₁ a₂ : Bool,
      (race ⟨1, 1⟩ ⟨1, 2⟩ openBallot
          [true, true, true, true, true, false, false, false, false, false]).first
        = .done (if a₁ then ⟨201, .message "Vote cast successfully"⟩
                 else ⟨400, .error "Voter not eligible"⟩) ∧
      (race ⟨1, 1⟩ ⟨1, 2⟩ openBallot
          [true, true, true, true, true, false, false, false, false, false]).second
        = .done (if a₂ then ⟨201, .message "Vote cast successfully"⟩
                 else ⟨400, .error "Voter not eligible"⟩) ∧
      a₁ = true ∧ a₂ = false := by
  obtain ⟨a₁, a₂, h1, h2, h3, -, h5, -⟩ :=
    concurrent_votes openBallot
      { id := 1, name := "Alice", email := "alice@x.com", password := "h:pw",
        has_voted := false }
      { id := 1, name := "Bob", party := none, votes := 0 }
      { id := 2, name := "Dave", party := some "Green", votes := 0 }
      (by decide) (by decide) (by decide) rfl (by decide) (by decide) (by decide)
      [true, true, true, true, true, false, false, false, false, false]
      (by decide) (by decide)
  have h6 : a₂ = false := h5.mpr rfl
  have h7 : a₁ = true := by
    rcases h3 with h | h
    · exact h
    · rw [h6] at h; cases h
  exact ⟨by decide, by decide, by decide, by decide, a₁, a₂, h1, h2, h7, h6⟩

theorem tally_consistent_witness :
    KeepsVotedVoters sampleEnv Store.empty
      [.register "Alice" "alice@x.com" "pw", .register "Carol" "carol@x.com" "pw",
       .registerCandidate "Bob" none, .castVote (.verified 1) 1, .deleteVoter 2] ∧
    sampleEnv.voterFk = .cascade ∧
    ({ id := 1, name := "Bob", party := none, votes := 1 } : Candidate)
      ∈ (run sampleEnv Store.empty
          [.register "Alice" "alice@x.com" "pw", .register "Carol" "carol@x.com" "pw",
           .registerCandidate "Bob" none, .castVote (.verified 1) 1,
           .deleteVoter 2]).candidates ∧
    1 = votesFor (run sampleEnv Store.empty
          [.register "Alice" "alice@x.com" "pw", .register "Carol" "carol@x.com" "pw",
           .registerCandidate "Bob" none, .castVote (.verified 1) 1, .deleteVoter 2]) 1 ∧
    (step sampleEnv
        (run sampleEnv Store.empty
          [.register "Alice" "alice@x.com" "pw", .register "Carol" "carol@x.com" "pw",
           .registerCandidate "Bob" none, .castVote (.verified 1) 1, .deleteVoter 2])
        (.deleteVoter 1)).1.votes = [] :=
  ⟨by simp [KeepsVotedVoters]; decide, rfl, by decide,
   (tally_consistent sampleEnv _).2.1 (Or.inr (by simp [KeepsVotedVoters]; decide))
     { id := 1, name := "Bob", party := none, votes := 1 } (by decide),
   by rw [(tally_consistent sampleEnv []).2.2 rfl _ 1 (by decide)]; decide⟩

theorem ledger_append_only_up_to_deletes_witness :
    sampleEnv.voterFk = .cascade ∧
    (∃ v ∈ closedBallot.voters, v.id = 1) ∧
    closedBallot.votes
      = [{ id := 1, voter_id := some 1, candidate_id := some 1 },
         { id := 2, voter_id := some 2, candidate_id := some 2 }] ∧
    (step sampleEnv closedBallot (.deleteVoter 1)).2
      = ⟨200, .message "Voter deleted successfully"⟩ ∧
    ({ id := 2, voter_id := some 2, candidate_id := some 2 } : Vote)
      ∈ (step sampleEnv closedBallot (.deleteVoter 1)).1.votes ∧
    ({ id := 1, voter_id := some 1, candidate_id := some 1 } : Vote)
      ∉ (step sampleEnv closedBallot (.deleteVoter 1)).1.votes ∧
    ({ id := 1, voter_id := some 1, candidate_id := some 1 } : Vote)
      ∈ (step sampleEnv closedBallot (.registerCandidate "Erin" none)).1.votes :=
  ⟨rfl, by decide, by decide,
   ((ledger_append_only_up_to_deletes sampleEnv closedBallot).2.2.2.1 rfl 1 (by decide)).1,
   (ledger_append_only_up_to_deletes sampleEnv closedBallot).2.1 1 _ (by decide) (by decide),
   ((ledger_append_only_up_to_deletes sampleEnv closedBallot).2.2.2.1 rfl 1
     (by decide)).2.2 _ (by decide) rfl,
   ((ledger_append_only_up_to_deletes sampleEnv closedBallot).1
     (.registerCandidate "Erin" none) (by intro id h; cases h) (by intro id h; cases h)).1 _
     (by decide)⟩

end Voting
